import Mathlib

/-!
# FormBridge intake runtime: a verification development

A shallow embedding of the FormBridge intake runtime (Python package
`formbridge`): the submission state machine (`state_machine.py`), the event
record and emitter (`events.py`), the runtime orchestrator (`runtime.py`) and
the validation engine (`validation.py`), together with theorems about the
behaviour those modules implement.

Modelling conventions, used throughout:
* Python dicts that only serve as string-keyed JSON documents become
  association lists `List (String × Json)` (Python dicts preserve insertion
  order, as do association lists).
* Machine-generated randomness (`uuid.uuid4().hex`, `secrets.token_urlsafe`)
  is modelled by deterministic injective generators fed from a per-runtime
  counter; the properties the code relies on (output alphabet, output length,
  freshness of successive draws) are preserved and proved below.
* Python exceptions become `Except`; methods that mutate `self` become
  functions returning the updated record alongside the result.
* Python floats do not occur on the paths modelled here; JSON numbers are
  modelled as integers.
-/

set_option maxRecDepth 4000

namespace FormBridge

/-- `types.py`: the `SubmissionState` enumeration (eleven lifecycle states). -/
inductive SubmissionState where
  | draft
  | in_progress
  | awaiting_input
  | awaiting_upload
  | submitted
  | needs_review
  | approved
  | rejected
  | finalized
  | cancelled
  | expired
deriving DecidableEq, Repr

/-- The `.value` string of each `SubmissionState` member. -/
def SubmissionState.value : SubmissionState → String
  | .draft => "draft"
  | .in_progress => "in_progress"
  | .awaiting_input => "awaiting_input"
  | .awaiting_upload => "awaiting_upload"
  | .submitted => "submitted"
  | .needs_review => "needs_review"
  | .approved => "approved"
  | .rejected => "rejected"
  | .finalized => "finalized"
  | .cancelled => "cancelled"
  | .expired => "expired"

/-- `types.py`: the `EventType` enumeration (nineteen audit event kinds). -/
inductive EventType where
  | SUBMISSION_CREATED
  | FIELD_UPDATED
  | VALIDATION_PASSED
  | VALIDATION_FAILED
  | UPLOAD_REQUESTED
  | UPLOAD_COMPLETED
  | UPLOAD_FAILED
  | SUBMISSION_SUBMITTED
  | REVIEW_REQUESTED
  | REVIEW_APPROVED
  | REVIEW_REJECTED
  | DELIVERY_ATTEMPTED
  | DELIVERY_SUCCEEDED
  | DELIVERY_FAILED
  | SUBMISSION_FINALIZED
  | SUBMISSION_CANCELLED
  | SUBMISSION_EXPIRED
  | HANDOFF_LINK_ISSUED
  | HANDOFF_RESUMED
deriving DecidableEq, Repr

/-- The `.value` string of each `EventType` member. -/
def EventType.value : EventType → String
  | .SUBMISSION_CREATED => "submission.created"
  | .FIELD_UPDATED => "field.updated"
  | .VALIDATION_PASSED => "validation.passed"
  | .VALIDATION_FAILED => "validation.failed"
  | .UPLOAD_REQUESTED => "upload.requested"
  | .UPLOAD_COMPLETED => "upload.completed"
  | .UPLOAD_FAILED => "upload.failed"
  | .SUBMISSION_SUBMITTED => "submission.submitted"
  | .REVIEW_REQUESTED => "review.requested"
  | .REVIEW_APPROVED => "review.approved"
  | .REVIEW_REJECTED => "review.rejected"
  | .DELIVERY_ATTEMPTED => "delivery.attempted"
  | .DELIVERY_SUCCEEDED => "delivery.succeeded"
  | .DELIVERY_FAILED => "delivery.failed"
  | .SUBMISSION_FINALIZED => "submission.finalized"
  | .SUBMISSION_CANCELLED => "submission.cancelled"
  | .SUBMISSION_EXPIRED => "submission.expired"
  | .HANDOFF_LINK_ISSUED => "handoff.link_issued"
  | .HANDOFF_RESUMED => "handoff.resumed"

/-- `types.py`: the `ActorKind` enumeration. -/
inductive ActorKind where
  | agent
  | human
  | system
deriving DecidableEq, Repr

/-- The `.value` string of each `ActorKind` member. -/
def ActorKind.value : ActorKind → String
  | .agent => "agent"
  | .human => "human"
  | .system => "system"

/-- `types.py`: the `FieldErrorCode` enumeration. -/
inductive FieldErrorCode where
  | REQUIRED
  | INVALID_TYPE
  | INVALID_FORMAT
  | INVALID_VALUE
  | TOO_LONG
  | TOO_SHORT
  | FILE_REQUIRED
  | FILE_TOO_LARGE
  | FILE_WRONG_TYPE
  | CUSTOM
deriving DecidableEq, Repr

/-- A JSON value, as produced by Python's `json` module on the documents this
system handles. Object members keep insertion order, like Python dicts.
Numbers are modelled as integers (no float occurs on the modelled paths). -/
inductive Json where
  | null
  | bool (b : Bool)
  | num (n : Int)
  | str (s : String)
  | arr (elems : List Json)
  | obj (members : List (String × Json))
deriving Repr

/-- Look up the first binding of `key` in a JSON-object member list
(Python `dict[key]` / `dict.get(key)`; member lists built by this model never
repeat a key). -/
def jlookup (members : List (String × Json)) (key : String) : Option Json :=
  match members with
  | [] => none
  | (k, v) :: rest => if k = key then some v else jlookup rest key

/-- `types.py`: the `Actor` dataclass. `metadata = none` is Python `None`;
`metadata = some kvs` is a dict (the dataclass default is the empty dict,
i.e. `some []`). -/
structure Actor where
  kind : ActorKind
  id : String
  name : Option String := none
  metadata : Option (List (String × Json)) := some []
deriving Repr

/-- A `datetime.datetime` value: calendar fields plus an optional fixed UTC
offset in minutes (`none` = naive). Python offsets of sub-minute precision do
not occur here (`timezone.utc` is used throughout the code). -/
structure Datetime where
  year : Nat
  month : Nat
  day : Nat
  hour : Nat
  minute : Nat
  second : Nat
  microsecond : Nat
  tzOffsetMinutes : Option Int
deriving DecidableEq, Repr

/-- `events.py`: the `IntakeEvent` dataclass. `payload = none` is Python
`None`; a present payload is a string-keyed dict. -/
structure IntakeEvent where
  event_id : String
  type : EventType
  submission_id : String
  ts : Datetime
  actor : Actor
  state : SubmissionState
  payload : Option (List (String × Json)) := none
deriving Repr

/-! ## `state_machine.py` -/

/-- `state_machine.py`: `InvalidStateTransitionError` (current state, target
state, human-readable message). -/
structure InvalidStateTransitionError where
  current_state : SubmissionState
  target_state : SubmissionState
  message : String
deriving Repr

/-- `state_machine.py`: the `STATE_TO_EVENT_TYPE` dict, as a partial map
(`none` for the three intermediate states that are absent from the dict). -/
def STATE_TO_EVENT_TYPE : SubmissionState → Option EventType
  | .draft => some .SUBMISSION_CREATED
  | .submitted => some .SUBMISSION_SUBMITTED
  | .needs_review => some .REVIEW_REQUESTED
  | .approved => some .REVIEW_APPROVED
  | .rejected => some .REVIEW_REJECTED
  | .finalized => some .SUBMISSION_FINALIZED
  | .cancelled => some .SUBMISSION_CANCELLED
  | .expired => some .SUBMISSION_EXPIRED
  | .in_progress => none
  | .awaiting_input => none
  | .awaiting_upload => none

/-- `state_machine.py`: the `VALID_TRANSITIONS` adjacency table (target sets
written as lists, in source order). -/
def VALID_TRANSITIONS : SubmissionState → List SubmissionState
  | .draft => [.in_progress, .cancelled, .expired]
  | .in_progress => [.awaiting_input, .awaiting_upload, .submitted, .cancelled, .expired]
  | .awaiting_input => [.in_progress, .cancelled, .expired]
  | .awaiting_upload => [.in_progress, .cancelled, .expired]
  | .submitted => [.needs_review, .finalized, .rejected, .cancelled, .expired]
  | .needs_review => [.approved, .rejected, .cancelled, .expired]
  | .approved => [.finalized, .cancelled, .expired]
  | .rejected => []
  | .finalized => []
  | .cancelled => []
  | .expired => []

/-- `state_machine.py`: the `SubmissionStateMachine` dataclass (its private
`_events` list included). -/
structure SubmissionStateMachine where
  submission_id : String
  state : SubmissionState := .draft
  events : List IntakeEvent := []
deriving Repr

/-- `SubmissionStateMachine.can_transition_to`. -/
def canTransitionTo (sm : SubmissionStateMachine) (target : SubmissionState) : Bool :=
  target ∈ VALID_TRANSITIONS sm.state

/-- `SubmissionStateMachine.is_terminal`. -/
def isTerminal (sm : SubmissionStateMachine) : Bool :=
  (VALID_TRANSITIONS sm.state).length = 0

/-- The error message `transition_to` formats for an illegal transition
(the valid-target enumeration is sorted, per Python `sorted`). -/
def invalidTransitionMessage (cur target : SubmissionState) : String :=
  if (VALID_TRANSITIONS cur).length ≠ 0 then
    "Invalid state transition: cannot transition from '" ++ cur.value ++ "' to '"
      ++ target.value ++ "'. Valid transitions from '" ++ cur.value ++ "' are: "
      ++ String.intercalate ", "
        (((VALID_TRANSITIONS cur).map SubmissionState.value).mergeSort (fun a b => a ≤ b))
  else
    "Invalid state transition: '" ++ cur.value
      ++ "' is a terminal state, no transitions are allowed."

/-- `SubmissionStateMachine._emit_event`: mints the transition event.
`uuidHex` stands for the fresh `uuid.uuid4().hex` draw (32 hex characters),
of which the code keeps the first 16; `ts` stands for
`datetime.now(timezone.utc)`. -/
def emitEvent (sub_id : String) (new_state : SubmissionState) (actor : Actor)
    (old_state : SubmissionState) (uuidHex : String) (ts : Datetime) : IntakeEvent :=
  { event_id := "evt_" ++ uuidHex.take 16
    type := (STATE_TO_EVENT_TYPE new_state).getD .FIELD_UPDATED
    submission_id := sub_id
    ts := ts
    actor := actor
    state := new_state
    payload := some [("from_state", .str old_state.value), ("to_state", .str new_state.value)] }

/-- `SubmissionStateMachine.transition_to`: on an illegal target it raises
`InvalidStateTransitionError` before touching any state (so the returned
machine is the input machine); on a legal target it sets the state and
appends the minted event. -/
def transitionTo (sm : SubmissionStateMachine) (target : SubmissionState) (actor : Actor)
    (uuidHex : String) (ts : Datetime) :
    Except InvalidStateTransitionError Unit × SubmissionStateMachine :=
  if canTransitionTo sm target then
    let old_state := sm.state
    let sm1 := { sm with state := target }
    let ev := emitEvent sm1.submission_id target actor old_state uuidHex ts
    (.ok (), { sm1 with events := sm1.events ++ [ev] })
  else
    (.error { current_state := sm.state, target_state := target
              message := invalidTransitionMessage sm.state target }, sm)

/-- One `transition_to` call described by its arguments: target, actor, the
`uuid4().hex` draw, and the wall-clock timestamp. -/
structure TransitionCall where
  target : SubmissionState
  actor : Actor
  uuidHex : String
  ts : Datetime

/-- Perform one call, keeping the (unchanged) machine when the call raises —
exactly what a caller that catches `InvalidStateTransitionError` observes. -/
def applyCall (sm : SubmissionStateMachine) (c : TransitionCall) : SubmissionStateMachine :=
  (transitionTo sm c.target c.actor c.uuidHex c.ts).2

/-- Run a sequence of `transition_to` calls. -/
def runCalls (sm : SubmissionStateMachine) (cs : List TransitionCall) : SubmissionStateMachine :=
  cs.foldl applyCall sm

/-- The event-log invariant of claim C2: every logged event carries the
machine's `submission_id`, and a non-empty log ends with an event whose
`state` is the machine's current state. -/
def eventsConsistent (sm : SubmissionStateMachine) : Prop :=
  (∀ e ∈ sm.events, e.submission_id = sm.submission_id) ∧
  (∀ e, sm.events.getLast? = some e → e.state = sm.state)

/-! ## `events.py`: the event emitter -/

/-- `events.py`: `EventEmitter`'s listener registries. Listeners are opaque
handles of type `α`; what a listener does when invoked is supplied to `emit`
separately (see `EventEmitter.emit`). The Python `_listeners` dict keyed by
event type is modelled as a total function into lists: a missing key and an
empty list are indistinguishable in `emit` (both mean no type-specific
listener runs), which is the only way `emit` consults the dict. -/
structure EventEmitter (α : Type) where
  listeners : EventType → List α
  anyListeners : List α

/-- `EventEmitter.__init__`: empty registries. -/
def EventEmitter.empty {α : Type} : EventEmitter α :=
  { listeners := fun _ => [], anyListeners := [] }

/-- `EventEmitter.on`: append the listener to the list for one event type. -/
def EventEmitter.on {α : Type} (em : EventEmitter α) (event_type : EventType) (l : α) :
    EventEmitter α :=
  { em with
    listeners := fun t => if t = event_type then em.listeners t ++ [l] else em.listeners t }

/-- `EventEmitter.on_any`: append the listener to the wildcard list. -/
def EventEmitter.onAny {α : Type} (em : EventEmitter α) (l : α) : EventEmitter α :=
  { em with anyListeners := em.anyListeners ++ [l] }

/-- The body of `emit`'s two `for` loops: each listener in the list is
invoked exactly once, in list order. `behaviour l ev = .error msg` models the
listener raising an exception, which the loop's `try/except` swallows: the
outcome is recorded in the trace and the loop continues with the remaining
listeners. -/
def invokeAll {α : Type} (behaviour : α → IntakeEvent → Except String Unit)
    (event : IntakeEvent) : List α → List (α × Except String Unit)
  | [] => []
  | l :: ls => (l, behaviour l event) :: invokeAll behaviour event ls

/-- `EventEmitter.emit`: invoke the type-specific listeners for the event's
type first, then the wildcard listeners. Total — it returns the invocation
trace to its caller whatever the listeners' behaviour, mirroring that Python
`emit` suppresses every listener exception and never re-raises. -/
def EventEmitter.emit {α : Type} (em : EventEmitter α)
    (behaviour : α → IntakeEvent → Except String Unit) (event : IntakeEvent) :
    List (α × Except String Unit) :=
  invokeAll behaviour event (em.listeners event.type) ++ invokeAll behaviour event em.anyListeners

/-- One subscription call against an emitter: `on(type, listener)` or
`on_any(listener)`. -/
inductive RegCall (α : Type) where
  | on (event_type : EventType) (l : α)
  | onAny (l : α)

/-- Apply one subscription call. -/
def applyReg {α : Type} (em : EventEmitter α) : RegCall α → EventEmitter α
  | .on t l => em.on t l
  | .onAny l => em.onAny l

/-- Apply a sequence of subscription calls, oldest first. -/
def applyRegs {α : Type} (em : EventEmitter α) (cs : List (RegCall α)) : EventEmitter α :=
  cs.foldl applyReg em

/-- The listeners a call sequence subscribes to one specific event type, in
registration order. -/
def regsFor {α : Type} (t : EventType) : List (RegCall α) → List α
  | [] => []
  | .on t' l :: cs => if t' = t then l :: regsFor t cs else regsFor t cs
  | .onAny _ :: cs => regsFor t cs

/-- The wildcard listeners a call sequence subscribes, in registration
order. -/
def regsAny {α : Type} : List (RegCall α) → List α
  | [] => []
  | .on _ _ :: cs => regsAny cs
  | .onAny l :: cs => l :: regsAny cs

/-! ## Identifier minting (`uuid.uuid4().hex`, `secrets.token_urlsafe`) -/

/-- The lowercase hexadecimal digit character for `n < 16`. -/
def hexDigitChar (n : Nat) : Char :=
  if n < 10 then Char.ofNat (48 + n) else Char.ofNat (87 + n)

/-- Is `c` a lowercase hexadecimal digit (`0`-`9` or `a`-`f`)? -/
def isHexChar (c : Char) : Bool :=
  (Char.ofNat 48 ≤ c && c ≤ Char.ofNat 57) || (Char.ofNat 97 ≤ c && c ≤ Char.ofNat 102)

/-- Modelled environment: the 32-character `uuid.uuid4().hex` string for one
random draw, the draws numbered by a per-runtime counter. The counter's
base-16 digits are laid out low-first, so distinct counters below `16 ^ 16`
give strings that already differ within the first 16 characters — preserving,
for the code's `[:16]` truncation, the freshness that `uuid4` provides with
overwhelming probability. -/
def uuidHexDraw (counter : Nat) : String :=
  ⟨(List.range 32).map fun i => hexDigitChar (counter / 16 ^ i % 16)⟩

/-- The URL-safe base64 alphabet character for `n < 64` (RFC 4648 §5:
`A`-`Z`, `a`-`z`, `0`-`9`, `-`, `_`). -/
def b64UrlChar (n : Nat) : Char :=
  if n < 26 then Char.ofNat (65 + n)
  else if n < 52 then Char.ofNat (97 + (n - 26))
  else if n < 62 then Char.ofNat (48 + (n - 52))
  else if n = 62 then Char.ofNat 45
  else Char.ofNat 95

/-- Is `c` in the URL-safe base64 alphabet? -/
def isB64UrlChar (c : Char) : Bool :=
  (Char.ofNat 65 ≤ c && c ≤ Char.ofNat 90) || (Char.ofNat 97 ≤ c && c ≤ Char.ofNat 122) ||
    (Char.ofNat 48 ≤ c && c ≤ Char.ofNat 57) || c = Char.ofNat 45 || c = Char.ofNat 95

/-- Unpadded base64url encoding of a byte list: groups of 3 bytes to 4
characters, a trailing 1 or 2 bytes to 2 or 3 characters, no padding — what
`secrets.token_urlsafe` does (`base64.urlsafe_b64encode` with the `=` padding
stripped). -/
def b64UrlEncode : List Nat → List Char
  | b0 :: b1 :: b2 :: rest =>
      b64UrlChar (b0 / 4) :: b64UrlChar (b0 % 4 * 16 + b1 / 16)
        :: b64UrlChar (b1 % 16 * 4 + b2 / 64) :: b64UrlChar (b2 % 64) :: b64UrlEncode rest
  | [b0, b1] => [b64UrlChar (b0 / 4), b64UrlChar (b0 % 4 * 16 + b1 / 16), b64UrlChar (b1 % 16 * 4)]
  | [b0] => [b64UrlChar (b0 / 4), b64UrlChar (b0 % 4 * 16)]
  | [] => []

/-- Modelled environment: `secrets.token_urlsafe(32)` for one draw — 32 bytes
of entropy, base64url-encoded without padding (43 characters). The bytes are
derived injectively from the draw counter (low byte first). -/
def tokenUrlsafe32 (counter : Nat) : String :=
  ⟨b64UrlEncode ((List.range 32).map fun i => counter / 256 ^ i % 256)⟩

/-! ## `errors.py` and `validation.py`: the validation engine -/

/-- `errors.py`: the `FieldError` dataclass. `expected`/`received` are
`Optional[Any]`; modelled as optional JSON values (`none` is Python
`None`). -/
structure FieldError where
  path : String
  code : FieldErrorCode
  message : String
  expected : Option Json := none
  received : Option Json := none
deriving Repr

/-- `validation.py`: the `ValidationResult` dataclass. -/
structure ValidationResult where
  is_valid : Bool
  errors : List FieldError
  data : Option (List (String × Json)) := none
  missing_fields : Option (List String) := none
  invalid_fields : Option (List String) := none
deriving Repr

/-- Modelled from the spec: the schema language of the external
JSON-Schema-Draft-7 validator (`jsonschema.Draft7Validator`, a dependency the
repository does not reimplement — spec §1 non-goals, §4.2 schema contract),
restricted to the keywords this development exercises: `type`, `enum`,
`required`, `properties`, `minLength`, `maxLength`, `minimum`, `maximum`.
Constructor arguments in that order. -/
inductive Schema where
  | mk (type? : Option String) (required : List String)
      (properties : List (String × Schema)) (enum? : Option (List Json))
      (minLength? : Option Nat) (maxLength? : Option Nat)
      (minimum? : Option Int) (maximum? : Option Int)

/-- The `required` keyword of a schema. -/
def Schema.required : Schema → List String
  | .mk _ r _ _ _ _ _ _ => r

/-- The `properties` keyword of a schema. -/
def Schema.properties : Schema → List (String × Schema)
  | .mk _ _ p _ _ _ _ _ => p

/-- A schema with only a `type` keyword. -/
def schemaOfType (t : String) : Schema :=
  .mk (some t) [] [] none none none none none

mutual

/-- Structural equality of JSON values, used by the `enum` keyword (Python
`==` on parsed JSON documents; the model is order-sensitive for object
members and does not model Python's `True == 1` coincidence — neither corner
is exercised by any claim). -/
def jsonEq : Json → Json → Bool
  | .null, .null => true
  | .bool a, .bool b => a = b
  | .num a, .num b => a = b
  | .str a, .str b => a = b
  | .arr xs, .arr ys => jsonListEq xs ys
  | .obj xs, .obj ys => jsonMembersEq xs ys
  | _, _ => false

/-- Elementwise `jsonEq` on arrays. -/
def jsonListEq : List Json → List Json → Bool
  | [], [] => true
  | x :: xs, y :: ys => jsonEq x y && jsonListEq xs ys
  | _, _ => false

/-- Elementwise `jsonEq` on object member lists. -/
def jsonMembersEq : List (String × Json) → List (String × Json) → Bool
  | [], [] => true
  | (k, v) :: xs, (k', v') :: ys => k = k' && jsonEq v v' && jsonMembersEq xs ys
  | _, _ => false

end

/-- Does instance `j` satisfy JSON-Schema type name `t`? (An integer
satisfies both `number` and `integer`; booleans satisfy only `boolean`, as
`jsonschema` special-cases Python's `bool <: int`.) -/
def jsonTypeMatches (t : String) (j : Json) : Bool :=
  match j with
  | .null => t = "null"
  | .bool _ => t = "boolean"
  | .num _ => t = "number" || t = "integer"
  | .str _ => t = "string"
  | .arr _ => t = "array"
  | .obj _ => t = "object"

/-- Python's `type(x).__name__` for a value decoded from JSON (floats do not
occur in this model). -/
def pythonTypeName : Json → String
  | .null => "NoneType"
  | .bool _ => "bool"
  | .num _ => "int"
  | .str _ => "str"
  | .arr _ => "list"
  | .obj _ => "dict"

/-- Python `str()` of a scalar value, for embedding values into diagnostic
message text (messages are modelled up to the formatting of embedded
non-scalar values; no claim observes message text except the `required`
extraction, which is exact). -/
def jsonScalarStr : Json → String
  | .null => "None"
  | .bool true => "True"
  | .bool false => "False"
  | .num n => toString n
  | .str s => s
  | .arr _ => "<list>"
  | .obj _ => "<dict>"

/-- A raw diagnostic of the external validator
(`jsonschema.ValidationError`): the failed keyword (`.validator`), the
instance path (`.path`, property names from the root), the message, the
offending instance and the keyword's value in the schema. -/
structure RawError where
  validator : String
  path : List String
  message : String
  inst : Json
  validator_value : Json
deriving Repr

/-- The `type` keyword's diagnostics at one instance location. -/
def typeKeywordErrors (t? : Option String) (path : List String) (j : Json) : List RawError :=
  match t? with
  | some t =>
      if jsonTypeMatches t j then []
      else [{ validator := "type", path := path
              message := pythonTypeName j ++ " is not of type " ++ t
              inst := j, validator_value := .str t }]
  | none => []

/-- The `enum` keyword's diagnostics at one instance location. -/
def enumKeywordErrors (enum? : Option (List Json)) (path : List String) (j : Json) :
    List RawError :=
  match enum? with
  | some vs =>
      if vs.any (fun v => jsonEq v j) then []
      else [{ validator := "enum", path := path
              message := "is not one of the enumerated values"
              inst := j, validator_value := .arr vs }]
  | none => []

/-- The `required` keyword's diagnostics on an object instance: one per
declared name with no binding, carrying the `'<name>' is a required
property` message the translation layer extracts from. -/
def requiredKeywordErrors (req : List String) (path : List String)
    (members : List (String × Json)) : List RawError :=
  req.filterMap fun p =>
    if (jlookup members p).isSome then none
    else some { validator := "required", path := path
                message := "'" ++ p ++ "' is a required property"
                inst := .obj members, validator_value := .arr (req.map Json.str) }

/-- The `minLength` keyword's diagnostics (strings only). -/
def minLengthKeywordErrors (minL? : Option Nat) (path : List String) (j : Json) :
    List RawError :=
  match minL?, j with
  | some n, .str str =>
      if str.length < n then
        [{ validator := "minLength", path := path, message := "is too short"
           inst := j, validator_value := .num n }]
      else []
  | _, _ => []

/-- The `maxLength` keyword's diagnostics (strings only). -/
def maxLengthKeywordErrors (maxL? : Option Nat) (path : List String) (j : Json) :
    List RawError :=
  match maxL?, j with
  | some n, .str str =>
      if n < str.length then
        [{ validator := "maxLength", path := path, message := "is too long"
           inst := j, validator_value := .num n }]
      else []
  | _, _ => []

/-- The `minimum` keyword's diagnostics (numbers only). -/
def minimumKeywordErrors (minI? : Option Int) (path : List String) (j : Json) :
    List RawError :=
  match minI?, j with
  | some n, .num v =>
      if v < n then
        [{ validator := "minimum", path := path, message := "is below the minimum"
           inst := j, validator_value := .num n }]
      else []
  | _, _ => []

/-- The `maximum` keyword's diagnostics (numbers only). -/
def maximumKeywordErrors (maxI? : Option Int) (path : List String) (j : Json) :
    List RawError :=
  match maxI?, j with
  | some n, .num v =>
      if n < v then
        [{ validator := "maximum", path := path, message := "is above the maximum"
           inst := j, validator_value := .num n }]
      else []
  | _, _ => []

mutual

/-- Modelled from the spec: `Draft7Validator.iter_errors` on the keyword
subset of `Schema` — §4.2: "Runs a schema validator over submission data",
"The engine must return all diagnostics", "Paths use dot-notation joining
property names in encounter order"; the `required` message is the
`'<name>' is a required property` text the translation layer extracts from.
Keyword evaluation order is fixed as: type, enum, required, properties (in
property order, descending only into properties present on the instance),
minLength, maxLength, minimum, maximum. -/
def iterErrors (s : Schema) (path : List String) (j : Json) : List RawError :=
  match s with
  | .mk t? req props enum? minL? maxL? minI? maxI? =>
      typeKeywordErrors t? path j
        ++ enumKeywordErrors enum? path j
        ++ (match j with
            | .obj members =>
                requiredKeywordErrors req path members ++ iterErrorsProps props path members
            | _ => [])
        ++ minLengthKeywordErrors minL? path j
        ++ maxLengthKeywordErrors maxL? path j
        ++ minimumKeywordErrors minI? path j
        ++ maximumKeywordErrors maxI? path j

/-- The `properties` loop of `iter_errors`: descend into each declared
property that the instance carries, extending the path. -/
def iterErrorsProps : List (String × Schema) → List String → List (String × Json) → List RawError
  | [], _, _ => []
  | (name, sub) :: rest, path, members =>
      (match jlookup members name with
       | some v => iterErrors sub (path ++ [name]) v
       | none => []) ++ iterErrorsProps rest path members

end

/-- `".".join(...)` over the path elements (`ValidationEngine._translate_error`:
empty path gives the empty string, which is also what the source's dead
`error.path[0] if error.path else ""` alternative would give). -/
def pathJoin : List String → String
  | [] => ""
  | [x] => x
  | x :: xs => x ++ "." ++ pathJoin xs

/-- Python `str.split(sep)` for a one-character separator, on the character
list. Always returns at least one group. -/
def splitOnChar (c : Char) : List Char → List (List Char)
  | [] => [[]]
  | x :: xs =>
      match splitOnChar c xs with
      | [] => [[]]
      | g :: gs => if x = c then [] :: g :: gs else (x :: g) :: gs

/-- `_translate_error`'s extraction of the missing property name:
`error.message.split("'")[1] if "'" in error.message else "field"`. -/
def extractQuoted (msg : String) : String :=
  if msg.data.contains (Char.ofNat 39) then
    match splitOnChar (Char.ofNat 39) msg.data with
    | _ :: second :: _ => String.mk second
    | _ => "field"
  else "field"

/-- `None` for JSON null, otherwise the value: a `jsonschema` error's
`.instance`/`.validator_value` of JSON null is Python `None`, and the
dataclass fields that receive them are `Optional`. -/
def optOfJson : Json → Option Json
  | .null => none
  | j => some j

/-- `ValidationEngine._translate_error`: map one raw validator diagnostic to
a `FieldError` (codes, paths, expected/received per the source's branches). -/
def translateError (e : RawError) : FieldError :=
  let path := pathJoin e.path
  if e.validator = "required" then
    let missing_prop := extractQuoted e.message
    let full_path := if path ≠ "" then path ++ "." ++ missing_prop else missing_prop
    { path := full_path, code := .REQUIRED
      message := "Field '" ++ full_path ++ "' is required but was not provided"
      expected := some (.str "required field"), received := none }
  else if e.validator = "type" then
    let received_type := pythonTypeName e.inst
    { path := path, code := .INVALID_TYPE
      message := "Field '" ++ path ++ "' has invalid type. Expected "
        ++ jsonScalarStr e.validator_value ++ ", got " ++ received_type
      expected := optOfJson e.validator_value, received := some (.str received_type) }
  else if e.validator = "format" then
    { path := path, code := .INVALID_FORMAT
      message := "Field '" ++ path ++ "' has invalid format. Expected format: "
        ++ jsonScalarStr e.validator_value
      expected := optOfJson e.validator_value, received := optOfJson e.inst }
  else if e.validator = "enum" ∨ e.validator = "const" then
    { path := path, code := .INVALID_VALUE
      message := "Field '" ++ path ++ "' has invalid value. Must be one of: "
        ++ jsonScalarStr e.validator_value
      expected := optOfJson e.validator_value, received := optOfJson e.inst }
  else if e.validator = "minLength" then
    let actual : Nat := match e.inst with | .str s => s.length | _ => 0
    { path := path, code := .TOO_SHORT
      message := "Field '" ++ path ++ "' is too short. Minimum length: "
        ++ jsonScalarStr e.validator_value ++ ", got: " ++ toString actual
      expected := some (.str ("minimum " ++ jsonScalarStr e.validator_value ++ " characters"))
      received := some (.str (toString actual ++ " characters")) }
  else if e.validator = "maxLength" then
    let actual : Nat := match e.inst with | .str s => s.length | _ => 0
    { path := path, code := .TOO_LONG
      message := "Field '" ++ path ++ "' is too long. Maximum length: "
        ++ jsonScalarStr e.validator_value ++ ", got: " ++ toString actual
      expected := some (.str ("maximum " ++ jsonScalarStr e.validator_value ++ " characters"))
      received := some (.str (toString actual ++ " characters")) }
  else if e.validator = "minimum" ∨ e.validator = "maximum" ∨
      e.validator = "exclusiveMinimum" ∨ e.validator = "exclusiveMaximum" then
    { path := path, code := .INVALID_VALUE
      message := "Field '" ++ path ++ "' violates " ++ e.validator ++ " constraint: "
        ++ jsonScalarStr e.validator_value
      expected := some (.str (e.validator ++ ": " ++ jsonScalarStr e.validator_value))
      received := optOfJson e.inst }
  else if e.validator = "pattern" then
    { path := path, code := .INVALID_FORMAT
      message := "Field '" ++ path ++ "' does not match required pattern: "
        ++ jsonScalarStr e.validator_value
      expected := some (.str ("pattern: " ++ jsonScalarStr e.validator_value))
      received := optOfJson e.inst }
  else
    { path := path, code := .CUSTOM
      message := "Field '" ++ path ++ "' validation failed: " ++ e.message
      expected := optOfJson e.validator_value, received := optOfJson e.inst }

/-- `ValidationEngine.validate`: collect all diagnostics; on success return
the input data with empty field lists; on failure translate every diagnostic,
partitioning paths into `missing_fields` (code `required`) and
`invalid_fields` (every other code), in diagnostic order. -/
def validate (s : Schema) (data : List (String × Json)) : ValidationResult :=
  let errors := iterErrors s [] (.obj data)
  if errors.isEmpty then
    { is_valid := true, errors := [], data := some data
      missing_fields := some [], invalid_fields := some [] }
  else
    let field_errors := errors.map translateError
    { is_valid := false, errors := field_errors, data := some data
      missing_fields := some ((field_errors.filter fun fe => fe.code = .REQUIRED).map
        fun fe => fe.path)
      invalid_fields := some ((field_errors.filter fun fe => ¬ fe.code = .REQUIRED).map
        fun fe => fe.path) }

/-- A property or required-entry name that keeps dot-joined paths
unambiguous: nonempty, no `.`, no apostrophe. -/
def cleanName (s : String) : Bool :=
  !(s = "") && !(s.data.contains '.') && !(s.data.contains (Char.ofNat 39))

mutual

/-- All property names and `required` entries of the schema, at every level,
are clean (see `cleanName`). -/
def cleanSchema : Schema → Bool
  | .mk _ req props _ _ _ _ _ => req.all cleanName && cleanProps props

/-- `cleanSchema` over a property list. -/
def cleanProps : List (String × Schema) → Bool
  | [] => true
  | (name, sub) :: rest => cleanName name && cleanSchema sub && cleanProps rest

end

/-- Follow a property-name path into a JSON document. -/
def resolvePath : Json → List String → Option Json
  | j, [] => some j
  | .obj ms, k :: rest =>
      (match jlookup ms k with
       | some v => resolvePath v rest
       | none => none)
  | _, _ :: _ => none

/-- What a `required` diagnostic of the modelled validator looks like,
relative to the call's base path and instance: it sits at some relative path
`rel` resolving to an object that lacks the property `p` named (quoted) in
the message; under a clean schema, `p` and the components of `rel` are clean
names. -/
def RequiredShape (path : List String) (j : Json) (clean : Bool) (e : RawError) : Prop :=
  ∃ rel o p, e.path = path ++ rel
    ∧ resolvePath j rel = some (.obj o)
    ∧ jlookup o p = none
    ∧ e.message = "'" ++ p ++ "' is a required property"
    ∧ (clean = true → cleanName p = true ∧ ∀ c ∈ rel, cleanName c = true)

/-- What every non-`required` diagnostic looks like: it sits at a relative
path that resolves to a present instance value; under a clean schema the
path's components are clean names. -/
def PresentShape (path : List String) (j : Json) (clean : Bool) (e : RawError) : Prop :=
  ∃ rel v, e.path = path ++ rel
    ∧ resolvePath j rel = some v
    ∧ (clean = true → ∀ c ∈ rel, cleanName c = true)

/-- The schema of the C3 path-collision counterexample: property `a` is an
object requiring `b`, and a sibling property is literally named `a.b`. -/
def collisionSchema : Schema :=
  .mk (some "object") []
    [("a", .mk none ["b"] [] none none none none none), ("a.b", schemaOfType "integer")]
    none none none none none

/-- A small intake schema with two required, typed fields, used to exercise
`validate` on a document that is both missing a field and mistyped in
another. -/
def c3schema : Schema :=
  .mk (some "object") ["name", "age"]
    [("name", schemaOfType "string"), ("age", schemaOfType "integer")]
    none none none none none

/-! ## `runtime.py`: the orchestrator -/

/-- A Python exception escaping a runtime operation: `ValueError` (with its
message) or the state machine's `InvalidStateTransitionError`. -/
inductive PyError where
  | valueError (msg : String)
  | invalidTransition (e : InvalidStateTransitionError)
deriving Repr

/-- Look up a key in a string-keyed mapping (Python `d.get(k)` / `d[k]`). -/
def alookup {β : Type} : List (String × β) → String → Option β
  | [], _ => none
  | (k', v) :: rest, k => if k' = k then some v else alookup rest k

/-- Bind a key in a string-keyed mapping (Python `d[k] = v`): replace the
existing binding in place, or append a new one. -/
def aset {β : Type} : List (String × β) → String → β → List (String × β)
  | [], k, v => [(k, v)]
  | (k', v') :: rest, k, v =>
      if k' = k then (k, v) :: rest else (k', v') :: aset rest k v

/-- Python truthiness of an `Optional[str]`: `None` and the empty string are
falsy. -/
def pyTruthyStr : Option String → Bool
  | none => false
  | some s => !(s = "")

/-- Python truthiness of an `Optional[dict]`: `None` and the empty dict are
falsy. -/
def pyTruthyDict : Option (List (String × Json)) → Bool
  | none => false
  | some d => !d.isEmpty

/-- `Actor.to_dict` (`types.py`): `kind` and `id` always; `name` when not
`None`; `metadata` only when truthy (so `None` and the empty dict are both
omitted). -/
def Actor.toDict (a : Actor) : List (String × Json) :=
  [("kind", Json.str a.kind.value), ("id", Json.str a.id)]
    ++ (match a.name with
        | none => []
        | some n => [("name", Json.str n)])
    ++ (match a.metadata with
        | none => []
        | some [] => []
        | some kvs => [("metadata", Json.obj kvs)])

/-- One entry of `IntakeRuntime._submissions` (the metadata dict the source
stores per submission). -/
structure SubmissionRecord where
  submission_id : String
  intake_id : String
  state : String
  resume_token : String
  created_by : List (String × Json)
  ttl_ms : Option Int
deriving Repr

/-- The success-reply dict of `create_submission` /
`_get_submission_response`: `ok`, `submissionId`, `state`, `resumeToken`,
`schema`, and — only when partial initial fields failed validation —
`missingFields` (`none` = key absent). -/
structure CreateResponse where
  ok : Bool
  submissionId : String
  state : String
  resumeToken : String
  schema : Schema
  missingFields : Option (List String) := none

/-- `runtime.py`: `IntakeRuntime`'s state — the intake id, the schema, and
the five per-submission mappings. `counter` numbers the runtime's random
draws (see `uuidHexDraw` / `tokenUrlsafe32`); each `create_submission`
advances it by 3 (submission id, resume token, and the possible initial
transition's event id). -/
structure IntakeRuntime where
  intake_id : String
  schema : Schema
  submissions : List (String × SubmissionRecord) := []
  state_machines : List (String × SubmissionStateMachine) := []
  resume_tokens : List (String × String) := []
  submission_data : List (String × List (String × Json)) := []
  idempotency_keys : List (String × String) := []
  counter : Nat := 0

/-- `IntakeRuntime.__init__`: empty mappings. -/
def IntakeRuntime.init (intake_id : String) (schema : Schema) : IntakeRuntime :=
  { intake_id := intake_id, schema := schema }

/-- `IntakeRuntime._get_submission_response`: the current envelope of an
existing submission, applying `ValueError` when the id is unknown. -/
def getSubmissionResponse (rt : IntakeRuntime) (submission_id : String) :
    Except PyError CreateResponse :=
  match alookup rt.submissions submission_id with
  | none => .error (.valueError ("Submission " ++ submission_id ++ " not found"))
  | some sub =>
      match alookup rt.state_machines submission_id with
      | none => .error (.valueError ("State machine for " ++ submission_id ++ " not found"))
      | some sm =>
          .ok { ok := true, submissionId := submission_id, state := sm.state.value
                resumeToken := sub.resume_token, schema := rt.schema, missingFields := none }

/-- The "determine initial state" block of `create_submission`: with truthy
`initial_fields` the new machine transitions to `in_progress` (any
`InvalidStateTransitionError` would propagate; from `draft` it cannot),
otherwise it stays in `draft`. -/
def initialTransition (sm0 : SubmissionStateMachine)
    (initial_fields : Option (List (String × Json))) (actor : Actor) (uuidHex : String)
    (now : Datetime) : Except PyError (SubmissionState × SubmissionStateMachine) :=
  if pyTruthyDict initial_fields then
    match transitionTo sm0 .in_progress actor uuidHex now with
    | (.ok _, sm1) => .ok (.in_progress, sm1)
    | (.error e, _) => .error (.invalidTransition e)
  else .ok (.draft, sm0)

/-- The `missingFields` key of the creation reply: present exactly when
truthy `initial_fields` fail validation, and then
`validation_result.missing_fields or []`. -/
def missingFieldsReply (schema : Schema) (initial_fields : Option (List (String × Json))) :
    Option (List String) :=
  if pyTruthyDict initial_fields then
    let vr := validate schema (initial_fields.getD [])
    if vr.is_valid then none else some (vr.missing_fields.getD [])
  else none

/-- The non-idempotent path of `create_submission`: mint ids, create and
register the machine, run the optional initial transition, record the
idempotency key when truthy, validate initial fields for the reply, store the
metadata record, and return the success envelope. -/
def createNewSubmission (rt : IntakeRuntime) (actor : Actor)
    (idempotency_key : Option String) (initial_fields : Option (List (String × Json)))
    (ttl_ms : Option Int) (now : Datetime) :
    Except PyError (CreateResponse × IntakeRuntime) :=
  let submission_id := "sub_" ++ (uuidHexDraw rt.counter).take 16
  let resume_token := "rt_" ++ tokenUrlsafe32 (rt.counter + 1)
  let sm0 : SubmissionStateMachine := { submission_id := submission_id }
  match initialTransition sm0 initial_fields actor (uuidHexDraw (rt.counter + 2)) now with
  | .error e => .error e
  | .ok (state, sm1) =>
      let rtA : IntakeRuntime :=
        { rt with
          state_machines := aset rt.state_machines submission_id sm1
          resume_tokens := aset rt.resume_tokens resume_token submission_id
          submission_data := aset rt.submission_data submission_id (initial_fields.getD [])
          counter := rt.counter + 3 }
      let rtB : IntakeRuntime :=
        if pyTruthyStr idempotency_key then
          { rtA with
            idempotency_keys :=
              aset rtA.idempotency_keys (idempotency_key.getD "") submission_id }
        else rtA
      let response : CreateResponse :=
        { ok := true, submissionId := submission_id, state := state.value
          resumeToken := resume_token, schema := rt.schema
          missingFields := missingFieldsReply rt.schema initial_fields }
      let record : SubmissionRecord :=
        { submission_id := submission_id, intake_id := rt.intake_id, state := state.value
          resume_token := resume_token, created_by := actor.toDict, ttl_ms := ttl_ms }
      .ok (response, { rtB with submissions := aset rtB.submissions submission_id record })

/-- A small concrete schema for concrete runs: a plain object schema. -/
def sampleSchema : Schema :=
  .mk (some "object") [] [] none none none none none

/-- A concrete actor for concrete runs. -/
def sampleActor : Actor :=
  { kind := .agent, id := "bot_001" }

/-- A concrete UTC timestamp for concrete runs. -/
def sampleTs : Datetime :=
  { year := 2024, month := 5, day := 7, hour := 9, minute := 30, second := 0
    microsecond := 0, tzOffsetMinutes := some 0 }

/-- `IntakeRuntime.create_submission`. A truthy `idempotency_key` already in
the key map short-circuits to the existing submission's envelope (no state
change); otherwise the non-idempotent path `createNewSubmission` runs. `now`
stands for `datetime.now(timezone.utc)`. (The Python source registers the
machine object in `_state_machines` before transitioning it in place; the
model stores the transitioned machine — the same final mapping.) -/
def createSubmission (rt : IntakeRuntime) (actor : Actor) (idempotency_key : Option String)
    (initial_fields : Option (List (String × Json))) (ttl_ms : Option Int) (now : Datetime) :
    Except PyError (CreateResponse × IntakeRuntime) :=
  if pyTruthyStr idempotency_key then
    match alookup rt.idempotency_keys (idempotency_key.getD "") with
    | some existing => (getSubmissionResponse rt existing).map (fun resp => (resp, rt))
    | none => createNewSubmission rt actor idempotency_key initial_fields ttl_ms now
  else createNewSubmission rt actor idempotency_key initial_fields ttl_ms now

/-! ## `events.py`: JSONL serialization of events -/

/-- Is `c` a decimal digit character? -/
def isDigitChar (c : Char) : Bool :=
  48 ≤ c.toNat && c.toNat ≤ 57

/-- The decimal digits of `n`, most significant first — the digits of
Python's `repr` of a non-negative int. -/
def natDigits (n : Nat) : List Char :=
  if n < 10 then [Char.ofNat (48 + n)]
  else natDigits (n / 10) ++ [Char.ofNat (48 + n % 10)]
termination_by n
decreasing_by omega

/-- `n` zero-padded to exactly `w` decimal digits, most significant first
(Python `%0Nd` formatting for values below `10 ^ w`; wider values keep their
low `w` digits, a case valid datetime fields never reach). -/
def padDigits : Nat → Nat → List Char
  | 0, _ => []
  | w + 1, n => Char.ofNat (48 + n / 10 ^ w % 10) :: padDigits w (n % 10 ^ w)

/-- Fold decimal digit characters into the number they spell. -/
def digitsToNat (ds : List Char) : Nat :=
  ds.foldl (fun a c => a * 10 + (c.toNat - 48)) 0

/-- The longest digit run at the head of the input, with the remainder. -/
def takeDigits : List Char → List Char × List Char
  | [] => ([], [])
  | c :: cs =>
      if isDigitChar c then
        let p := takeDigits cs
        (c :: p.1, p.2)
      else ([], c :: cs)

/-- Python `repr` of an int: an optional minus sign, then decimal digits. -/
def intChars (i : Int) : List Char :=
  if i < 0 then '-' :: natDigits i.natAbs else natDigits i.toNat

/-- A remainder that cannot extend a numeral: empty, or headed by a
non-digit. -/
def numStop : List Char → Bool
  | [] => true
  | c :: _ => !isDigitChar c

/-- The six-character `\uXXXX` escape of a code unit, lowercase hex — the
form Python's `json.dumps` (default `ensure_ascii=True`) emits. -/
def uEscape (n : Nat) : List Char :=
  ['\\', 'u', hexDigitChar (n / 4096 % 16), hexDigitChar (n / 256 % 16),
   hexDigitChar (n / 16 % 16), hexDigitChar (n % 16)]

/-- Modelled from the spec: how `json.dumps` (default `ensure_ascii=True`)
writes one character of a string — two-character escapes for the quote, the
backslash and the five named control characters; `\uXXXX` for every other
character outside printable ASCII `0x20`–`0x7e`, with a surrogate pair
beyond the basic multilingual plane; the character itself otherwise. -/
def pyEscapeChar (c : Char) : List Char :=
  if c = '"' then ['\\', '"']
  else if c = '\\' then ['\\', '\\']
  else if c.toNat = 10 then ['\\', 'n']
  else if c.toNat = 13 then ['\\', 'r']
  else if c.toNat = 9 then ['\\', 't']
  else if c.toNat = 8 then ['\\', 'b']
  else if c.toNat = 12 then ['\\', 'f']
  else if c.toNat < 32 then uEscape c.toNat
  else if c.toNat < 127 then [c]
  else if c.toNat < 65536 then uEscape c.toNat
  else uEscape (55296 + (c.toNat - 65536) / 1024)
    ++ uEscape (56320 + (c.toNat - 65536) % 1024)

/-- A rendered JSON string: quote, escaped characters, quote. -/
def renderJStr (s : String) : List Char :=
  '"' :: s.data.flatMap pyEscapeChar ++ ['"']

mutual

/-- Modelled from the spec: `json.dumps(..., separators=(",", ":"))`, the
compact rendering `to_jsonl` uses ("JSON-Lines, one compact event per line,
no intra-object whitespace"). Numbers are integers in this model. -/
def renderJson : Json → List Char
  | .null => ['n', 'u', 'l', 'l']
  | .bool b => if b then ['t', 'r', 'u', 'e'] else ['f', 'a', 'l', 's', 'e']
  | .num i => intChars i
  | .str s => renderJStr s
  | .arr es => '[' :: renderJElems es ++ [']']
  | .obj ms => '{' :: renderJMembers ms ++ ['}']

/-- Array elements, comma-separated. -/
def renderJElems : List Json → List Char
  | [] => []
  | e :: es => renderJson e ++ renderJElemsRest es

/-- The `,`-prefixed tail elements of an array. -/
def renderJElemsRest : List Json → List Char
  | [] => []
  | e :: es => ',' :: renderJson e ++ renderJElemsRest es

/-- Object members `"key":value`, comma-separated. -/
def renderJMembers : List (String × Json) → List Char
  | [] => []
  | (k, v) :: ms => renderJStr k ++ ':' :: renderJson v ++ renderJMembersRest ms

/-- The `,`-prefixed tail members of an object. -/
def renderJMembersRest : List (String × Json) → List Char
  | [] => []
  | (k, v) :: ms => ',' :: renderJStr k ++ ':' :: renderJson v ++ renderJMembersRest ms

end

/-- The numeric value of a hexadecimal digit character, either case. -/
def hexCharVal (c : Char) : Option Nat :=
  if 48 ≤ c.toNat ∧ c.toNat ≤ 57 then some (c.toNat - 48)
  else if 97 ≤ c.toNat ∧ c.toNat ≤ 102 then some (c.toNat - 87)
  else if 65 ≤ c.toNat ∧ c.toNat ≤ 70 then some (c.toNat - 55)
  else none

/-- Four hexadecimal digits, read as one number. -/
def hexQuad (a b c d : Char) : Option Nat :=
  match hexCharVal a, hexCharVal b, hexCharVal c, hexCharVal d with
  | some va, some vb, some vc, some vd => some (((va * 16 + vb) * 16 + vc) * 16 + vd)
  | _, _, _, _ => none

/-- The two-character string escapes `json.loads` accepts. -/
def pyUnescape (c : Char) : Option Char :=
  if c = '"' then some '"'
  else if c = '\\' then some '\\'
  else if c = '/' then some '/'
  else if c = 'n' then some (Char.ofNat 10)
  else if c = 'r' then some (Char.ofNat 13)
  else if c = 't' then some (Char.ofNat 9)
  else if c = 'b' then some (Char.ofNat 8)
  else if c = 'f' then some (Char.ofNat 12)
  else none

/-- Modelled from the spec: `json.loads` on a string body (after the opening
quote): plain characters, two-character escapes, and `\uXXXX` escapes with
surrogate-pair combination. A lone surrogate is rejected (Python tolerates
one, but no serializer output contains any). -/
def parseJStr : Nat → List Char → List Char → Option (String × List Char)
  | 0, _, _ => none
  | fuel + 1, acc, cs =>
      match cs with
      | [] => none
      | c :: rest =>
          if c = '"' then some (String.mk acc.reverse, rest)
          else if c = '\\' then
            match rest with
            | [] => none
            | e :: rest2 =>
                if e = 'u' then
                  match rest2 with
                  | a :: b :: c2 :: d :: rest3 =>
                      (match hexQuad a b c2 d with
                       | none => none
                       | some n =>
                           if 55296 ≤ n ∧ n < 56320 then
                             match rest3 with
                             | x :: y :: a2 :: b2 :: c3 :: d2 :: rest4 =>
                                 if x = '\\' ∧ y = 'u' then
                                   match hexQuad a2 b2 c3 d2 with
                                   | none => none
                                   | some m =>
                                       if 56320 ≤ m ∧ m < 57344 then
                                         parseJStr fuel (Char.ofNat (65536
                                           + (n - 55296) * 1024 + (m - 56320)) :: acc) rest4
                                       else none
                                 else none
                             | _ => none
                           else if 56320 ≤ n ∧ n < 57344 then none
                           else parseJStr fuel (Char.ofNat n :: acc) rest3)
                  | _ => none
                else
                  match pyUnescape e with
                  | none => none
                  | some ch => parseJStr fuel (ch :: acc) rest2
          else parseJStr fuel (c :: acc) rest

/-- Modelled from the spec: `json.loads` on an integer literal. -/
def parseJInt : List Char → Option (Int × List Char)
  | [] => none
  | c :: cs =>
      if c = '-' then
        match takeDigits cs with
        | (d :: ds, r) => some (-(digitsToNat (d :: ds) : Int), r)
        | ([], _) => none
      else
        match takeDigits (c :: cs) with
        | (d :: ds, r) => some ((digitsToNat (d :: ds) : Int), r)
        | ([], _) => none

mutual

/-- Modelled from the spec: `json.loads`, restricted to the compact grammar
the serializer emits (no inter-token whitespace; integer numerals). `fuel`
dominates the recursion; parsing a whole line supplies the line length. -/
def parseJVal : Nat → List Char → Option (Json × List Char)
  | 0, _ => none
  | fuel + 1, cs =>
      match cs with
      | 'n' :: 'u' :: 'l' :: 'l' :: r => some (.null, r)
      | 't' :: 'r' :: 'u' :: 'e' :: r => some (.bool true, r)
      | 'f' :: 'a' :: 'l' :: 's' :: 'e' :: r => some (.bool false, r)
      | '"' :: r =>
          (match parseJStr (r.length + 1) [] r with
           | some (s, r2) => some (.str s, r2)
           | none => none)
      | '[' :: r =>
          (match r with
           | [] => none
           | c :: r1 =>
               if c = ']' then some (.arr [], r1)
               else
                 match parseJElems fuel (c :: r1) with
                 | some (es, r2) => some (.arr es, r2)
                 | none => none)
      | '{' :: r =>
          (match r with
           | [] => none
           | c :: r1 =>
               if c = '}' then some (.obj [], r1)
               else
                 match parseJMembers fuel (c :: r1) with
                 | some (ms, r2) => some (.obj ms, r2)
                 | none => none)
      | c :: r =>
          if c = '-' ∨ isDigitChar c = true then
            match parseJInt (c :: r) with
            | some (i, r2) => some (.num i, r2)
            | none => none
          else none
      | [] => none

/-- One or more comma-separated array elements, up to the closing bracket. -/
def parseJElems : Nat → List Char → Option (List Json × List Char)
  | 0, _ => none
  | fuel + 1, cs =>
      match parseJVal fuel cs with
      | none => none
      | some (v, r) =>
          match r with
          | ',' :: r2 =>
              (match parseJElems fuel r2 with
               | some (vs, r3) => some (v :: vs, r3)
               | none => none)
          | ']' :: r2 => some ([v], r2)
          | _ => none

/-- One or more comma-separated `"key":value` members, up to the closing
brace. -/
def parseJMembers : Nat → List Char → Option (List (String × Json) × List Char)
  | 0, _ => none
  | fuel + 1, cs =>
      match cs with
      | '"' :: r =>
          (match parseJStr (r.length + 1) [] r with
           | none => none
           | some (k, r1) =>
               match r1 with
               | ':' :: r2 =>
                   (match parseJVal fuel r2 with
                    | none => none
                    | some (v, r3) =>
                        match r3 with
                        | ',' :: r4 =>
                            (match parseJMembers fuel r4 with
                             | some (ms, r5) => some ((k, v) :: ms, r5)
                             | none => none)
                        | '}' :: r4 => some ([(k, v)], r4)
                        | _ => none)
               | _ => none)
      | _ => none

end

/-- Modelled from the spec: parse one complete JSON document (`json.loads`
rejects trailing data). -/
def jsonLoads (s : String) : Option Json :=
  match parseJVal (s.data.length + 1) s.data with
  | some (j, []) => some j
  | _ => none

/-- The `.ffffff` part of `isoformat`, present only for a nonzero
microsecond field. -/
def usSuffix (us : Nat) : List Char :=
  if us = 0 then [] else '.' :: padDigits 6 us

/-- The `±HH:MM` part of `isoformat`, present only for an aware datetime. -/
def tzSuffix : Option Int → List Char
  | none => []
  | some off =>
      (if off < 0 then '-' else '+')
        :: padDigits 2 (off.natAbs / 60) ++ ':' :: padDigits 2 (off.natAbs % 60)

/-- `datetime.isoformat()`, which `IntakeEvent.to_dict` applies to `ts`:
`YYYY-MM-DDTHH:MM:SS`, with `.ffffff` only when the microsecond field is
nonzero, and a `+HH:MM`/`-HH:MM` suffix when the value carries a UTC
offset. -/
def Datetime.isoformat (d : Datetime) : String :=
  String.mk (padDigits 4 d.year ++ '-' :: padDigits 2 d.month ++ '-' :: padDigits 2 d.day
    ++ 'T' :: padDigits 2 d.hour ++ ':' :: padDigits 2 d.minute
    ++ ':' :: (padDigits 2 d.second
      ++ (usSuffix d.microsecond ++ tzSuffix d.tzOffsetMinutes)))

/-- The offset bound Python's `timezone` constructor enforces: strictly
inside ±24 hours. -/
def tzBounded : Option Int → Bool
  | none => true
  | some off => off.natAbs ≤ 1439

/-- The invariants Python's `datetime`/`timezone` constructors enforce on
every value that can exist at runtime: `MINYEAR = 1`, `MAXYEAR = 9999`, the
calendar and clock field ranges, microseconds below one million, and a UTC
offset strictly inside ±24 hours. -/
def Datetime.isRealizable (d : Datetime) : Bool :=
  1 ≤ d.year && d.year ≤ 9999 && 1 ≤ d.month && d.month ≤ 12
    && 1 ≤ d.day && d.day ≤ 31 && d.hour ≤ 23 && d.minute ≤ 59 && d.second ≤ 59
    && d.microsecond ≤ 999999 && tzBounded d.tzOffsetMinutes

/-- Read exactly `k` decimal digits, most significant first, onto `acc`. -/
def parseNDigits : Nat → Nat → List Char → Option (Nat × List Char)
  | 0, acc, cs => some (acc, cs)
  | k + 1, acc, c :: cs =>
      if isDigitChar c then parseNDigits k (acc * 10 + (c.toNat - 48)) cs else none
  | _ + 1, _, [] => none

/-- Consume one expected character. -/
def expectChar (c : Char) : List Char → Option (List Char)
  | x :: xs => if x = c then some xs else none
  | [] => none

/-- The optional `.ffffff` microsecond group: six digits after a dot, or
zero microseconds when the next character is not a dot. -/
def parseUsOpt : List Char → Option (Nat × List Char)
  | '.' :: rus => parseNDigits 6 0 rus
  | other => some (0, other)

/-- The optional trailing `±HH:MM` offset group: `none` offset at the end of
input, otherwise a sign, two digits, a colon and two digits, and nothing
after. -/
def parseTzTail : List Char → Option (Option Int)
  | [] => some none
  | sign :: rr =>
      if sign = '+' ∨ sign = '-' then
        (parseNDigits 2 0 rr).bind fun q1 =>
        (expectChar ':' q1.2).bind fun q2 =>
        (parseNDigits 2 0 q2).bind fun q3 =>
        match q3.2 with
        | [] => some (some ((if sign = '-' then -1 else 1) * ((q1.1 * 60 + q3.1 : Nat) : Int)))
        | _ => none
      else none

/-- Modelled from the spec: `datetime.fromisoformat`, on the grammar
`isoformat` emits — date, `T`, time, optional `.ffffff`, optional `±HH:MM`
offset, trailing characters rejected. -/
def Datetime.fromisoformat (s : String) : Option Datetime :=
  (parseNDigits 4 0 s.data).bind fun p1 =>
  (expectChar '-' p1.2).bind fun r1 =>
  (parseNDigits 2 0 r1).bind fun p2 =>
  (expectChar '-' p2.2).bind fun r2 =>
  (parseNDigits 2 0 r2).bind fun p3 =>
  (expectChar 'T' p3.2).bind fun r3 =>
  (parseNDigits 2 0 r3).bind fun p4 =>
  (expectChar ':' p4.2).bind fun r4 =>
  (parseNDigits 2 0 r4).bind fun p5 =>
  (expectChar ':' p5.2).bind fun r5 =>
  (parseNDigits 2 0 r5).bind fun p6 =>
  (parseUsOpt p6.2).bind fun pus =>
  (parseTzTail pus.2).bind fun tzv =>
  some ⟨p1.1, p2.1, p3.1, p4.1, p5.1, p6.1, pus.1, tzv⟩

/-- Python `ts_str.replace("Z", "+00:00")` — `IntakeEvent.from_dict` applies
it to the timestamp string before parsing. -/
def replaceZ (s : String) : String :=
  String.mk (s.data.flatMap fun c =>
    if c = 'Z' then ['+', '0', '0', ':', '0', '0'] else [c])

/-- `ActorKind(value)`: the enum member by value (`ValueError` → `none`). -/
def ActorKind.fromValue : String → Option ActorKind
  | "agent" => some .agent
  | "human" => some .human
  | "system" => some .system
  | _ => none

/-- `SubmissionState(value)`: the enum member by value. -/
def SubmissionState.fromValue : String → Option SubmissionState
  | "draft" => some .draft
  | "in_progress" => some .in_progress
  | "awaiting_input" => some .awaiting_input
  | "awaiting_upload" => some .awaiting_upload
  | "submitted" => some .submitted
  | "needs_review" => some .needs_review
  | "approved" => some .approved
  | "rejected" => some .rejected
  | "finalized" => some .finalized
  | "cancelled" => some .cancelled
  | "expired" => some .expired
  | _ => none

/-- `EventType(value)`: the enum member by value. -/
def EventType.fromValue : String → Option EventType
  | "submission.created" => some .SUBMISSION_CREATED
  | "field.updated" => some .FIELD_UPDATED
  | "validation.passed" => some .VALIDATION_PASSED
  | "validation.failed" => some .VALIDATION_FAILED
  | "upload.requested" => some .UPLOAD_REQUESTED
  | "upload.completed" => some .UPLOAD_COMPLETED
  | "upload.failed" => some .UPLOAD_FAILED
  | "submission.submitted" => some .SUBMISSION_SUBMITTED
  | "review.requested" => some .REVIEW_REQUESTED
  | "review.approved" => some .REVIEW_APPROVED
  | "review.rejected" => some .REVIEW_REJECTED
  | "delivery.attempted" => some .DELIVERY_ATTEMPTED
  | "delivery.succeeded" => some .DELIVERY_SUCCEEDED
  | "delivery.failed" => some .DELIVERY_FAILED
  | "submission.finalized" => some .SUBMISSION_FINALIZED
  | "submission.cancelled" => some .SUBMISSION_CANCELLED
  | "submission.expired" => some .SUBMISSION_EXPIRED
  | "handoff.link_issued" => some .HANDOFF_LINK_ISSUED
  | "handoff.resumed" => some .HANDOFF_RESUMED
  | _ => none

/-- `Actor.from_dict` (`types.py`): `kind` via the enum constructor, `id`
required, `name` via `data.get("name")`, `metadata` via
`data.get("metadata", {})`. A non-string `name` and a present non-dict
`metadata` fall outside the embedding and are mapped to `none`. -/
def Actor.fromDict (d : List (String × Json)) : Option Actor :=
  match jlookup d "kind", jlookup d "id" with
  | some (.str ks), some (.str i) =>
      (match ActorKind.fromValue ks with
       | none => none
       | some k =>
           some { kind := k, id := i
                  name := match jlookup d "name" with
                    | some (.str n) => some n
                    | _ => none
                  metadata := match jlookup d "metadata" with
                    | none => some []
                    | some (.obj ms) => some ms
                    | some _ => none })
  | _, _ => none

/-- `IntakeEvent.to_dict` (`events.py`): the six camelCase fields in source
order, plus `payload` only when it is not `None`. -/
def IntakeEvent.toDict (e : IntakeEvent) : List (String × Json) :=
  [("eventId", .str e.event_id), ("type", .str e.type.value),
   ("submissionId", .str e.submission_id), ("ts", .str e.ts.isoformat),
   ("actor", .obj e.actor.toDict), ("state", .str e.state.value)]
    ++ (match e.payload with
        | none => []
        | some p => [("payload", .obj p)])

/-- `IntakeEvent.to_jsonl`: `json.dumps(self.to_dict(), separators=(",", ":"))`. -/
def IntakeEvent.toJsonl (e : IntakeEvent) : String :=
  String.mk (renderJson (.obj e.toDict))

/-- `IntakeEvent.from_dict` (`events.py`): parse `ts` (after the `Z`
replacement), parse the `actor` dict, take the required camelCase fields,
convert the enum values, and read `payload` with `data.get`. A present
non-dict `payload` falls outside the embedding. -/
def IntakeEvent.fromDict (d : List (String × Json)) : Option IntakeEvent :=
  match jlookup d "ts" with
  | some (.str ts_str) =>
      (match Datetime.fromisoformat (replaceZ ts_str) with
       | none => none
       | some ts =>
           match jlookup d "actor" with
           | some (.obj am) =>
               (match Actor.fromDict am with
                | none => none
                | some actor =>
                    match jlookup d "eventId", jlookup d "type",
                        jlookup d "submissionId", jlookup d "state" with
                    | some (.str eid), some (.str tv), some (.str sid), some (.str sv) =>
                        (match EventType.fromValue tv, SubmissionState.fromValue sv with
                         | some ty, some st =>
                             some { event_id := eid, type := ty, submission_id := sid
                                    ts := ts, actor := actor, state := st
                                    payload := match jlookup d "payload" with
                                      | some (.obj pm) => some pm
                                      | _ => none }
                         | _, _ => none)
                    | _, _, _, _ => none)
           | _ => none)
  | _ => none

/-- Reading one line of the event stream back: `json.loads` then
`IntakeEvent.from_dict` (the stream is a dict per line). -/
def IntakeEvent.parseJsonl (line : String) : Option IntakeEvent :=
  match jsonLoads line with
  | some (.obj ms) => IntakeEvent.fromDict ms
  | _ => none

mutual

/-- Every string atom (keys and values alike) of the document is free of the
space character. -/
def jsonNoSpace : Json → Bool
  | .null => true
  | .bool _ => true
  | .num _ => true
  | .str s => !s.data.contains ' '
  | .arr es => jsonListNoSpace es
  | .obj ms => jsonMembersNoSpace ms

/-- `jsonNoSpace` over an array's elements. -/
def jsonListNoSpace : List Json → Bool
  | [] => true
  | e :: es => jsonNoSpace e && jsonListNoSpace es

/-- `jsonNoSpace` over an object's members. -/
def jsonMembersNoSpace : List (String × Json) → Bool
  | [] => true
  | (k, v) :: ms => !k.data.contains ' ' && jsonNoSpace v && jsonMembersNoSpace ms

end

/-- A concrete event whose actor carries the dataclass-default metadata
(the empty dict) and a fully populated payload. -/
def c9event : IntakeEvent :=
  { event_id := "evt_0123456789abcdef", type := .SUBMISSION_CREATED
    submission_id := "sub_0123456789abcdef"
    ts := { year := 2024, month := 5, day := 7, hour := 9, minute := 30, second := 1
            microsecond := 0, tzOffsetMinutes := some 0 }
    actor := { kind := .agent, id := "bot_001", name := some "Onboarding Bot"
               metadata := some [] }
    state := .draft
    payload := some [("from_state", .str "draft"), ("to_state", .str "in_progress")] }

/-- The same event with `metadata=None` passed explicitly to the `Actor`
constructor (`Optional[Dict]` admits it). -/
def c9eventNoneMeta : IntakeEvent :=
  { c9event with actor := { c9event.actor with metadata := none } }

theorem transitionTo_of_legal (sm : SubmissionStateMachine) (target : SubmissionState)
    (actor : Actor) (uuidHex : String) (ts : Datetime)
    (h : canTransitionTo sm target = true) :
    transitionTo sm target actor uuidHex ts
      = (.ok (), { sm with
                   state := target,
                   events := sm.events
                     ++ [emitEvent sm.submission_id target actor sm.state uuidHex ts] }) := by
  unfold transitionTo
  rw [if_pos h]

theorem transitionTo_of_illegal (sm : SubmissionStateMachine) (target : SubmissionState)
    (actor : Actor) (uuidHex : String) (ts : Datetime)
    (h : canTransitionTo sm target = false) :
    transitionTo sm target actor uuidHex ts
      = (.error { current_state := sm.state, target_state := target
                  message := invalidTransitionMessage sm.state target }, sm) := by
  unfold transitionTo
  rw [if_neg (by rw [h]; exact Bool.false_ne_true)]

theorem applyCall_eventsConsistent (sm : SubmissionStateMachine) (c : TransitionCall)
    (h : eventsConsistent sm) : eventsConsistent (applyCall sm c) := by
  cases hc : canTransitionTo sm c.target with
  | false =>
      have hres : applyCall sm c = sm := by
        unfold applyCall
        rw [transitionTo_of_illegal sm c.target c.actor c.uuidHex c.ts hc]
      rw [hres]
      exact h
  | true =>
      have hres : applyCall sm c
          = { sm with
              state := c.target,
              events := sm.events
                ++ [emitEvent sm.submission_id c.target c.actor sm.state c.uuidHex c.ts] } := by
        unfold applyCall
        rw [transitionTo_of_legal sm c.target c.actor c.uuidHex c.ts hc]
      rw [hres]
      refine ⟨?_, ?_⟩
      · intro e he
        rcases List.mem_append.mp he with h1 | h2
        · exact h.1 e h1
        · rcases List.mem_singleton.mp h2 with rfl
          rfl
      · intro e he
        have hlast :
            (sm.events
              ++ [emitEvent sm.submission_id c.target c.actor sm.state c.uuidHex c.ts]).getLast?
            = some (emitEvent sm.submission_id c.target c.actor sm.state c.uuidHex c.ts) :=
          List.getLast?_concat _
        rw [show ({ sm with
              state := c.target,
              events := sm.events
                ++ [emitEvent sm.submission_id c.target c.actor sm.state c.uuidHex
                      c.ts] } : SubmissionStateMachine).events
            = sm.events
              ++ [emitEvent sm.submission_id c.target c.actor sm.state c.uuidHex c.ts] from rfl,
          hlast] at he
        have he2 := Option.some.inj he
        subst he2
        rfl

theorem runCalls_eventsConsistent (sm : SubmissionStateMachine) (cs : List TransitionCall)
    (h : eventsConsistent sm) : eventsConsistent (runCalls sm cs) := by
  induction cs generalizing sm with
  | nil => exact h
  | cons c cs ih => exact ih _ (applyCall_eventsConsistent sm c h)

/-- C1. Any transition attempt whose `(source, target)` pair is outside the
transition table — which covers every attempt out of a terminal state, since
terminal states have no outgoing edges — raises `InvalidStateTransitionError`
carrying that source and target, and returns the machine unchanged: same
state, same event log. -/
theorem invalid_transition_rejected_machine_unchanged
    (sm : SubmissionStateMachine) (target : SubmissionState) (actor : Actor)
    (uuidHex : String) (ts : Datetime)
    (h : target ∉ VALID_TRANSITIONS sm.state) :
    ∃ err : InvalidStateTransitionError,
      transitionTo sm target actor uuidHex ts = (.error err, sm) ∧
      err.current_state = sm.state ∧ err.target_state = target := by
  refine ⟨{ current_state := sm.state, target_state := target
            message := invalidTransitionMessage sm.state target }, ?_, rfl, rfl⟩
  exact transitionTo_of_illegal sm target actor uuidHex ts (by unfold canTransitionTo; exact decide_eq_false h)

/-- Witness for C1: from the terminal state `finalized`, attempting to move to
`in_progress` is outside the table, raises, and leaves the machine intact. -/
theorem invalid_transition_rejected_machine_unchanged_witness :
    (SubmissionState.in_progress ∉ VALID_TRANSITIONS .finalized) ∧
    (∃ err : InvalidStateTransitionError,
      transitionTo { submission_id := "sub_0", state := .finalized, events := [] }
          .in_progress { kind := .agent, id := "bot_1" } "0123456789abcdef0123456789abcdef"
          { year := 2024, month := 1, day := 1, hour := 0, minute := 0, second := 0
            microsecond := 0, tzOffsetMinutes := some 0 }
        = (.error err, { submission_id := "sub_0", state := .finalized, events := [] }) ∧
      err.current_state = .finalized ∧ err.target_state = .in_progress) :=
  ⟨by decide,
   invalid_transition_rejected_machine_unchanged
     { submission_id := "sub_0", state := .finalized, events := [] }
     .in_progress { kind := .agent, id := "bot_1" } "0123456789abcdef0123456789abcdef"
     { year := 2024, month := 1, day := 1, hour := 0, minute := 0, second := 0
       microsecond := 0, tzOffsetMinutes := some 0 }
     (by decide)⟩

/-- C2. Starting from a freshly constructed machine (empty event log), after
any sequence of `transition_to` calls — successful ones append events, failed
ones change nothing — every logged event carries the machine's
`submission_id`, and a non-empty log ends with the event of the current
state. -/
theorem event_log_consistent_after_transitions
    (sub_id : String) (st : SubmissionState) (cs : List TransitionCall) :
    eventsConsistent (runCalls { submission_id := sub_id, state := st, events := [] } cs) :=
  runCalls_eventsConsistent _ cs (by constructor <;> simp [eventsConsistent])

/-- Witness for C2 at a concrete two-step run (draft → in_progress →
submitted). -/
theorem event_log_consistent_after_transitions_witness :
    eventsConsistent (runCalls { submission_id := "sub_1", state := .draft, events := [] }
      [{ target := .in_progress, actor := { kind := .agent, id := "bot_1" }
         uuidHex := "00000000000000000000000000000000"
         ts := { year := 2024, month := 1, day := 1, hour := 0, minute := 0, second := 0
                 microsecond := 0, tzOffsetMinutes := some 0 } },
       { target := .submitted, actor := { kind := .agent, id := "bot_1" }
         uuidHex := "11111111111111111111111111111111"
         ts := { year := 2024, month := 1, day := 1, hour := 0, minute := 1, second := 0
                 microsecond := 0, tzOffsetMinutes := some 0 } }]) :=
  event_log_consistent_after_transitions "sub_1" .draft _

/-- C5. Every legal transition mints exactly one event, appended to the log:
its type is selected from the target state by the fixed table (the three
intermediate states fall back to `field.updated`), its payload is the
`{from_state, to_state}` pair, and its `event_id` starts with `evt_`. -/
theorem legal_transition_event_selection
    (sub_id : String) (evs : List IntakeEvent) (src target : SubmissionState)
    (actor : Actor) (uuidHex : String) (ts : Datetime)
    (h : target ∈ VALID_TRANSITIONS src) :
    ∃ ev : IntakeEvent,
      transitionTo { submission_id := sub_id, state := src, events := evs }
          target actor uuidHex ts
        = (.ok (), { submission_id := sub_id, state := target, events := evs ++ [ev] }) ∧
      (target = .in_progress ∨ target = .awaiting_input ∨ target = .awaiting_upload →
        ev.type = .FIELD_UPDATED) ∧
      (target = .submitted → ev.type = .SUBMISSION_SUBMITTED) ∧
      (target = .needs_review → ev.type = .REVIEW_REQUESTED) ∧
      (target = .approved → ev.type = .REVIEW_APPROVED) ∧
      (target = .rejected → ev.type = .REVIEW_REJECTED) ∧
      (target = .finalized → ev.type = .SUBMISSION_FINALIZED) ∧
      (target = .cancelled → ev.type = .SUBMISSION_CANCELLED) ∧
      (target = .expired → ev.type = .SUBMISSION_EXPIRED) ∧
      ev.payload = some [("from_state", .str src.value), ("to_state", .str target.value)] ∧
      ∃ tail, ev.event_id = "evt_" ++ tail := by
  have hc : canTransitionTo { submission_id := sub_id, state := src, events := evs } target
      = true := by
    unfold canTransitionTo
    exact decide_eq_true h
  refine ⟨emitEvent sub_id target actor src uuidHex ts, ?_, ?_, ?_, ?_, ?_, ?_, ?_, ?_, ?_,
    rfl, uuidHex.take 16, rfl⟩
  · exact transitionTo_of_legal _ target actor uuidHex ts hc
  · rintro (rfl | rfl | rfl) <;> rfl
  all_goals (rintro rfl; rfl)

/-- Witness for C5: the legal transition submitted → finalized mints a
`submission.finalized` event with the `{from_state, to_state}` payload. -/
theorem legal_transition_event_selection_witness :
    (SubmissionState.finalized ∈ VALID_TRANSITIONS .submitted) ∧
    (∃ ev : IntakeEvent,
      transitionTo { submission_id := "sub_2", state := .submitted, events := [] }
          .finalized { kind := .human, id := "user_1" } "abcdefabcdefabcdefabcdefabcdefab"
          { year := 2024, month := 6, day := 2, hour := 12, minute := 0, second := 0
            microsecond := 0, tzOffsetMinutes := some 0 }
        = (.ok (), { submission_id := "sub_2", state := .finalized, events := [] ++ [ev] }) ∧
      (SubmissionState.finalized = .in_progress ∨ SubmissionState.finalized = .awaiting_input ∨
          SubmissionState.finalized = .awaiting_upload → ev.type = .FIELD_UPDATED) ∧
      (SubmissionState.finalized = .submitted → ev.type = .SUBMISSION_SUBMITTED) ∧
      (SubmissionState.finalized = .needs_review → ev.type = .REVIEW_REQUESTED) ∧
      (SubmissionState.finalized = .approved → ev.type = .REVIEW_APPROVED) ∧
      (SubmissionState.finalized = .rejected → ev.type = .REVIEW_REJECTED) ∧
      (SubmissionState.finalized = .finalized → ev.type = .SUBMISSION_FINALIZED) ∧
      (SubmissionState.finalized = .cancelled → ev.type = .SUBMISSION_CANCELLED) ∧
      (SubmissionState.finalized = .expired → ev.type = .SUBMISSION_EXPIRED) ∧
      ev.payload
        = some [("from_state", .str (SubmissionState.submitted).value),
                ("to_state", .str (SubmissionState.finalized).value)] ∧
      ∃ tail, ev.event_id = "evt_" ++ tail) :=
  ⟨by decide,
   legal_transition_event_selection "sub_2" [] .submitted .finalized
     { kind := .human, id := "user_1" } "abcdefabcdefabcdefabcdefabcdefab"
     { year := 2024, month := 6, day := 2, hour := 12, minute := 0, second := 0
       microsecond := 0, tzOffsetMinutes := some 0 }
     (by decide)⟩

theorem applyRegs_listeners {α : Type} (cs : List (RegCall α)) (em : EventEmitter α)
    (t : EventType) :
    (applyRegs em cs).listeners t = em.listeners t ++ regsFor t cs := by
  induction cs generalizing em with
  | nil => simp [applyRegs, regsFor]
  | cons c cs ih =>
      rcases c with ⟨t', l⟩ | ⟨l⟩
      · rw [show applyRegs em (.on t' l :: cs) = applyRegs (em.on t' l) cs from rfl, ih]
        by_cases h : t' = t
        · subst h
          simp [EventEmitter.on, regsFor]
        · have h' : ¬t = t' := fun hh => h hh.symm
          simp [EventEmitter.on, regsFor, h, h']
      · rw [show applyRegs em (.onAny l :: cs) = applyRegs (em.onAny l) cs from rfl, ih]
        simp [EventEmitter.onAny, regsFor]

theorem applyRegs_anyListeners {α : Type} (cs : List (RegCall α)) (em : EventEmitter α) :
    (applyRegs em cs).anyListeners = em.anyListeners ++ regsAny cs := by
  induction cs generalizing em with
  | nil => simp [applyRegs, regsAny]
  | cons c cs ih =>
      rcases c with ⟨t', l⟩ | ⟨l⟩
      · rw [show applyRegs em (.on t' l :: cs) = applyRegs (em.on t' l) cs from rfl, ih]
        simp [EventEmitter.on, regsAny]
      · rw [show applyRegs em (.onAny l :: cs) = applyRegs (em.onAny l) cs from rfl, ih]
        simp [EventEmitter.onAny, regsAny]

theorem invokeAll_map_fst {α : Type} (behaviour : α → IntakeEvent → Except String Unit)
    (event : IntakeEvent) (ls : List α) :
    (invokeAll behaviour event ls).map Prod.fst = ls := by
  induction ls with
  | nil => rfl
  | cons l ls ih => simp [invokeAll, ih]

/-- C6. For any sequence of subscriptions starting from a fresh emitter,
`emit` produces exactly one invocation per registered listener: first the
listeners subscribed to the event's specific type, in registration order,
then the wildcard listeners, in registration order — whatever each listener's
behaviour, so listeners that raise (behaviour `.error`, swallowed by the
source's `try/except`) do not prevent any later listener from firing, and
`emit` itself returns normally to its caller (it is a total function into the
invocation trace). -/
theorem emit_order_and_isolation {α : Type} (cs : List (RegCall α))
    (behaviour : α → IntakeEvent → Except String Unit) (event : IntakeEvent) :
    (applyRegs EventEmitter.empty cs).emit behaviour event
      = invokeAll behaviour event (regsFor event.type cs)
        ++ invokeAll behaviour event (regsAny cs)
    ∧ ((applyRegs EventEmitter.empty cs).emit behaviour event).map Prod.fst
      = regsFor event.type cs ++ regsAny cs := by
  have h1 : (applyRegs (EventEmitter.empty (α := α)) cs).listeners event.type
      = regsFor event.type cs := by
    rw [applyRegs_listeners]
    rfl
  have h2 : (applyRegs (EventEmitter.empty (α := α)) cs).anyListeners = regsAny cs := by
    rw [applyRegs_anyListeners]
    rfl
  constructor
  · rw [EventEmitter.emit, h1, h2]
  · rw [EventEmitter.emit, h1, h2, List.map_append, invokeAll_map_fst, invokeAll_map_fst]

/-- C10. `validate` always echoes the input document unmodified in `data`,
and always returns concrete (present, non-`None`) `missing_fields` and
`invalid_fields` lists, in the valid and the invalid case alike. -/
theorem validate_echoes_data_and_lists_present (s : Schema) (data : List (String × Json)) :
    (validate s data).data = some data
    ∧ (validate s data).missing_fields.isSome = true
    ∧ (validate s data).invalid_fields.isSome = true := by
  unfold validate
  cases h : (iterErrors s [] (.obj data)).isEmpty <;> simp [h]

/-- The schema of the repository's own test
`test_string_expected_number_received` (`tests/test_validation.py`): an
object with a required string property `name`. -/
def c7schema : Schema :=
  .mk (some "object") ["name"] [("name", schemaOfType "string")] none none none none none

/-- C7 (code bug). At the failing input `{"name": 123}` against `c7schema`,
the translated type-mismatch error carries the declared type in `expected`
but `received = "int"` — Python's `type(123).__name__` — not the JSON type
name `"number"` that the spec's table and the repository's own tests
(`tests/test_validation.py`, e.g. `assert error.received == "number"`)
require. -/
theorem type_error_received_is_python_typename :
    ((validate c7schema [("name", Json.num 123)]).errors.map
        fun fe => (fe.code, fe.expected, fe.received))
      = [(.INVALID_TYPE, some (.str "string"), some (.str "int"))] := rfl

theorem strLength_eq_dataLength (s : String) : s.length = s.data.length := rfl

theorem hexDigitChar_isHexChar (k : Nat) (h : k < 16) : isHexChar (hexDigitChar k) = true := by
  have hfin : ∀ i : Fin 16, isHexChar (hexDigitChar i.val) = true := by decide
  exact hfin ⟨k, h⟩

theorem hexDigitChar_inj (a b : Nat) (ha : a < 16) (hb : b < 16)
    (h : hexDigitChar a = hexDigitChar b) : a = b := by
  have hfin : ∀ x y : Fin 16, hexDigitChar x.val = hexDigitChar y.val → x.val = y.val := by decide
  exact hfin ⟨a, ha⟩ ⟨b, hb⟩ h

theorem b64UrlChar_isB64UrlChar (k : Nat) (h : k < 64) : isB64UrlChar (b64UrlChar k) = true := by
  have hfin : ∀ i : Fin 64, isB64UrlChar (b64UrlChar i.val) = true := by decide
  exact hfin ⟨k, h⟩

theorem uuidHexDraw_take16_data (n : Nat) :
    ((uuidHexDraw n).take 16).data = (List.range 16).map fun i => hexDigitChar (n / 16 ^ i % 16) := by
  rw [String.data_take]
  show ((List.range 32).map fun i => hexDigitChar (n / 16 ^ i % 16)).take 16 = _
  rw [← List.map_take, List.take_range]
  norm_num

theorem uuidHexDraw_take16_length (n : Nat) : ((uuidHexDraw n).take 16).length = 16 := by
  rw [strLength_eq_dataLength, uuidHexDraw_take16_data]
  simp

theorem uuidHexDraw_take16_hex (n : Nat) :
    ∀ c ∈ ((uuidHexDraw n).take 16).data, isHexChar c = true := by
  rw [uuidHexDraw_take16_data]
  intro c hc
  rcases List.mem_map.mp hc with ⟨i, _, rfl⟩
  exact hexDigitChar_isHexChar _ (Nat.mod_lt _ (by omega))

theorem base16_digits_determine (k : Nat) :
    ∀ n m : Nat, n < 16 ^ k → m < 16 ^ k →
      (∀ i, i < k → n / 16 ^ i % 16 = m / 16 ^ i % 16) → n = m := by
  induction k with
  | zero =>
      intro n m hn hm _
      simp only [pow_zero, Nat.lt_one_iff] at hn hm
      omega
  | succ k ih =>
      intro n m hn hm hd
      have h0 : n % 16 = m % 16 := by
        have := hd 0 (by omega)
        simpa using this
      have hrec : n / 16 = m / 16 := by
        apply ih
        · rw [pow_succ] at hn
          exact Nat.div_lt_of_lt_mul (by omega)
        · rw [pow_succ] at hm
          exact Nat.div_lt_of_lt_mul (by omega)
        · intro i hi
          have hstep := hd (i + 1) (by omega)
          have hn16 : n / 16 / 16 ^ i = n / 16 ^ (i + 1) := by
            rw [Nat.div_div_eq_div_mul, ← pow_succ']
          have hm16 : m / 16 / 16 ^ i = m / 16 ^ (i + 1) := by
            rw [Nat.div_div_eq_div_mul, ← pow_succ']
          rw [hn16, hm16]
          exact hstep
      omega

theorem uuidHexDraw_take16_inj (n m : Nat) (hn : n < 16 ^ 16) (hm : m < 16 ^ 16)
    (h : (uuidHexDraw n).take 16 = (uuidHexDraw m).take 16) : n = m := by
  have hdata := congrArg String.data h
  rw [uuidHexDraw_take16_data, uuidHexDraw_take16_data] at hdata
  apply base16_digits_determine 16 n m hn hm
  intro i hi
  have hget := congrArg (fun l : List Char => l[i]?) hdata
  simp only [List.getElem?_map, List.getElem?_range, hi, if_pos] at hget
  exact hexDigitChar_inj _ _ (Nat.mod_lt _ (by omega)) (Nat.mod_lt _ (by omega))
    (by simpa using hget)

theorem b64UrlEncode_length (l : List Nat) :
    (b64UrlEncode l).length = (4 * l.length + 2) / 3 := by
  induction l using b64UrlEncode.induct with
  | case1 b0 b1 b2 rest ih =>
      simp only [b64UrlEncode, List.length_cons] at *
      omega
  | case2 b0 b1 => simp [b64UrlEncode]
  | case3 b0 => simp [b64UrlEncode]
  | case4 => simp [b64UrlEncode]

theorem b64UrlEncode_chars (l : List Nat) (hb : ∀ b ∈ l, b < 256) :
    ∀ c ∈ b64UrlEncode l, isB64UrlChar c = true := by
  induction l using b64UrlEncode.induct with
  | case1 b0 b1 b2 rest ih =>
      have h0 : b0 < 256 := hb b0 (by simp)
      have h1 : b1 < 256 := hb b1 (by simp)
      have h2 : b2 < 256 := hb b2 (by simp)
      intro c hc
      simp only [b64UrlEncode, List.mem_cons] at hc
      rcases hc with rfl | rfl | rfl | rfl | hc
      · exact b64UrlChar_isB64UrlChar _ (by omega)
      · exact b64UrlChar_isB64UrlChar _ (by omega)
      · exact b64UrlChar_isB64UrlChar _ (by omega)
      · exact b64UrlChar_isB64UrlChar _ (by omega)
      · exact ih (fun b hbmem => hb b (by simp [hbmem])) c hc
  | case2 b0 b1 =>
      have h0 : b0 < 256 := hb b0 (by simp)
      have h1 : b1 < 256 := hb b1 (by simp)
      intro c hc
      simp only [b64UrlEncode, List.mem_cons] at hc
      rcases hc with rfl | rfl | rfl | hc
      · exact b64UrlChar_isB64UrlChar _ (by omega)
      · exact b64UrlChar_isB64UrlChar _ (by omega)
      · exact b64UrlChar_isB64UrlChar _ (by omega)
      · simp at hc
  | case3 b0 =>
      have h0 : b0 < 256 := hb b0 (by simp)
      intro c hc
      simp only [b64UrlEncode, List.mem_cons] at hc
      rcases hc with rfl | rfl | hc
      · exact b64UrlChar_isB64UrlChar _ (by omega)
      · exact b64UrlChar_isB64UrlChar _ (by omega)
      · simp at hc
  | case4 =>
      intro c hc
      simp [b64UrlEncode] at hc

theorem tokenUrlsafe32_length (n : Nat) : (tokenUrlsafe32 n).length = 43 := by
  rw [strLength_eq_dataLength]
  show (b64UrlEncode ((List.range 32).map fun i => n / 256 ^ i % 256)).length = 43
  rw [b64UrlEncode_length]
  simp

theorem tokenUrlsafe32_chars (n : Nat) :
    ∀ c ∈ (tokenUrlsafe32 n).data, isB64UrlChar c = true := by
  show ∀ c ∈ b64UrlEncode ((List.range 32).map fun i => n / 256 ^ i % 256), _
  apply b64UrlEncode_chars
  intro b hbmem
  rcases List.mem_map.mp hbmem with ⟨i, _, rfl⟩
  exact Nat.mod_lt _ (by omega)

theorem alookup_aset_same {β : Type} (m : List (String × β)) (k : String) (v : β) :
    alookup (aset m k v) k = some v := by
  induction m with
  | nil => simp [aset, alookup]
  | cons kv rest ih =>
      rcases kv with ⟨k', v'⟩
      by_cases h : k' = k
      · subst h
        simp [aset, alookup]
      · simp [aset, alookup, h, ih]

theorem initialTransition_falsy (sm0 : SubmissionStateMachine)
    (fi : Option (List (String × Json))) (actor : Actor) (uuidHex : String) (now : Datetime)
    (h : pyTruthyDict fi = false) :
    initialTransition sm0 fi actor uuidHex now = .ok (.draft, sm0) := by
  unfold initialTransition
  rw [h]
  simp

theorem initialTransition_truthy_from_new (sid : String)
    (fi : Option (List (String × Json))) (actor : Actor) (uuidHex : String) (now : Datetime)
    (h : pyTruthyDict fi = true) :
    initialTransition { submission_id := sid } fi actor uuidHex now
      = .ok (.in_progress,
          { submission_id := sid, state := .in_progress
            events := [emitEvent sid .in_progress actor .draft uuidHex now] }) := by
  unfold initialTransition
  rw [h]
  rw [transitionTo_of_legal { submission_id := sid } .in_progress actor uuidHex now rfl]
  rfl

theorem createNewSubmission_spec (rt : IntakeRuntime) (actor : Actor) (k : Option String)
    (fi : Option (List (String × Json))) (ttl : Option Int) (now : Datetime) :
    ∃ resp rt',
      createNewSubmission rt actor k fi ttl now = .ok (resp, rt') ∧
      resp.ok = true ∧
      resp.submissionId = "sub_" ++ (uuidHexDraw rt.counter).take 16 ∧
      resp.resumeToken = "rt_" ++ tokenUrlsafe32 (rt.counter + 1) ∧
      rt'.counter = rt.counter + 3 ∧
      rt'.idempotency_keys
        = (if pyTruthyStr k then aset rt.idempotency_keys (k.getD "") resp.submissionId
           else rt.idempotency_keys) ∧
      (∃ sm1, alookup rt'.state_machines resp.submissionId = some sm1
        ∧ sm1.state.value = resp.state) ∧
      (∃ rec, alookup rt'.submissions resp.submissionId = some rec
        ∧ rec.resume_token = resp.resumeToken) := by
  cases hfi : pyTruthyDict fi <;> cases hkt : pyTruthyStr k
  case false.false =>
    simp only [createNewSubmission,
      initialTransition_falsy _ fi actor _ now hfi, hkt, Bool.false_eq_true, if_false]
    exact ⟨_, _, rfl, rfl, rfl, rfl, rfl, rfl,
      ⟨_, alookup_aset_same _ _ _, rfl⟩, ⟨_, alookup_aset_same _ _ _, rfl⟩⟩
  case false.true =>
    simp only [createNewSubmission,
      initialTransition_falsy _ fi actor _ now hfi, hkt, if_true]
    exact ⟨_, _, rfl, rfl, rfl, rfl, rfl, rfl,
      ⟨_, alookup_aset_same _ _ _, rfl⟩, ⟨_, alookup_aset_same _ _ _, rfl⟩⟩
  case true.false =>
    simp only [createNewSubmission,
      initialTransition_truthy_from_new _ fi actor _ now hfi, hkt, Bool.false_eq_true, if_false]
    exact ⟨_, _, rfl, rfl, rfl, rfl, rfl, rfl,
      ⟨_, alookup_aset_same _ _ _, rfl⟩, ⟨_, alookup_aset_same _ _ _, rfl⟩⟩
  case true.true =>
    simp only [createNewSubmission,
      initialTransition_truthy_from_new _ fi actor _ now hfi, hkt, if_true]
    exact ⟨_, _, rfl, rfl, rfl, rfl, rfl, rfl,
      ⟨_, alookup_aset_same _ _ _, rfl⟩, ⟨_, alookup_aset_same _ _ _, rfl⟩⟩

theorem createSubmission_gate_falsy (rt : IntakeRuntime) (actor : Actor) (k : Option String)
    (fi : Option (List (String × Json))) (ttl : Option Int) (now : Datetime)
    (h : pyTruthyStr k = false) :
    createSubmission rt actor k fi ttl now = createNewSubmission rt actor k fi ttl now := by
  unfold createSubmission
  rw [h]
  simp

theorem createSubmission_gate_fresh (rt : IntakeRuntime) (actor : Actor) (k : Option String)
    (fi : Option (List (String × Json))) (ttl : Option Int) (now : Datetime)
    (hkt : pyTruthyStr k = true) (h : alookup rt.idempotency_keys (k.getD "") = none) :
    createSubmission rt actor k fi ttl now = createNewSubmission rt actor k fi ttl now := by
  unfold createSubmission
  rw [hkt, h]
  simp

theorem createSubmission_gate_seen (rt : IntakeRuntime) (actor : Actor) (k : Option String)
    (fi : Option (List (String × Json))) (ttl : Option Int) (now : Datetime) (sid : String)
    (hkt : pyTruthyStr k = true) (h : alookup rt.idempotency_keys (k.getD "") = some sid) :
    createSubmission rt actor k fi ttl now
      = (getSubmissionResponse rt sid).map (fun resp => (resp, rt)) := by
  unfold createSubmission
  rw [hkt, h]
  simp

theorem getSubmissionResponse_ok (rt : IntakeRuntime) (sid : String)
    (sm : SubmissionStateMachine) (rec : SubmissionRecord)
    (hm : alookup rt.state_machines sid = some sm)
    (hs : alookup rt.submissions sid = some rec) :
    getSubmissionResponse rt sid
      = .ok { ok := true, submissionId := sid, state := sm.state.value
              resumeToken := rec.resume_token, schema := rt.schema, missingFields := none } := by
  unfold getSubmissionResponse
  rw [hs, hm]

theorem strTake_length (s : String) (n : Nat) : (s.take n).length = min n s.length := by
  rw [strLength_eq_dataLength, String.data_take, List.length_take, strLength_eq_dataLength]

theorem strTake_mem (s : String) (n : Nat) : ∀ c ∈ (s.take n).data, c ∈ s.data := by
  rw [String.data_take]
  intro c hc
  exact List.take_subset _ _ hc

theorem strAppend_cancel_left (a x y : String) (h : a ++ x = a ++ y) : x = y := by
  have hd := congrArg String.data h
  rw [String.data_append, String.data_append] at hd
  cases x
  cases y
  simp only [List.append_cancel_left_eq] at hd
  exact congrArg String.mk hd

/-- C4 (amended). With a non-empty idempotency key not yet seen by the
runtime, two `create_submission` calls with that key return identical
`submissionId` and `resumeToken` (and the same current state); the second
call creates nothing and changes nothing (it returns the runtime unchanged);
and a subsequent call with a different, unseen, non-empty key — within the
model's id space, an artifact of modelling `uuid4` by a counter — yields a
distinct `submissionId`. (The unamended claim fails for the empty-string key,
which Python truthiness exempts from idempotency: see the counterexample.) -/
theorem idempotent_creation_for_nonempty_keys
    (rt : IntakeRuntime) (a1 a2 : Actor) (k : String)
    (fi1 fi2 : Option (List (String × Json))) (ttl1 ttl2 : Option Int) (now1 now2 : Datetime)
    (hk : k ≠ "") (hfresh : alookup rt.idempotency_keys k = none) :
    ∃ resp1 rt1 resp2,
      createSubmission rt a1 (some k) fi1 ttl1 now1 = .ok (resp1, rt1) ∧
      createSubmission rt1 a2 (some k) fi2 ttl2 now2 = .ok (resp2, rt1) ∧
      resp2.submissionId = resp1.submissionId ∧
      resp2.resumeToken = resp1.resumeToken ∧
      resp2.state = resp1.state ∧
      (∀ k2 : String, k2 ≠ "" → alookup rt1.idempotency_keys k2 = none →
        rt.counter + 3 < 16 ^ 16 →
        ∀ resp3 rt3, createSubmission rt1 a2 (some k2) fi2 ttl2 now2 = .ok (resp3, rt3) →
          resp3.submissionId ≠ resp1.submissionId) := by
  have hkt : pyTruthyStr (some k) = true := by simp [pyTruthyStr, hk]
  obtain ⟨resp1, rt1, heq1, hok1, hsid1, htok1, hcnt1, hkeys1,
    ⟨sm1, hsm1, hsmv1⟩, ⟨rec1, hrec1, hrecv1⟩⟩ :=
    createNewSubmission_spec rt a1 (some k) fi1 ttl1 now1
  have hcall1 : createSubmission rt a1 (some k) fi1 ttl1 now1 = .ok (resp1, rt1) := by
    rw [createSubmission_gate_fresh rt a1 (some k) fi1 ttl1 now1 hkt hfresh]
    exact heq1
  have hkeyfound : alookup rt1.idempotency_keys k = some resp1.submissionId := by
    rw [hkeys1, hkt, if_pos rfl]
    exact alookup_aset_same _ _ _
  have hresp2 : getSubmissionResponse rt1 resp1.submissionId
      = .ok { ok := true, submissionId := resp1.submissionId, state := sm1.state.value
              resumeToken := rec1.resume_token, schema := rt1.schema, missingFields := none } :=
    getSubmissionResponse_ok rt1 resp1.submissionId sm1 rec1 hsm1 hrec1
  have hcall2 : createSubmission rt1 a2 (some k) fi2 ttl2 now2
      = .ok ({ ok := true, submissionId := resp1.submissionId, state := sm1.state.value
               resumeToken := rec1.resume_token, schema := rt1.schema
               missingFields := none }, rt1) := by
    rw [createSubmission_gate_seen rt1 a2 (some k) fi2 ttl2 now2 resp1.submissionId hkt
      hkeyfound, hresp2]
    rfl
  refine ⟨resp1, rt1, _, hcall1, hcall2, rfl, hrecv1, hsmv1, ?_⟩
  intro k2 hk2 hfresh2 hbound resp3 rt3 heq3
  have hkt2 : pyTruthyStr (some k2) = true := by simp [pyTruthyStr, hk2]
  obtain ⟨resp3', rt3', heq3', _, hsid3, _, _, _, _, _⟩ :=
    createNewSubmission_spec rt1 a2 (some k2) fi2 ttl2 now2
  have hcall3 : createSubmission rt1 a2 (some k2) fi2 ttl2 now2 = .ok (resp3', rt3') := by
    rw [createSubmission_gate_fresh rt1 a2 (some k2) fi2 ttl2 now2 hkt2 hfresh2]
    exact heq3'
  have hsame : resp3 = resp3' := by
    have hpair := Except.ok.inj (heq3.symm.trans hcall3)
    exact congrArg Prod.fst hpair
  intro habs
  have hx : (uuidHexDraw rt1.counter).take 16 = (uuidHexDraw rt.counter).take 16 := by
    apply strAppend_cancel_left "sub_"
    rw [← hsid3, ← hsid1, ← hsame]
    exact habs
  have := uuidHexDraw_take16_inj rt1.counter rt.counter
    (by omega) (by omega) hx
  omega

/-- Witness for C4 at a fresh runtime and the key `k1`. -/
theorem idempotent_creation_for_nonempty_keys_witness :
    ("k1" ≠ "") ∧
    (∃ resp1 rt1 resp2,
      createSubmission (IntakeRuntime.init "vendor_onboarding" sampleSchema) sampleActor
          (some "k1") none none sampleTs = .ok (resp1, rt1) ∧
      createSubmission rt1 sampleActor (some "k1") none none sampleTs = .ok (resp2, rt1) ∧
      resp2.submissionId = resp1.submissionId ∧
      resp2.resumeToken = resp1.resumeToken ∧
      resp2.state = resp1.state ∧
      (∀ k2 : String, k2 ≠ "" → alookup rt1.idempotency_keys k2 = none →
        (IntakeRuntime.init "vendor_onboarding" sampleSchema).counter + 3 < 16 ^ 16 →
        ∀ resp3 rt3, createSubmission rt1 sampleActor (some k2) none none sampleTs
            = .ok (resp3, rt3) →
          resp3.submissionId ≠ resp1.submissionId)) :=
  ⟨by decide,
   idempotent_creation_for_nonempty_keys
     (IntakeRuntime.init "vendor_onboarding" sampleSchema) sampleActor sampleActor "k1"
     none none none none sampleTs sampleTs (by decide) rfl⟩

/-- Counterexample for C4 as stated: the empty-string idempotency key is
falsy in Python, so `create_submission` never records or consults it — two
calls with the same key `""` mint two distinct submissions. -/
theorem empty_idempotency_key_not_deduplicated :
    ((createSubmission (IntakeRuntime.init "vendor_onboarding" sampleSchema) sampleActor
        (some "") none none sampleTs).toOption.bind fun p =>
      (createSubmission p.2 sampleActor (some "") none none sampleTs).toOption.map fun q =>
        (p.1.submissionId, q.1.submissionId))
      = some ("sub_0000000000000000", "sub_3000000000000000")
    ∧ ("sub_0000000000000000" : String) ≠ "sub_3000000000000000" :=
  ⟨rfl, by decide⟩

/-- C8 (amended). Every minted identifier matches the format the code
produces: `create_submission` (on its non-idempotent path) mints
`submissionId = sub_` plus 16 lowercase hex characters and
`resumeToken = rt_` plus 43 URL-safe base64 characters encoding 32 bytes of
entropy; every legal transition mints `event_id = evt_` plus 16 lowercase hex
characters (the first 16 of the 32-character `uuid4().hex` draw). The spec's
stated width of 32 hex characters for `sub_`/`evt_` identifiers is what the
counterexample refutes: the code truncates `uuid4().hex` to 16. -/
theorem minted_identifier_formats :
    (∀ (rt : IntakeRuntime) (actor : Actor) (k : Option String)
        (fi : Option (List (String × Json))) (ttl : Option Int) (now : Datetime),
      (pyTruthyStr k = false ∨ alookup rt.idempotency_keys (k.getD "") = none) →
      ∃ resp rt', createSubmission rt actor k fi ttl now = .ok (resp, rt')
        ∧ (∃ hx, resp.submissionId = "sub_" ++ hx ∧ hx.length = 16
            ∧ ∀ c ∈ hx.data, isHexChar c = true)
        ∧ (∃ tk, resp.resumeToken = "rt_" ++ tk ∧ tk.length = 43
            ∧ ∀ c ∈ tk.data, isB64UrlChar c = true))
    ∧ (∀ (sm : SubmissionStateMachine) (target : SubmissionState) (actor : Actor)
          (uuidHex : String) (now : Datetime),
        uuidHex.length = 32 → (∀ c ∈ uuidHex.data, isHexChar c = true) →
        target ∈ VALID_TRANSITIONS sm.state →
        ∃ ev tail, (transitionTo sm target actor uuidHex now).2.events.getLast? = some ev
          ∧ ev.event_id = "evt_" ++ tail ∧ tail.length = 16
          ∧ ∀ c ∈ tail.data, isHexChar c = true) := by
  constructor
  · intro rt actor k fi ttl now hgate
    obtain ⟨resp, rt', heq, _, hsid, htok, _, _, _, _⟩ :=
      createNewSubmission_spec rt actor k fi ttl now
    have hcall : createSubmission rt actor k fi ttl now = .ok (resp, rt') := by
      rcases hgate with h | h
      · rw [createSubmission_gate_falsy rt actor k fi ttl now h]
        exact heq
      · rcases hkt : pyTruthyStr k with _ | _
        · rw [createSubmission_gate_falsy rt actor k fi ttl now hkt]
          exact heq
        · rw [createSubmission_gate_fresh rt actor k fi ttl now hkt h]
          exact heq
    refine ⟨resp, rt', hcall,
      ⟨(uuidHexDraw rt.counter).take 16, hsid, uuidHexDraw_take16_length _, ?_⟩,
      ⟨tokenUrlsafe32 (rt.counter + 1), htok, tokenUrlsafe32_length _, tokenUrlsafe32_chars _⟩⟩
    exact uuidHexDraw_take16_hex rt.counter
  · intro sm target actor uuidHex now hlen hhex hlegal
    have hc : canTransitionTo sm target = true := by
      unfold canTransitionTo
      exact decide_eq_true hlegal
    rw [transitionTo_of_legal sm target actor uuidHex now hc]
    refine ⟨emitEvent sm.submission_id target actor sm.state uuidHex now, uuidHex.take 16,
      List.getLast?_concat _, rfl, ?_, ?_⟩
    · rw [strTake_length, hlen]
      norm_num
    · intro c hc2
      exact hhex c (strTake_mem uuidHex 16 c hc2)

/-- Witness for C8: a creation on a fresh runtime, and a concrete legal
transition with a 32-hex-character draw. -/
theorem minted_identifier_formats_witness :
    (∃ resp rt', createSubmission (IntakeRuntime.init "vendor_onboarding" sampleSchema)
          sampleActor none none none sampleTs = .ok (resp, rt')
        ∧ (∃ hx, resp.submissionId = "sub_" ++ hx ∧ hx.length = 16
            ∧ ∀ c ∈ hx.data, isHexChar c = true)
        ∧ (∃ tk, resp.resumeToken = "rt_" ++ tk ∧ tk.length = 43
            ∧ ∀ c ∈ tk.data, isB64UrlChar c = true))
    ∧ (∃ ev tail,
        (transitionTo { submission_id := "sub_9" } .in_progress sampleActor
            "0123456789abcdef0123456789abcdef" sampleTs).2.events.getLast? = some ev
          ∧ ev.event_id = "evt_" ++ tail ∧ tail.length = 16
          ∧ ∀ c ∈ tail.data, isHexChar c = true) :=
  ⟨minted_identifier_formats.1 (IntakeRuntime.init "vendor_onboarding" sampleSchema)
     sampleActor none none none sampleTs (Or.inl rfl),
   minted_identifier_formats.2 { submission_id := "sub_9" } .in_progress sampleActor
     "0123456789abcdef0123456789abcdef" sampleTs (by decide) (by decide) (by decide)⟩

/-- Counterexample for C8 as stated: the first minted submission id is
`sub_` plus only 16 hex characters (length 20, not the 36 a 32-hex-character
id would have), and a minted event id is `evt_` plus only 16 hex
characters. -/
theorem identifier_width_counterexample :
    ((createSubmission (IntakeRuntime.init "vendor_onboarding" sampleSchema) sampleActor
        none none none sampleTs).toOption.map fun p => p.1.submissionId)
      = some "sub_0000000000000000"
    ∧ ¬ ("sub_0000000000000000" : String).length = 4 + 32
    ∧ ((transitionTo { submission_id := "sub_0000000000000000" } .in_progress sampleActor
        "0123456789abcdef0123456789abcdef" sampleTs).2.events.map fun e => e.event_id)
      = ["evt_0123456789abcdef"]
    ∧ ¬ ("evt_0123456789abcdef" : String).length = 4 + 32 :=
  ⟨rfl, by decide, rfl, by decide⟩

/-- Counterexample for C3 as stated: against `collisionSchema`, the document
`{"a": {}, "a.b": "x"}` produces a `required` error whose dot-joined path
`a.b` lands in `missing_fields` while the type error at the property
literally named `a.b` lands in `invalid_fields` — the two lists share the
path `a.b`, so they are not disjoint. -/
theorem missing_invalid_path_collision :
    (validate collisionSchema [("a", Json.obj []), ("a.b", Json.str "x")]).missing_fields
      = some ["a.b"]
    ∧ (validate collisionSchema [("a", Json.obj []), ("a.b", Json.str "x")]).invalid_fields
      = some ["a.b"] :=
  ⟨rfl, rfl⟩

theorem strExt : ∀ (s t : String), s.data = t.data → s = t
  | ⟨_⟩, ⟨_⟩, h => congrArg String.mk h

theorem strMk_data (s : String) : String.mk s.data = s := rfl

theorem cleanName_spec (x : String) (h : cleanName x = true) :
    ¬ x = "" ∧ ('.' : Char) ∉ x.data ∧ (Char.ofNat 39) ∉ x.data := by
  unfold cleanName at h
  simp only [Bool.and_eq_true, Bool.not_eq_true'] at h
  refine ⟨by simpa using h.1.1, ?_, ?_⟩
  · intro hmem
    have hcon : x.data.contains '.' = true :=
      List.contains_iff_exists_mem_beq.mpr ⟨('.' : Char), hmem, by simp⟩
    rw [h.1.2] at hcon
    exact Bool.false_ne_true hcon
  · intro hmem
    have hcon : x.data.contains (Char.ofNat 39) = true :=
      List.contains_iff_exists_mem_beq.mpr ⟨Char.ofNat 39, hmem, by simp⟩
    rw [h.2] at hcon
    exact Bool.false_ne_true hcon

theorem splitOnChar_cons (c x : Char) (xs : List Char) :
    splitOnChar c (x :: xs)
      = (match splitOnChar c xs with
         | [] => [[]]
         | g :: gs => if x = c then [] :: g :: gs else (x :: g) :: gs) := rfl

theorem splitOnChar_ne_nil (c : Char) : ∀ l : List Char, splitOnChar c l ≠ []
  | [] => by simp [splitOnChar]
  | x :: xs => by
      rw [splitOnChar_cons]
      cases hs : splitOnChar c xs with
      | nil => simp
      | cons g gs => by_cases hx : x = c <;> simp [hx]

theorem splitOnChar_skip (c : Char) (l1 l2 : List Char) (h : c ∉ l1) :
    splitOnChar c (l1 ++ c :: l2) = l1 :: splitOnChar c l2 := by
  induction l1 with
  | nil =>
      show splitOnChar c (c :: l2) = [] :: splitOnChar c l2
      rw [splitOnChar_cons]
      cases hs : splitOnChar c l2 with
      | nil => exact absurd hs (splitOnChar_ne_nil c l2)
      | cons g gs => simp
  | cons x xs ih =>
      have hx : ¬ x = c := fun hh => h (hh ▸ List.mem_cons_self x xs)
      have hxs : c ∉ xs := fun hh => h (List.mem_cons_of_mem x hh)
      show splitOnChar c (x :: (xs ++ c :: l2)) = (x :: xs) :: splitOnChar c l2
      rw [splitOnChar_cons, ih hxs]
      simp [hx]

theorem extractQuoted_req (p : String) (h : (Char.ofNat 39) ∉ p.data) :
    extractQuoted ("'" ++ p ++ "' is a required property") = p := by
  have hdata : ("'" ++ p ++ "' is a required property").data
      = Char.ofNat 39 :: (p.data ++ Char.ofNat 39 :: (" is a required property").data) := by
    rw [String.data_append, String.data_append]
    rfl
  unfold extractQuoted
  rw [hdata]
  have hcontains : (Char.ofNat 39 :: (p.data ++ Char.ofNat 39
      :: (" is a required property").data)).contains (Char.ofNat 39) = true := by
    simp [List.contains_cons]
  rw [if_pos hcontains]
  have hsplit : splitOnChar (Char.ofNat 39)
      (Char.ofNat 39 :: (p.data ++ Char.ofNat 39 :: (" is a required property").data))
      = [] :: p.data :: splitOnChar (Char.ofNat 39) (" is a required property").data := by
    have hstep := splitOnChar_skip (Char.ofNat 39) p.data
      (" is a required property").data h
    show splitOnChar (Char.ofNat 39)
        ([] ++ Char.ofNat 39 :: (p.data ++ Char.ofNat 39 :: (" is a required property").data))
      = _
    rw [splitOnChar_skip (Char.ofNat 39) []
      (p.data ++ Char.ofNat 39 :: (" is a required property").data) (by simp), hstep]
  rw [hsplit]

theorem pathJoin_cons_cons (x z : String) (rest : List String) :
    pathJoin (x :: z :: rest) = x ++ "." ++ pathJoin (z :: rest) := rfl

theorem pathJoin_ne_empty (xs : List String) (hne : xs ≠ [])
    (hclean : ∀ x ∈ xs, cleanName x = true) : ¬ pathJoin xs = "" := by
  match xs, hne with
  | [x], _ =>
      show ¬ pathJoin [x] = ""
      exact (cleanName_spec x (hclean x (by simp))).1
  | x :: z :: rest, _ =>
      rw [pathJoin_cons_cons]
      intro habs
      have hd := congrArg String.data habs
      rw [String.data_append, String.data_append] at hd
      simp at hd

theorem pathJoin_concat : ∀ (xs : List String) (y : String), xs ≠ [] →
    pathJoin (xs ++ [y]) = pathJoin xs ++ "." ++ y
  | [x], y, _ => rfl
  | x :: z :: rest, y, _ => by
      have htail := pathJoin_concat (z :: rest) y (by simp)
      show pathJoin (x :: (z :: rest ++ [y])) = (x ++ "." ++ pathJoin (z :: rest)) ++ "." ++ y
      rw [show x :: (z :: rest ++ [y]) = x :: z :: (rest ++ [y]) from rfl,
        pathJoin_cons_cons x z (rest ++ [y]),
        show z :: (rest ++ [y]) = (z :: rest) ++ [y] from rfl, htail]
      simp [String.append_assoc]

theorem append_cons_inj (c : Char) :
    ∀ (l1 m1 l2 m2 : List Char), c ∉ l1 → c ∉ m1 →
      l1 ++ c :: l2 = m1 ++ c :: m2 → l1 = m1 ∧ l2 = m2 := by
  intro l1
  induction l1 with
  | nil =>
      intro m1 l2 m2 _ hm1 h
      cases m1 with
      | nil => simpa using h
      | cons a m1 =>
          simp only [List.nil_append, List.cons_append, List.cons.injEq] at h
          exact absurd (h.1 ▸ List.mem_cons_self a m1) hm1
  | cons x xs ih =>
      intro m1 l2 m2 hl1 hm1 h
      cases m1 with
      | nil =>
          simp only [List.nil_append, List.cons_append, List.cons.injEq] at h
          exact absurd (h.1.symm ▸ List.mem_cons_self x xs) hl1
      | cons a m1 =>
          simp only [List.cons_append, List.cons.injEq] at h
          obtain ⟨rfl, h2⟩ := h
          have hxs : c ∉ xs := fun hh => hl1 (List.mem_cons_of_mem _ hh)
          have hm1' : c ∉ m1 := fun hh => hm1 (List.mem_cons_of_mem _ hh)
          obtain ⟨rfl, rfl⟩ := ih m1 l2 m2 hxs hm1' h2
          exact ⟨rfl, rfl⟩

theorem pathJoin_inj : ∀ (xs ys : List String),
    (∀ x ∈ xs, cleanName x = true) → (∀ y ∈ ys, cleanName y = true) →
    pathJoin xs = pathJoin ys → xs = ys
  | [], [], _, _, _ => rfl
  | [], y :: ys, _, hy, h =>
      absurd h.symm (pathJoin_ne_empty (y :: ys) (by simp) hy)
  | x :: xs, [], hx, _, h =>
      absurd h (pathJoin_ne_empty (x :: xs) (by simp) hx)
  | [x], [y], _, _, h => by rw [show pathJoin [x] = x from rfl, show pathJoin [y] = y from rfl] at h; rw [h]
  | [x], y :: z :: ys, hx, hy, h => by
      exfalso
      rw [show pathJoin [x] = x from rfl, pathJoin_cons_cons] at h
      have hd := congrArg String.data h
      rw [String.data_append, String.data_append] at hd
      have hdot : ('.' : Char) ∈ x.data := by
        rw [hd]
        refine List.mem_append.mpr (Or.inl (List.mem_append.mpr (Or.inr ?_)))
        decide
      exact (cleanName_spec x (hx x (by simp))).2.1 hdot
  | x :: z :: xs, [y], hx, hy, h => by
      exfalso
      rw [show pathJoin [y] = y from rfl, pathJoin_cons_cons] at h
      have hd := congrArg String.data h
      rw [String.data_append, String.data_append] at hd
      have hdot : ('.' : Char) ∈ y.data := by
        rw [← hd]
        refine List.mem_append.mpr (Or.inl (List.mem_append.mpr (Or.inr ?_)))
        decide
      exact (cleanName_spec y (hy y (by simp))).2.1 hdot
  | x :: z :: xs, y :: w :: ys, hx, hy, h => by
      rw [pathJoin_cons_cons, pathJoin_cons_cons] at h
      have hd := congrArg String.data h
      rw [String.data_append, String.data_append, String.data_append,
        String.data_append] at hd
      rw [show ("." : String).data = ['.'] from rfl] at hd
      simp only [List.append_assoc, List.singleton_append] at hd
      have hsplit := append_cons_inj '.' x.data y.data _ _
        (cleanName_spec x (hx x (by simp))).2.1
        (cleanName_spec y (hy y (by simp))).2.1 hd
      have hxy : x = y := strExt _ _ hsplit.1
      have htl : pathJoin (z :: xs) = pathJoin (w :: ys) := strExt _ _ hsplit.2
      have hrec := pathJoin_inj (z :: xs) (w :: ys)
        (fun a ha => hx a (List.mem_cons_of_mem _ ha))
        (fun a ha => hy a (List.mem_cons_of_mem _ ha)) htl
      rw [hxy, hrec]

theorem resolvePath_append_none : ∀ (rel : List String) (j : Json)
    (o : List (String × Json)) (p : String),
    resolvePath j rel = some (.obj o) → jlookup o p = none →
    resolvePath j (rel ++ [p]) = none
  | [], j, o, p, hres, hlook => by
      have : j = .obj o := by
        simpa [resolvePath] using hres
      subst this
      simp [resolvePath, hlook]
  | k :: rest, j, o, p, hres, hlook => by
      cases j with
      | obj ms =>
          rw [show resolvePath (.obj ms) (k :: rest)
              = (match jlookup ms k with
                 | some v => resolvePath v rest
                 | none => none) from rfl] at hres
          cases hk : jlookup ms k with
          | none => rw [hk] at hres; exact absurd hres (by simp)
          | some v =>
              rw [hk] at hres
              have := resolvePath_append_none rest v o p hres hlook
              show (match jlookup ms k with
                    | some v => resolvePath v (rest ++ [p])
                    | none => none) = none
              rw [hk]
              exact this
      | null => exact absurd hres (by simp [resolvePath])
      | bool b => exact absurd hres (by simp [resolvePath])
      | num n => exact absurd hres (by simp [resolvePath])
      | str s => exact absurd hres (by simp [resolvePath])
      | arr xs => exact absurd hres (by simp [resolvePath])

theorem length_filter_partition (l : List FieldError) :
    ((l.filter fun fe => fe.code = .REQUIRED).length
      + (l.filter fun fe => ¬ fe.code = .REQUIRED).length) = l.length := by
  induction l with
  | nil => rfl
  | cons fe l ih =>
      rw [List.filter_cons, List.filter_cons]
      simp only [decide_not] at ih ⊢
      by_cases h : fe.code = .REQUIRED <;> simp [h] <;> omega

theorem translateError_code_required (e : RawError) :
    (translateError e).code = .REQUIRED ↔ e.validator = "required" := by
  unfold translateError
  by_cases h : e.validator = "required"
  · simp [h]
  · simp only [h, if_false]
    split_ifs <;> simp

theorem translateError_path_required (e : RawError) (h : e.validator = "required") :
    (translateError e).path
      = (if pathJoin e.path ≠ "" then pathJoin e.path ++ "." ++ extractQuoted e.message
         else extractQuoted e.message) := by
  unfold translateError
  simp [h]

theorem translateError_path_nonrequired (e : RawError) (h : ¬ e.validator = "required") :
    (translateError e).path = pathJoin e.path := by
  unfold translateError
  simp only [h, if_false]
  split_ifs <;> rfl

theorem requiredShape_mono {path : List String} {j : Json} {b1 b2 : Bool} {e : RawError}
    (h : RequiredShape path j b1 e) (himp : b2 = true → b1 = true) :
    RequiredShape path j b2 e := by
  obtain ⟨rel, o, p, h1, h2, h3, h4, h5⟩ := h
  exact ⟨rel, o, p, h1, h2, h3, h4, fun hb => h5 (himp hb)⟩

theorem presentShape_mono {path : List String} {j : Json} {b1 b2 : Bool} {e : RawError}
    (h : PresentShape path j b1 e) (himp : b2 = true → b1 = true) :
    PresentShape path j b2 e := by
  obtain ⟨rel, v, h1, h2, h3⟩ := h
  exact ⟨rel, v, h1, h2, fun hb => h3 (himp hb)⟩

theorem resolvePath_nil (j : Json) : resolvePath j [] = some j := by
  cases j <;> rfl

theorem presentShape_here (path : List String) (j : Json) (clean : Bool) (e : RawError)
    (hp : e.path = path) : PresentShape path j clean e :=
  ⟨[], j, by simp [hp], resolvePath_nil j, fun _ c hc => absurd hc (List.not_mem_nil c)⟩

theorem mem_typeKeywordErrors {t? : Option String} {path : List String} {j : Json}
    {e : RawError} (h : e ∈ typeKeywordErrors t? path j) :
    ¬ e.validator = "required" ∧ e.path = path := by
  unfold typeKeywordErrors at h
  repeat' split at h
  all_goals first
    | exact absurd h (List.not_mem_nil e)
    | (rcases List.mem_singleton.mp h with rfl
       refine ⟨fun hc => ?_, rfl⟩
       simp at hc)

theorem mem_enumKeywordErrors {enum? : Option (List Json)} {path : List String} {j : Json}
    {e : RawError} (h : e ∈ enumKeywordErrors enum? path j) :
    ¬ e.validator = "required" ∧ e.path = path := by
  unfold enumKeywordErrors at h
  repeat' split at h
  all_goals first
    | exact absurd h (List.not_mem_nil e)
    | (rcases List.mem_singleton.mp h with rfl
       refine ⟨fun hc => ?_, rfl⟩
       simp at hc)

theorem mem_minLengthKeywordErrors {minL? : Option Nat} {path : List String} {j : Json}
    {e : RawError} (h : e ∈ minLengthKeywordErrors minL? path j) :
    ¬ e.validator = "required" ∧ e.path = path := by
  unfold minLengthKeywordErrors at h
  repeat' split at h
  all_goals first
    | exact absurd h (List.not_mem_nil e)
    | (rcases List.mem_singleton.mp h with rfl
       refine ⟨fun hc => ?_, rfl⟩
       simp at hc)

theorem mem_maxLengthKeywordErrors {maxL? : Option Nat} {path : List String} {j : Json}
    {e : RawError} (h : e ∈ maxLengthKeywordErrors maxL? path j) :
    ¬ e.validator = "required" ∧ e.path = path := by
  unfold maxLengthKeywordErrors at h
  repeat' split at h
  all_goals first
    | exact absurd h (List.not_mem_nil e)
    | (rcases List.mem_singleton.mp h with rfl
       refine ⟨fun hc => ?_, rfl⟩
       simp at hc)

theorem mem_minimumKeywordErrors {minI? : Option Int} {path : List String} {j : Json}
    {e : RawError} (h : e ∈ minimumKeywordErrors minI? path j) :
    ¬ e.validator = "required" ∧ e.path = path := by
  unfold minimumKeywordErrors at h
  repeat' split at h
  all_goals first
    | exact absurd h (List.not_mem_nil e)
    | (rcases List.mem_singleton.mp h with rfl
       refine ⟨fun hc => ?_, rfl⟩
       simp at hc)

theorem mem_maximumKeywordErrors {maxI? : Option Int} {path : List String} {j : Json}
    {e : RawError} (h : e ∈ maximumKeywordErrors maxI? path j) :
    ¬ e.validator = "required" ∧ e.path = path := by
  unfold maximumKeywordErrors at h
  repeat' split at h
  all_goals first
    | exact absurd h (List.not_mem_nil e)
    | (rcases List.mem_singleton.mp h with rfl
       refine ⟨fun hc => ?_, rfl⟩
       simp at hc)

theorem mem_requiredKeywordErrors {req : List String} {path : List String}
    {members : List (String × Json)} {e : RawError}
    (h : e ∈ requiredKeywordErrors req path members) :
    e.validator = "required" ∧ e.path = path
      ∧ ∃ p ∈ req, jlookup members p = none
        ∧ e.message = "'" ++ p ++ "' is a required property" := by
  unfold requiredKeywordErrors at h
  obtain ⟨p, hpmem, hpf⟩ := List.mem_filterMap.mp h
  cases hlook : (jlookup members p).isSome with
  | true => rw [hlook] at hpf; simp at hpf
  | false =>
      rw [hlook] at hpf
      simp only [Bool.false_eq_true, if_false, Option.some.injEq] at hpf
      rcases hpf with rfl
      have hnone : jlookup members p = none := by
        cases hj : jlookup members p with
        | none => rfl
        | some v => rw [hj] at hlook; simp at hlook
      exact ⟨rfl, rfl, p, hpmem, hnone, rfl⟩

theorem bothShapes_nonreq (path : List String) (j : Json) (clean : Bool) (e : RawError)
    (hv : ¬ e.validator = "required") (hp : e.path = path) :
    (e.validator = "required" → RequiredShape path j clean e)
    ∧ (¬ e.validator = "required" → PresentShape path j clean e) :=
  ⟨fun h => absurd h hv, fun _ => presentShape_here path j clean e hp⟩

mutual

theorem iterErrors_shape : ∀ (s : Schema) (path : List String) (j : Json),
    ∀ e ∈ iterErrors s path j,
      (e.validator = "required" → RequiredShape path j (cleanSchema s) e)
      ∧ (¬ e.validator = "required" → PresentShape path j (cleanSchema s) e)
  | .mk t? req props enum? minL? maxL? minI? maxI?, path, j => by
      intro e he
      simp only [iterErrors, List.mem_append] at he
      rcases he with ((((((h | h) | h) | h) | h) | h) | h)
      · obtain ⟨hv, hp⟩ := mem_typeKeywordErrors h
        exact bothShapes_nonreq _ _ _ _ hv hp
      · obtain ⟨hv, hp⟩ := mem_enumKeywordErrors h
        exact bothShapes_nonreq _ _ _ _ hv hp
      · -- `required` and `properties` keywords (objects only)
        cases j with
        | obj members =>
            rcases List.mem_append.mp h with hreq | hprops
            · obtain ⟨hv, hp, p, hpmem, hnone, hmsg⟩ := mem_requiredKeywordErrors hreq
              refine ⟨fun _ => ⟨[], members, p, by simp [hp], resolvePath_nil _, hnone, hmsg,
                fun hcl => ?_⟩, fun hv' => absurd hv hv'⟩
              unfold cleanSchema at hcl
              simp only [Bool.and_eq_true] at hcl
              exact ⟨List.all_eq_true.mp hcl.1 p hpmem,
                fun c hc => absurd hc (List.not_mem_nil c)⟩
            · have hs := iterErrorsProps_shape props path members e hprops
              have himp : cleanSchema (.mk t? req props enum? minL? maxL? minI? maxI?) = true
                  → cleanProps props = true := by
                intro hcl
                unfold cleanSchema at hcl
                simp only [Bool.and_eq_true] at hcl
                exact hcl.2
              exact ⟨fun hr => requiredShape_mono (hs.1 hr) himp,
                fun hnr => presentShape_mono (hs.2 hnr) himp⟩
        | null => simp at h
        | bool b => simp at h
        | num n => simp at h
        | str s => simp at h
        | arr xs => simp at h
      · obtain ⟨hv, hp⟩ := mem_minLengthKeywordErrors h
        exact bothShapes_nonreq _ _ _ _ hv hp
      · obtain ⟨hv, hp⟩ := mem_maxLengthKeywordErrors h
        exact bothShapes_nonreq _ _ _ _ hv hp
      · obtain ⟨hv, hp⟩ := mem_minimumKeywordErrors h
        exact bothShapes_nonreq _ _ _ _ hv hp
      · obtain ⟨hv, hp⟩ := mem_maximumKeywordErrors h
        exact bothShapes_nonreq _ _ _ _ hv hp
  termination_by s path j => sizeOf s

theorem iterErrorsProps_shape : ∀ (props : List (String × Schema)) (path : List String)
    (members : List (String × Json)),
    ∀ e ∈ iterErrorsProps props path members,
      (e.validator = "required" → RequiredShape path (.obj members) (cleanProps props) e)
      ∧ (¬ e.validator = "required" → PresentShape path (.obj members) (cleanProps props) e)
  | [], _, _ => by
      intro e he
      simp [iterErrorsProps] at he
  | (name, sub) :: rest, path, members => by
      intro e he
      simp only [iterErrorsProps, List.mem_append] at he
      rcases he with h | h
      · cases hlook : jlookup members name with
        | none => rw [hlook] at h; simp at h
        | some v =>
            rw [hlook] at h
            have hs := iterErrors_shape sub (path ++ [name]) v e h
            have hclean : cleanProps ((name, sub) :: rest) = true →
                cleanName name = true ∧ cleanSchema sub = true := by
              intro hcl
              unfold cleanProps at hcl
              simp only [Bool.and_eq_true] at hcl
              exact hcl.1
            refine ⟨fun hr => ?_, fun hnr => ?_⟩
            · obtain ⟨rel, o, p, h1, h2, h3, h4, h5⟩ := hs.1 hr
              refine ⟨name :: rel, o, p, by rw [h1]; simp, ?_, h3, h4, fun hcl => ?_⟩
              · show (match jlookup members name with
                      | some v => resolvePath v rel
                      | none => none) = some (.obj o)
                rw [hlook]
                exact h2
              · refine ⟨(h5 (hclean hcl).2).1, fun c hc => ?_⟩
                rcases List.mem_cons.mp hc with rfl | hc'
                · exact (hclean hcl).1
                · exact (h5 (hclean hcl).2).2 c hc'
            · obtain ⟨rel, v', h1, h2, h3⟩ := hs.2 hnr
              refine ⟨name :: rel, v', by rw [h1]; simp, ?_, fun hcl c hc => ?_⟩
              · show (match jlookup members name with
                      | some v => resolvePath v rel
                      | none => none) = some v'
                rw [hlook]
                exact h2
              · rcases List.mem_cons.mp hc with rfl | hc'
                · exact (hclean hcl).1
                · exact h3 (hclean hcl).2 c hc'
      · have hs := iterErrorsProps_shape rest path members e h
        have himp : cleanProps ((name, sub) :: rest) = true → cleanProps rest = true := by
          intro hcl
          unfold cleanProps at hcl
          simp only [Bool.and_eq_true] at hcl
          exact hcl.2
        exact ⟨fun hr => requiredShape_mono (hs.1 hr) himp,
          fun hnr => presentShape_mono (hs.2 hnr) himp⟩
  termination_by props path members => sizeOf props

end

theorem required_nonrequired_paths_differ (s : Schema) (data : List (String × Json))
    (hclean : cleanSchema s = true) (e1 e2 : RawError)
    (h1 : e1 ∈ iterErrors s [] (.obj data)) (h2 : e2 ∈ iterErrors s [] (.obj data))
    (hv1 : e1.validator = "required") (hv2 : ¬ e2.validator = "required") :
    ¬ (translateError e1).path = (translateError e2).path := by
  intro heq
  obtain ⟨rel1, o, q, hp1, hres1, hlook, hmsg, hcl1⟩ :=
    (iterErrors_shape s [] (.obj data) e1 h1).1 hv1
  obtain ⟨rel2, v, hp2, hres2, hcl2⟩ :=
    (iterErrors_shape s [] (.obj data) e2 h2).2 hv2
  simp only [List.nil_append] at hp1 hp2
  obtain ⟨hq, hrel1⟩ := hcl1 hclean
  have hrel2 := hcl2 hclean
  have hpath1 : (translateError e1).path = pathJoin (rel1 ++ [q]) := by
    rw [translateError_path_required e1 hv1, hp1, hmsg,
      extractQuoted_req q (cleanName_spec q hq).2.2]
    cases rel1 with
    | nil => rw [if_neg (fun hh => hh rfl)]; rfl
    | cons a rest =>
        rw [if_pos (pathJoin_ne_empty (a :: rest) (by simp) hrel1),
          pathJoin_concat (a :: rest) q (by simp)]
  have hpath2 : (translateError e2).path = pathJoin rel2 := by
    rw [translateError_path_nonrequired e2 hv2, hp2]
  rw [hpath1, hpath2] at heq
  have hall1 : ∀ x ∈ rel1 ++ [q], cleanName x = true := by
    intro x hx
    rcases List.mem_append.mp hx with hx | hx
    · exact hrel1 x hx
    · rw [List.mem_singleton.mp hx]; exact hq
  have hlist := pathJoin_inj (rel1 ++ [q]) rel2 hall1 hrel2 heq
  rw [← hlist] at hres2
  rw [resolvePath_append_none rel1 (.obj data) o q hres1 hlook] at hres2
  exact absurd hres2 (by simp)

theorem validate_success (s : Schema) (data : List (String × Json))
    (h : (iterErrors s [] (.obj data)).isEmpty = true) :
    validate s data = ⟨true, [], some data, some [], some []⟩ := by
  simp only [validate]
  rw [if_pos h]

theorem validate_failure (s : Schema) (data : List (String × Json))
    (h : ¬ (iterErrors s [] (.obj data)).isEmpty = true) :
    validate s data = ⟨false,
      (iterErrors s [] (.obj data)).map translateError,
      some data,
      some ((((iterErrors s [] (.obj data)).map translateError).filter
        (fun fe => fe.code = .REQUIRED)).map (fun fe => fe.path)),
      some ((((iterErrors s [] (.obj data)).map translateError).filter
        (fun fe => ¬ fe.code = .REQUIRED)).map (fun fe => fe.path))⟩ := by
  simp only [validate]
  rw [if_neg h]

/-- C3 (amended). `validate` reports every diagnostic of the validator, not
only the first; it echoes the input document unchanged in `data`; it always
returns concrete `missing_fields` and `invalid_fields` lists, partitioned
exactly by the `required` error code, with `|missing| + |invalid| =
|errors|`; `is_valid` holds exactly when there is no diagnostic (and then all
lists are empty); and — provided every property name and `required` entry of
the schema is nonempty and free of `.` and `'` (`cleanSchema`) — the
`missing_fields` and `invalid_fields` lists are disjoint. Without that
proviso, disjointness fails: dot-joined paths of distinct fields can collide
(see the counterexample). -/
theorem validation_reports_all_partitions_disjoint (s : Schema)
    (data : List (String × Json)) (hclean : cleanSchema s = true) :
    ∃ mf inv,
      (validate s data).data = some data
      ∧ (validate s data).errors = (iterErrors s [] (.obj data)).map translateError
      ∧ (validate s data).missing_fields = some mf
      ∧ (validate s data).invalid_fields = some inv
      ∧ mf = (((iterErrors s [] (.obj data)).map translateError).filter
          (fun fe => fe.code = .REQUIRED)).map (fun fe => fe.path)
      ∧ inv = (((iterErrors s [] (.obj data)).map translateError).filter
          (fun fe => ¬ fe.code = .REQUIRED)).map (fun fe => fe.path)
      ∧ mf.length + inv.length = (validate s data).errors.length
      ∧ ((validate s data).is_valid = true ↔ iterErrors s [] (.obj data) = [])
      ∧ ∀ p ∈ mf, p ∉ inv := by
  by_cases h : (iterErrors s [] (.obj data)).isEmpty = true
  · have hnil : iterErrors s [] (.obj data) = [] := by
      cases hx : iterErrors s [] (.obj data) with
      | nil => rfl
      | cons a l => rw [hx] at h; simp at h
    rw [validate_success s data h, hnil]
    exact ⟨[], [], rfl, rfl, rfl, rfl, rfl, rfl, rfl, by simp, by simp⟩
  · rw [validate_failure s data h]
    refine ⟨_, _, rfl, rfl, rfl, rfl, rfl, rfl, ?_, ?_, ?_⟩
    · rw [List.length_map, List.length_map]
      exact length_filter_partition _
    · constructor
      · intro hh; exact absurd hh (by simp)
      · intro hh; rw [hh] at h; exact absurd rfl h
    · intro p hp hpinv
      obtain ⟨fe1, hfe1, hp1⟩ := List.mem_map.mp hp
      obtain ⟨fe2, hfe2, hp2⟩ := List.mem_map.mp hpinv
      obtain ⟨hfe1m, hc1⟩ := List.mem_filter.mp hfe1
      obtain ⟨hfe2m, hc2⟩ := List.mem_filter.mp hfe2
      obtain ⟨e1, he1, rfl⟩ := List.mem_map.mp hfe1m
      obtain ⟨e2, he2, rfl⟩ := List.mem_map.mp hfe2m
      have hv1 : e1.validator = "required" :=
        (translateError_code_required e1).mp (of_decide_eq_true hc1)
      have hv2 : ¬ e2.validator = "required" := fun hh =>
        (of_decide_eq_true hc2) ((translateError_code_required e2).mpr hh)
      exact required_nonrequired_paths_differ s data hclean e1 e2 he1 he2 hv1 hv2
        (hp1.trans hp2.symm)

theorem strData_mk (l : List Char) : (String.mk l).data = l := rfl

theorem char_toNat_facts (c : Char) :
    (c.toNat < 55296 ∨ 57344 ≤ c.toNat) ∧ c.toNat < 1114112 := by
  have hv : c.val.toNat < 55296 ∨ (57343 < c.val.toNat ∧ c.val.toNat < 1114112) := c.valid
  have he : c.toNat = c.val.toNat := rfl
  rw [he]
  omega

theorem digitVal (k : Nat) (h : k < 10) :
    (Char.ofNat (48 + k)).toNat = 48 + k ∧ isDigitChar (Char.ofNat (48 + k)) = true := by
  interval_cases k <;> exact ⟨rfl, rfl⟩

theorem padDigits_digits : ∀ (w n : Nat), ∀ c ∈ padDigits w n, isDigitChar c = true
  | 0, n => by
      intro c hc
      simp [padDigits] at hc
  | w + 1, n => by
      intro c hc
      rw [show padDigits (w + 1) n
          = Char.ofNat (48 + n / 10 ^ w % 10) :: padDigits w (n % 10 ^ w) from rfl] at hc
      rcases List.mem_cons.mp hc with rfl | hc
      · exact (digitVal _ (Nat.mod_lt _ (by omega))).2
      · exact padDigits_digits w (n % 10 ^ w) c hc

theorem parseNDigits_padDigits : ∀ (w acc n : Nat) (rest : List Char), n < 10 ^ w →
    parseNDigits w acc (padDigits w n ++ rest) = some (acc * 10 ^ w + n, rest)
  | 0, acc, n, rest, h => by
      have hn : n = 0 := by simpa using h
      subst hn
      simp [padDigits, parseNDigits]
  | w + 1, acc, n, rest, h => by
      have hp : (0 : Nat) < 10 ^ w := pow_pos (by norm_num) w
      have h' : n < 10 * 10 ^ w := by
        rw [pow_succ] at h
        omega
      have hlt : n / 10 ^ w < 10 := (Nat.div_lt_iff_lt_mul hp).mpr (by omega)
      have hmod : n / 10 ^ w % 10 = n / 10 ^ w := Nat.mod_eq_of_lt hlt
      have hd := digitVal (n / 10 ^ w % 10) (Nat.mod_lt _ (by omega))
      rw [show padDigits (w + 1) n
          = Char.ofNat (48 + n / 10 ^ w % 10) :: padDigits w (n % 10 ^ w) from rfl,
        List.cons_append,
        show parseNDigits (w + 1) acc
            (Char.ofNat (48 + n / 10 ^ w % 10) :: (padDigits w (n % 10 ^ w) ++ rest))
          = (if isDigitChar (Char.ofNat (48 + n / 10 ^ w % 10)) = true then
              parseNDigits w (acc * 10 + ((Char.ofNat (48 + n / 10 ^ w % 10)).toNat - 48))
                (padDigits w (n % 10 ^ w) ++ rest)
             else none) from rfl,
        if_pos hd.2, hd.1,
        parseNDigits_padDigits w _ (n % 10 ^ w) rest (Nat.mod_lt _ hp)]
      have harith : (acc * 10 + (48 + n / 10 ^ w % 10 - 48)) * 10 ^ w + n % 10 ^ w
          = acc * 10 ^ (w + 1) + n := by
        rw [hmod, pow_succ, show 48 + n / 10 ^ w - 48 = n / 10 ^ w from by omega]
        have hdm := Nat.div_add_mod n (10 ^ w)
        have hring : (acc * 10 + n / 10 ^ w) * 10 ^ w + n % 10 ^ w
            = acc * (10 ^ w * 10) + (10 ^ w * (n / 10 ^ w) + n % 10 ^ w) := by ring
        rw [hring, hdm]
      rw [harith]

theorem parseNDigits0 (w n : Nat) (rest : List Char) (h : n < 10 ^ w) :
    parseNDigits w 0 (padDigits w n ++ rest) = some (n, rest) := by
  rw [parseNDigits_padDigits w 0 n rest h]
  norm_num

theorem natDigits_spec (n : Nat) :
    natDigits n ≠ [] ∧ (∀ c ∈ natDigits n, isDigitChar c = true)
      ∧ digitsToNat (natDigits n) = n := by
  induction n using Nat.strongRecOn with
  | _ n ih =>
    rw [natDigits]
    by_cases h : n < 10
    · rw [if_pos h]
      refine ⟨by simp, ?_, ?_⟩
      · intro c hc
        rcases List.mem_singleton.mp hc with rfl
        exact (digitVal n h).2
      · rw [show digitsToNat [Char.ofNat (48 + n)]
            = 0 * 10 + ((Char.ofNat (48 + n)).toNat - 48) from rfl, (digitVal n h).1]
        omega
    · rw [if_neg h]
      have ihd := ih (n / 10) (by omega)
      refine ⟨by simp, ?_, ?_⟩
      · intro c hc
        rcases List.mem_append.mp hc with hc | hc
        · exact ihd.2.1 c hc
        · rcases List.mem_singleton.mp hc with rfl
          exact (digitVal _ (Nat.mod_lt _ (by omega))).2
      · have hfold : digitsToNat (natDigits (n / 10) ++ [Char.ofNat (48 + n % 10)])
            = digitsToNat (natDigits (n / 10)) * 10
              + ((Char.ofNat (48 + n % 10)).toNat - 48) := by
          unfold digitsToNat
          rw [List.foldl_append]
          rfl
        rw [hfold, ihd.2.2, (digitVal _ (Nat.mod_lt _ (by omega))).1]
        omega

theorem natDigits_head (n : Nat) :
    ∃ d t, natDigits n = d :: t ∧ isDigitChar d = true := by
  obtain ⟨hne, hdig, _⟩ := natDigits_spec n
  cases hnd : natDigits n with
  | nil => exact absurd hnd hne
  | cons d t => exact ⟨d, t, rfl, hdig d (by rw [hnd]; exact List.mem_cons_self d t)⟩

theorem takeDigits_split : ∀ (ds : List Char), (∀ c ∈ ds, isDigitChar c = true) →
    ∀ (rest : List Char), numStop rest = true → takeDigits (ds ++ rest) = (ds, rest)
  | [], _, rest, hr => by
      cases rest with
      | nil => rfl
      | cons c t =>
          have hc : isDigitChar c = false := by
            unfold numStop at hr
            simpa using hr
          simp [takeDigits, hc]
  | d :: ds, hd, rest, hr => by
      have hdd : isDigitChar d = true := hd d (List.mem_cons_self d ds)
      have ih := takeDigits_split ds (fun c hc => hd c (List.mem_cons_of_mem d hc)) rest hr
      rw [List.cons_append]
      simp [takeDigits, hdd, ih]

theorem isDigitChar_ne (c : Char) (h : isDigitChar c = true) :
    ¬ c = 'n' ∧ ¬ c = 't' ∧ ¬ c = 'f' ∧ ¬ c = '"' ∧ ¬ c = '[' ∧ ¬ c = '{' ∧ ¬ c = '-'
      ∧ ¬ c = ']' ∧ ¬ c = '}' ∧ ¬ c = ',' := by
  refine ⟨?_, ?_, ?_, ?_, ?_, ?_, ?_, ?_, ?_, ?_⟩ <;>
    (intro hh; subst hh; exact absurd h (by decide))

theorem parseJInt_intChars (i : Int) (rest : List Char) (hr : numStop rest = true) :
    parseJInt (intChars i ++ rest) = some (i, rest) := by
  by_cases hneg : i < 0
  · obtain ⟨hne, hdig, hval⟩ := natDigits_spec i.natAbs
    obtain ⟨d, t, hdt, _⟩ := natDigits_head i.natAbs
    rw [show intChars i ++ rest = '-' :: (natDigits i.natAbs ++ rest) from by
      rw [intChars, if_pos hneg, List.cons_append]]
    rw [show parseJInt ('-' :: (natDigits i.natAbs ++ rest))
        = (match takeDigits (natDigits i.natAbs ++ rest) with
           | (d2 :: ds2, r) => some (-(digitsToNat (d2 :: ds2) : Int), r)
           | ([], _) => none) from rfl,
      takeDigits_split (natDigits i.natAbs) hdig rest hr, hdt]
    have hv : digitsToNat (d :: t) = i.natAbs := by rw [← hdt, hval]
    simp only [hv]
    have : -(i.natAbs : Int) = i := by omega
    rw [this]
  · obtain ⟨hne, hdig, hval⟩ := natDigits_spec i.toNat
    obtain ⟨d, t, hdt, hddig⟩ := natDigits_head i.toNat
    have hdm : ¬ d = '-' := (isDigitChar_ne d hddig).2.2.2.2.2.2.1
    rw [show intChars i = natDigits i.toNat from by rw [intChars, if_neg hneg], hdt,
      List.cons_append]
    rw [show parseJInt (d :: (t ++ rest))
        = (if d = '-' then
             match takeDigits (t ++ rest) with
             | (d2 :: ds2, r) => some (-(digitsToNat (d2 :: ds2) : Int), r)
             | ([], _) => none
           else
             match takeDigits (d :: (t ++ rest)) with
             | (d2 :: ds2, r) => some ((digitsToNat (d2 :: ds2) : Int), r)
             | ([], _) => none) from rfl,
      if_neg hdm,
      show d :: (t ++ rest) = (d :: t) ++ rest from rfl,
      takeDigits_split (d :: t) (by rw [← hdt]; exact hdig) rest hr]
    have hv : digitsToNat (d :: t) = i.toNat := by rw [← hdt, hval]
    simp only [hv]
    have : ((i.toNat : Nat) : Int) = i := by omega
    rw [this]

/-- Witness for C3 at `c3schema` and the document `\x7b"age": "x"\x7d`
(missing `name`, mistyped `age`). -/
theorem validation_reports_all_partitions_disjoint_witness :
    cleanSchema c3schema = true
    ∧ ∃ mf inv,
      (validate c3schema [("age", Json.str "x")]).data = some [("age", Json.str "x")]
      ∧ (validate c3schema [("age", Json.str "x")]).errors
          = (iterErrors c3schema [] (.obj [("age", Json.str "x")])).map translateError
      ∧ (validate c3schema [("age", Json.str "x")]).missing_fields = some mf
      ∧ (validate c3schema [("age", Json.str "x")]).invalid_fields = some inv
      ∧ mf = (((iterErrors c3schema [] (.obj [("age", Json.str "x")])).map
          translateError).filter
          (fun fe => fe.code = .REQUIRED)).map (fun fe => fe.path)
      ∧ inv = (((iterErrors c3schema [] (.obj [("age", Json.str "x")])).map
          translateError).filter
          (fun fe => ¬ fe.code = .REQUIRED)).map (fun fe => fe.path)
      ∧ mf.length + inv.length = (validate c3schema [("age", Json.str "x")]).errors.length
      ∧ ((validate c3schema [("age", Json.str "x")]).is_valid = true
          ↔ iterErrors c3schema [] (.obj [("age", Json.str "x")]) = [])
      ∧ ∀ p ∈ mf, p ∉ inv :=
  ⟨by decide,
    validation_reports_all_partitions_disjoint c3schema [("age", Json.str "x")] (by decide)⟩

theorem hexCharVal_hexDigitChar (k : Nat) (h : k < 16) :
    hexCharVal (hexDigitChar k) = some k := by
  interval_cases k <;> decide

theorem hexQuad_digits (n : Nat) (h : n < 65536) :
    hexQuad (hexDigitChar (n / 4096 % 16)) (hexDigitChar (n / 256 % 16))
      (hexDigitChar (n / 16 % 16)) (hexDigitChar (n % 16)) = some n := by
  unfold hexQuad
  rw [hexCharVal_hexDigitChar _ (Nat.mod_lt _ (by omega)),
    hexCharVal_hexDigitChar _ (Nat.mod_lt _ (by omega)),
    hexCharVal_hexDigitChar _ (Nat.mod_lt _ (by omega)),
    hexCharVal_hexDigitChar _ (Nat.mod_lt _ (by omega))]
  have harith : ((n / 4096 % 16 * 16 + n / 256 % 16) * 16 + n / 16 % 16) * 16 + n % 16
      = n := by omega
  simp [harith]

theorem pyEscapeChar_ne_nil (c : Char) : 1 ≤ (pyEscapeChar c).length := by
  unfold pyEscapeChar
  repeat' split
  all_goals simp [uEscape]

theorem flatMap_escape_length (cs : List Char) :
    cs.length ≤ (cs.flatMap pyEscapeChar).length := by
  induction cs with
  | nil => simp
  | cons c cs ih =>
      rw [List.flatMap_cons]
      simp only [List.length_append, List.length_cons]
      have := pyEscapeChar_ne_nil c
      omega

theorem parseJStr_u_step (x1 x2 x3 x4 : Char) (f : Nat) (acc rest : List Char) :
    parseJStr (f + 1) acc ('\\' :: 'u' :: x1 :: x2 :: x3 :: x4 :: rest)
      = (match hexQuad x1 x2 x3 x4 with
         | none => none
         | some n =>
             if 55296 ≤ n ∧ n < 56320 then
               match rest with
               | x :: y :: a2 :: b2 :: c3 :: d2 :: rest4 =>
                   if x = '\\' ∧ y = 'u' then
                     match hexQuad a2 b2 c3 d2 with
                     | none => none
                     | some m =>
                         if 56320 ≤ m ∧ m < 57344 then
                           parseJStr f (Char.ofNat (65536 + (n - 55296) * 1024
                             + (m - 56320)) :: acc) rest4
                         else none
                   else none
               | _ => none
             else if 56320 ≤ n ∧ n < 57344 then none
             else parseJStr f (Char.ofNat n :: acc) rest) := rfl

theorem parseJStr_u2_step (x1 x2 x3 x4 y1 y2 y3 y4 : Char) (f : Nat)
    (acc rest : List Char) :
    parseJStr (f + 1) acc
        ('\\' :: 'u' :: x1 :: x2 :: x3 :: x4 :: '\\' :: 'u' :: y1 :: y2 :: y3 :: y4 :: rest)
      = (match hexQuad x1 x2 x3 x4 with
         | none => none
         | some n =>
             if 55296 ≤ n ∧ n < 56320 then
               (match hexQuad y1 y2 y3 y4 with
                | none => none
                | some m =>
                    if 56320 ≤ m ∧ m < 57344 then
                      parseJStr f (Char.ofNat (65536 + (n - 55296) * 1024
                        + (m - 56320)) :: acc) rest
                    else none)
             else if 56320 ≤ n ∧ n < 57344 then none
             else parseJStr f (Char.ofNat n :: acc)
               ('\\' :: 'u' :: y1 :: y2 :: y3 :: y4 :: rest)) := rfl

theorem parseJStr_plain (c : Char) (f : Nat) (acc rest : List Char)
    (hq : ¬ c = '"') (hb : ¬ c = '\\') :
    parseJStr (f + 1) acc (c :: rest) = parseJStr f (c :: acc) rest := by
  rw [parseJStr.eq_def]
  simp [hq, hb]

theorem parseJStr_uEscape_bmp (c : Char) (f : Nat) (acc rest : List Char)
    (hn : c.toNat < 65536) :
    parseJStr (f + 1) acc (uEscape c.toNat ++ rest) = parseJStr f (c :: acc) rest := by
  obtain ⟨hrange, _⟩ := char_toNat_facts c
  rw [show uEscape c.toNat ++ rest
      = '\\' :: 'u' :: hexDigitChar (c.toNat / 4096 % 16)
        :: hexDigitChar (c.toNat / 256 % 16) :: hexDigitChar (c.toNat / 16 % 16)
        :: hexDigitChar (c.toNat % 16) :: rest from rfl,
    parseJStr_u_step]
  simp only [hexQuad_digits c.toNat hn]
  rw [if_neg (by omega), if_neg (by omega), Char.ofNat_toNat]

theorem parseJStr_uEscape_astral (c : Char) (f : Nat) (acc rest : List Char)
    (hn : 65536 ≤ c.toNat) :
    parseJStr (f + 1) acc ((uEscape (55296 + (c.toNat - 65536) / 1024)
        ++ uEscape (56320 + (c.toNat - 65536) % 1024)) ++ rest)
      = parseJStr f (c :: acc) rest := by
  obtain ⟨hrange, hmax⟩ := char_toNat_facts c
  have hdiv : (c.toNat - 65536) / 1024 < 1024 := by omega
  have hmd : (c.toNat - 65536) % 1024 < 1024 := Nat.mod_lt _ (by omega)
  have hhi : 55296 + (c.toNat - 65536) / 1024 < 65536 := by omega
  have hlo : 56320 + (c.toNat - 65536) % 1024 < 65536 := by omega
  rw [show (uEscape (55296 + (c.toNat - 65536) / 1024)
        ++ uEscape (56320 + (c.toNat - 65536) % 1024)) ++ rest
      = '\\' :: 'u'
        :: hexDigitChar ((55296 + (c.toNat - 65536) / 1024) / 4096 % 16)
        :: hexDigitChar ((55296 + (c.toNat - 65536) / 1024) / 256 % 16)
        :: hexDigitChar ((55296 + (c.toNat - 65536) / 1024) / 16 % 16)
        :: hexDigitChar ((55296 + (c.toNat - 65536) / 1024) % 16)
        :: '\\' :: 'u'
        :: hexDigitChar ((56320 + (c.toNat - 65536) % 1024) / 4096 % 16)
        :: hexDigitChar ((56320 + (c.toNat - 65536) % 1024) / 256 % 16)
        :: hexDigitChar ((56320 + (c.toNat - 65536) % 1024) / 16 % 16)
        :: hexDigitChar ((56320 + (c.toNat - 65536) % 1024) % 16)
        :: rest from rfl,
    parseJStr_u2_step]
  simp only [hexQuad_digits _ hhi]
  rw [if_pos (show 55296 ≤ 55296 + (c.toNat - 65536) / 1024
      ∧ 55296 + (c.toNat - 65536) / 1024 < 56320 from by omega)]
  simp only [hexQuad_digits _ hlo]
  rw [if_pos (show 56320 ≤ 56320 + (c.toNat - 65536) % 1024
      ∧ 56320 + (c.toNat - 65536) % 1024 < 57344 from by omega)]
  have harith : 65536 + (55296 + (c.toNat - 65536) / 1024 - 55296) * 1024
      + (56320 + (c.toNat - 65536) % 1024 - 56320) = c.toNat := by
    have hdm := Nat.div_add_mod (c.toNat - 65536) 1024
    omega
  rw [harith, Char.ofNat_toNat]

theorem parseJStr_escape (c : Char) (f : Nat) (acc rest : List Char) :
    parseJStr (f + 1) acc (pyEscapeChar c ++ rest) = parseJStr f (c :: acc) rest := by
  by_cases h1 : c = '"'
  · subst h1; rfl
  by_cases h2 : c = '\\'
  · subst h2; rfl
  by_cases h3 : c.toNat = 10
  · have hc : c = Char.ofNat 10 := by rw [← Char.ofNat_toNat c, h3]
    subst hc; rfl
  by_cases h4 : c.toNat = 13
  · have hc : c = Char.ofNat 13 := by rw [← Char.ofNat_toNat c, h4]
    subst hc; rfl
  by_cases h5 : c.toNat = 9
  · have hc : c = Char.ofNat 9 := by rw [← Char.ofNat_toNat c, h5]
    subst hc; rfl
  by_cases h6 : c.toNat = 8
  · have hc : c = Char.ofNat 8 := by rw [← Char.ofNat_toNat c, h6]
    subst hc; rfl
  by_cases h7 : c.toNat = 12
  · have hc : c = Char.ofNat 12 := by rw [← Char.ofNat_toNat c, h7]
    subst hc; rfl
  by_cases h8 : c.toNat < 32
  · have hpe : pyEscapeChar c = uEscape c.toNat := by
      unfold pyEscapeChar
      rw [if_neg h1, if_neg h2, if_neg h3, if_neg h4, if_neg h5, if_neg h6, if_neg h7,
        if_pos h8]
    rw [hpe]
    exact parseJStr_uEscape_bmp c f acc rest (by omega)
  by_cases h9 : c.toNat < 127
  · have hpe : pyEscapeChar c = [c] := by
      unfold pyEscapeChar
      rw [if_neg h1, if_neg h2, if_neg h3, if_neg h4, if_neg h5, if_neg h6, if_neg h7,
        if_neg h8, if_pos h9]
    rw [hpe, show ([c] ++ rest) = c :: rest from rfl]
    exact parseJStr_plain c f acc rest h1 h2
  by_cases h10 : c.toNat < 65536
  · have hpe : pyEscapeChar c = uEscape c.toNat := by
      unfold pyEscapeChar
      rw [if_neg h1, if_neg h2, if_neg h3, if_neg h4, if_neg h5, if_neg h6, if_neg h7,
        if_neg h8, if_neg h9, if_pos h10]
    rw [hpe]
    exact parseJStr_uEscape_bmp c f acc rest h10
  · have hpe : pyEscapeChar c = uEscape (55296 + (c.toNat - 65536) / 1024)
        ++ uEscape (56320 + (c.toNat - 65536) % 1024) := by
      unfold pyEscapeChar
      rw [if_neg h1, if_neg h2, if_neg h3, if_neg h4, if_neg h5, if_neg h6, if_neg h7,
        if_neg h8, if_neg h9, if_neg h10]
    rw [hpe]
    exact parseJStr_uEscape_astral c f acc rest (by omega)

theorem parseJStr_flatMap : ∀ (cs : List Char) (f : Nat) (acc rest : List Char),
    cs.length < f →
    parseJStr f acc (cs.flatMap pyEscapeChar ++ '"' :: rest)
      = some (String.mk (acc.reverse ++ cs), rest)
  | [], f, acc, rest, hf => by
      cases f with
      | zero => exact absurd hf (Nat.not_lt_zero _)
      | succ f2 => simp [parseJStr]
  | c :: cs, f, acc, rest, hf => by
      cases f with
      | zero => exact absurd hf (Nat.not_lt_zero _)
      | succ f2 =>
          have hf2 : cs.length < f2 := by
            simp only [List.length_cons] at hf
            omega
          rw [List.flatMap_cons, List.append_assoc, parseJStr_escape,
            parseJStr_flatMap cs f2 (c :: acc) rest hf2]
          simp

theorem parseJStr_renderJStr (s : String) (f : Nat) (rest : List Char)
    (hf : s.data.length < f) :
    parseJStr f [] (s.data.flatMap pyEscapeChar ++ '"' :: rest) = some (s, rest) := by
  rw [parseJStr_flatMap s.data f [] rest hf]
  simp [strMk_data]

theorem renderJson_head (j : Json) :
    ∃ c t, renderJson j = c :: t ∧ ¬ c = ']' := by
  cases j with
  | null => exact ⟨'n', _, rfl, by decide⟩
  | bool b =>
      cases b with
      | true => exact ⟨'t', _, rfl, by decide⟩
      | false => exact ⟨'f', _, rfl, by decide⟩
  | str s => exact ⟨'"', _, rfl, by decide⟩
  | arr es => exact ⟨'[', _, rfl, by decide⟩
  | obj ms => exact ⟨'{', _, rfl, by decide⟩
  | num i =>
      by_cases h : i < 0
      · refine ⟨'-', natDigits i.natAbs, ?_, by decide⟩
        rw [show renderJson (.num i) = intChars i from rfl, intChars, if_pos h]
      · obtain ⟨d, t, hd, hdig⟩ := natDigits_head i.toNat
        refine ⟨d, t, ?_, (isDigitChar_ne d hdig).2.2.2.2.2.2.2.1⟩
        rw [show renderJson (.num i) = intChars i from rfl, intChars, if_neg h, hd]

theorem parseJVal_digitHead (f : Nat) (d : Char) (t : List Char)
    (hd : isDigitChar d = true) :
    parseJVal (f + 1) (d :: t)
      = (match parseJInt (d :: t) with
         | some (i, r2) => some (.num i, r2)
         | none => none) := by
  obtain ⟨hn, ht, hf', hq, hbk, hbc, _, _, _, _⟩ := isDigitChar_ne d hd
  rw [parseJVal.eq_def]
  simp [hn, ht, hf', hq, hbk, hbc, hd]

theorem parseJVal_num (i : Int) (f : Nat) (rest : List Char) (hr : numStop rest = true) :
    parseJVal (f + 1) (intChars i ++ rest) = some (.num i, rest) := by
  by_cases h : i < 0
  · rw [show intChars i ++ rest = '-' :: (natDigits i.natAbs ++ rest) from by
      rw [intChars, if_pos h, List.cons_append]]
    rw [show parseJVal (f + 1) ('-' :: (natDigits i.natAbs ++ rest))
        = (match parseJInt ('-' :: (natDigits i.natAbs ++ rest)) with
           | some (i2, r2) => some (.num i2, r2)
           | none => none) from rfl]
    rw [show ('-' :: (natDigits i.natAbs ++ rest)) = intChars i ++ rest from by
      rw [intChars, if_pos h, List.cons_append]]
    rw [parseJInt_intChars i rest hr]
  · obtain ⟨d, t, hd, hdig⟩ := natDigits_head i.toNat
    have hic : intChars i = d :: t := by rw [intChars, if_neg h, hd]
    rw [hic, List.cons_append, parseJVal_digitHead f d (t ++ rest) hdig,
      show d :: (t ++ rest) = (d :: t) ++ rest from rfl, ← hic,
      parseJInt_intChars i rest hr]

theorem parseJElems_step (f : Nat) (cs : List Char) :
    parseJElems (f + 1) cs
      = (match parseJVal f cs with
         | none => none
         | some (v, r) =>
             match r with
             | ',' :: r2 =>
                 (match parseJElems f r2 with
                  | some (vs, r3) => some (v :: vs, r3)
                  | none => none)
             | ']' :: r2 => some ([v], r2)
             | _ => none) := rfl

theorem parseJMembers_step (f : Nat) (cs : List Char) :
    parseJMembers (f + 1) cs
      = (match cs with
         | '"' :: r =>
             (match parseJStr (r.length + 1) [] r with
              | none => none
              | some (k, r1) =>
                  match r1 with
                  | ':' :: r2 =>
                      (match parseJVal f r2 with
                       | none => none
                       | some (v, r3) =>
                           match r3 with
                           | ',' :: r4 =>
                               (match parseJMembers f r4 with
                                | some (ms, r5) => some ((k, v) :: ms, r5)
                                | none => none)
                           | '}' :: r4 => some ([(k, v)], r4)
                           | _ => none)
                  | _ => none)
         | _ => none) := rfl

theorem renderJElemsRest_cons (x : Json) (xs : List Json) :
    renderJElemsRest (x :: xs) = ',' :: renderJElems (x :: xs) := rfl

theorem renderJMembersRest_cons (k2 : String) (v2 : Json) (ms2 : List (String × Json)) :
    renderJMembersRest ((k2, v2) :: ms2) = ',' :: renderJMembers ((k2, v2) :: ms2) := rfl

mutual

theorem rt_val : ∀ (j : Json) (fuel : Nat) (rest : List Char),
    (renderJson j).length < fuel → numStop rest = true →
    parseJVal fuel (renderJson j ++ rest) = some (j, rest)
  | .null, fuel, rest, hf, _ => by
      cases fuel with
      | zero => exact absurd hf (Nat.not_lt_zero _)
      | succ f => rfl
  | .bool true, fuel, rest, hf, _ => by
      cases fuel with
      | zero => exact absurd hf (Nat.not_lt_zero _)
      | succ f => rfl
  | .bool false, fuel, rest, hf, _ => by
      cases fuel with
      | zero => exact absurd hf (Nat.not_lt_zero _)
      | succ f => rfl
  | .num i, fuel, rest, hf, hr => by
      cases fuel with
      | zero => exact absurd hf (Nat.not_lt_zero _)
      | succ f => exact parseJVal_num i f rest hr
  | .str s, fuel, rest, hf, _ => by
      cases fuel with
      | zero => exact absurd hf (Nat.not_lt_zero _)
      | succ f =>
          have harg : renderJson (.str s) ++ rest
              = '"' :: (s.data.flatMap pyEscapeChar ++ '"' :: rest) := by
            rw [show renderJson (.str s) = renderJStr s from rfl]
            simp [renderJStr]
          have hlen : s.data.length
              < (s.data.flatMap pyEscapeChar ++ '"' :: rest).length + 1 := by
            have h1 := flatMap_escape_length s.data
            simp only [List.length_append, List.length_cons]
            omega
          rw [harg,
            show parseJVal (f + 1) ('"' :: (s.data.flatMap pyEscapeChar ++ '"' :: rest))
              = (match parseJStr ((s.data.flatMap pyEscapeChar ++ '"' :: rest).length + 1)
                  [] (s.data.flatMap pyEscapeChar ++ '"' :: rest) with
                 | some (s2, r2) => some (.str s2, r2)
                 | none => none) from rfl,
            parseJStr_renderJStr s _ rest hlen]
  | .arr [], fuel, rest, hf, _ => by
      cases fuel with
      | zero => exact absurd hf (Nat.not_lt_zero _)
      | succ f => rfl
  | .arr (e :: es), fuel, rest, hf, _ => by
      cases fuel with
      | zero => exact absurd hf (Nat.not_lt_zero _)
      | succ f =>
          obtain ⟨c, t, hct, hcne⟩ := renderJson_head e
          have hcons : renderJElems (e :: es) ++ ']' :: rest
              = c :: (t ++ (renderJElemsRest es ++ ']' :: rest)) := by
            rw [show renderJElems (e :: es) = renderJson e ++ renderJElemsRest es from rfl,
              hct]
            simp
          have hfe : (renderJElems (e :: es)).length + 1 < f := by
            have hlen : (renderJson (.arr (e :: es))).length
                = (renderJElems (e :: es)).length + 2 := by
              rw [show renderJson (.arr (e :: es))
                  = '[' :: renderJElems (e :: es) ++ [']'] from rfl]
              simp
            omega
          have key := rt_elems e es f rest hfe
          have harg2 : renderJson (.arr (e :: es)) ++ rest
              = '[' :: c :: (t ++ (renderJElemsRest es ++ ']' :: rest)) := by
            rw [show renderJson (.arr (e :: es))
                = '[' :: renderJElems (e :: es) ++ [']'] from rfl]
            simp only [List.cons_append, List.append_assoc, List.nil_append]
            rw [hcons]
          rw [harg2,
            show parseJVal (f + 1) ('[' :: c :: (t ++ (renderJElemsRest es ++ ']' :: rest)))
              = (if c = ']' then some (.arr [], t ++ (renderJElemsRest es ++ ']' :: rest))
                 else
                   match parseJElems f (c :: (t ++ (renderJElemsRest es ++ ']' :: rest))) with
                   | some (es2, r2) => some (.arr es2, r2)
                   | none => none) from rfl,
            if_neg hcne,
            show c :: (t ++ (renderJElemsRest es ++ ']' :: rest))
              = renderJElems (e :: es) ++ ']' :: rest from hcons.symm,
            key]
  | .obj [], fuel, rest, hf, _ => by
      cases fuel with
      | zero => exact absurd hf (Nat.not_lt_zero _)
      | succ f => rfl
  | .obj ((k, v) :: ms), fuel, rest, hf, _ => by
      cases fuel with
      | zero => exact absurd hf (Nat.not_lt_zero _)
      | succ f =>
          have hfm : (renderJMembers ((k, v) :: ms)).length + 1 < f := by
            have hlen : (renderJson (.obj ((k, v) :: ms))).length
                = (renderJMembers ((k, v) :: ms)).length + 2 := by
              rw [show renderJson (.obj ((k, v) :: ms))
                  = '{' :: renderJMembers ((k, v) :: ms) ++ ['}'] from rfl]
              simp
            omega
          have key := rt_members k v ms f rest hfm
          have hcons : renderJMembers ((k, v) :: ms) ++ '}' :: rest
              = '"' :: (k.data.flatMap pyEscapeChar
                  ++ '"' :: (':' :: (renderJson v ++ (renderJMembersRest ms
                    ++ '}' :: rest)))) := by
            rw [show renderJMembers ((k, v) :: ms)
                = renderJStr k ++ ':' :: renderJson v ++ renderJMembersRest ms from rfl]
            simp [renderJStr]
          have harg2 : renderJson (.obj ((k, v) :: ms)) ++ rest
              = '{' :: ('"' :: (k.data.flatMap pyEscapeChar
                  ++ '"' :: (':' :: (renderJson v ++ (renderJMembersRest ms
                    ++ '}' :: rest))))) := by
            rw [show renderJson (.obj ((k, v) :: ms))
                = '{' :: renderJMembers ((k, v) :: ms) ++ ['}'] from rfl]
            simp only [List.cons_append, List.append_assoc, List.nil_append]
            rw [hcons]
          rw [harg2,
            show parseJVal (f + 1) ('{' :: ('"' :: (k.data.flatMap pyEscapeChar
                  ++ '"' :: (':' :: (renderJson v ++ (renderJMembersRest ms
                    ++ '}' :: rest))))))
              = (match parseJMembers f ('"' :: (k.data.flatMap pyEscapeChar
                  ++ '"' :: (':' :: (renderJson v ++ (renderJMembersRest ms
                    ++ '}' :: rest))))) with
                 | some (ms2, r2) => some (.obj ms2, r2)
                 | none => none) from rfl,
            show ('"' :: (k.data.flatMap pyEscapeChar
                  ++ '"' :: (':' :: (renderJson v ++ (renderJMembersRest ms
                    ++ '}' :: rest)))))
              = renderJMembers ((k, v) :: ms) ++ '}' :: rest from hcons.symm,
            key]
  termination_by j _ _ _ _ => sizeOf j

theorem rt_elems : ∀ (e : Json) (es : List Json) (fuel : Nat) (rest : List Char),
    (renderJElems (e :: es)).length + 1 < fuel →
    parseJElems fuel (renderJElems (e :: es) ++ ']' :: rest) = some (e :: es, rest)
  | e, [], fuel, rest, hf => by
      cases fuel with
      | zero => exact absurd hf (Nat.not_lt_zero _)
      | succ f =>
          have harg : renderJElems (e :: ([] : List Json)) ++ ']' :: rest
              = renderJson e ++ ']' :: rest := by
            rw [show renderJElems (e :: ([] : List Json))
                = renderJson e ++ renderJElemsRest [] from rfl]
            simp [renderJElemsRest]
          have hfe : (renderJson e).length < f := by
            have : (renderJElems (e :: ([] : List Json))).length
                = (renderJson e).length := by
              rw [show renderJElems (e :: ([] : List Json))
                  = renderJson e ++ renderJElemsRest [] from rfl]
              simp [renderJElemsRest]
            omega
          have hv := rt_val e f (']' :: rest) hfe rfl
          rw [harg, parseJElems_step, hv]
          rfl
  | e, x :: xs, fuel, rest, hf => by
      cases fuel with
      | zero => exact absurd hf (Nat.not_lt_zero _)
      | succ f =>
          have heq : renderJElems (e :: x :: xs)
              = renderJson e ++ ',' :: renderJElems (x :: xs) := rfl
          have hlen : (renderJElems (e :: x :: xs)).length
              = (renderJson e).length + ((renderJElems (x :: xs)).length + 1) := by
            rw [heq]
            simp
          have hfe : (renderJson e).length < f := by omega
          have hfx : (renderJElems (x :: xs)).length + 1 < f := by omega
          have hv := rt_val e f (',' :: (renderJElems (x :: xs) ++ ']' :: rest)) hfe rfl
          have key := rt_elems x xs f rest hfx
          have harg : renderJElems (e :: x :: xs) ++ ']' :: rest
              = renderJson e ++ (',' :: (renderJElems (x :: xs) ++ ']' :: rest)) := by
            rw [heq]
            simp
          rw [harg, parseJElems_step, hv]
          simp only [key]
  termination_by e es _ _ _ => sizeOf e + sizeOf es

theorem rt_members : ∀ (k : String) (v : Json) (ms : List (String × Json)) (fuel : Nat)
    (rest : List Char),
    (renderJMembers ((k, v) :: ms)).length + 1 < fuel →
    parseJMembers fuel (renderJMembers ((k, v) :: ms) ++ '}' :: rest)
      = some ((k, v) :: ms, rest)
  | k, v, [], fuel, rest, hf => by
      cases fuel with
      | zero => exact absurd hf (Nat.not_lt_zero _)
      | succ f =>
          have harg : renderJMembers ((k, v) :: ([] : List (String × Json))) ++ '}' :: rest
              = '"' :: (k.data.flatMap pyEscapeChar
                  ++ '"' :: (':' :: (renderJson v ++ '}' :: rest))) := by
            rw [show renderJMembers ((k, v) :: ([] : List (String × Json)))
                = renderJStr k ++ ':' :: renderJson v ++ renderJMembersRest [] from rfl]
            simp [renderJStr, renderJMembersRest]
          have hfe : (renderJson v).length < f := by
            have : (renderJMembers ((k, v) :: ([] : List (String × Json)))).length
                = (renderJStr k).length + ((renderJson v).length + 1) := by
              rw [show renderJMembers ((k, v) :: ([] : List (String × Json)))
                  = renderJStr k ++ ':' :: renderJson v ++ renderJMembersRest [] from rfl]
              simp [renderJMembersRest]
            omega
          have hv := rt_val v f ('}' :: rest) hfe rfl
          have hklen : k.data.length
              < (k.data.flatMap pyEscapeChar
                  ++ '"' :: (':' :: (renderJson v ++ '}' :: rest))).length + 1 := by
            have h1 := flatMap_escape_length k.data
            simp only [List.length_append, List.length_cons]
            omega
          have hstr := parseJStr_renderJStr k
            ((k.data.flatMap pyEscapeChar
              ++ '"' :: (':' :: (renderJson v ++ '}' :: rest))).length + 1)
            (':' :: (renderJson v ++ '}' :: rest)) hklen
          rw [harg, parseJMembers_step]
          simp only [hstr, hv]
  | k, v, (k2, v2) :: ms2, fuel, rest, hf => by
      cases fuel with
      | zero => exact absurd hf (Nat.not_lt_zero _)
      | succ f =>
          have heq : renderJMembers ((k, v) :: (k2, v2) :: ms2)
              = renderJStr k ++ ':' :: renderJson v
                  ++ renderJMembersRest ((k2, v2) :: ms2) := rfl
          have hlen : (renderJMembers ((k, v) :: (k2, v2) :: ms2)).length
              = (renderJStr k).length + ((renderJson v).length
                + ((renderJMembers ((k2, v2) :: ms2)).length + 2)) := by
            rw [heq, renderJMembersRest_cons]
            simp only [List.length_append, List.length_cons]
            omega
          have hfe : (renderJson v).length < f := by omega
          have hfx : (renderJMembers ((k2, v2) :: ms2)).length + 1 < f := by omega
          have hv := rt_val v f
            (',' :: (renderJMembers ((k2, v2) :: ms2) ++ '}' :: rest)) hfe rfl
          have key := rt_members k2 v2 ms2 f rest hfx
          have harg : renderJMembers ((k, v) :: (k2, v2) :: ms2) ++ '}' :: rest
              = '"' :: (k.data.flatMap pyEscapeChar
                  ++ '"' :: (':' :: (renderJson v
                    ++ (',' :: (renderJMembers ((k2, v2) :: ms2) ++ '}' :: rest))))) := by
            rw [heq, renderJMembersRest_cons]
            simp [renderJStr]
          have hklen : k.data.length
              < (k.data.flatMap pyEscapeChar
                  ++ '"' :: (':' :: (renderJson v
                    ++ (',' :: (renderJMembers ((k2, v2) :: ms2)
                      ++ '}' :: rest))))).length + 1 := by
            have h1 := flatMap_escape_length k.data
            simp only [List.length_append, List.length_cons]
            omega
          have hstr := parseJStr_renderJStr k
            ((k.data.flatMap pyEscapeChar
              ++ '"' :: (':' :: (renderJson v
                ++ (',' :: (renderJMembers ((k2, v2) :: ms2) ++ '}' :: rest))))).length + 1)
            (':' :: (renderJson v
              ++ (',' :: (renderJMembers ((k2, v2) :: ms2) ++ '}' :: rest)))) hklen
          rw [harg, parseJMembers_step]
          simp only [hstr, hv, key]
  termination_by k v ms _ _ _ => sizeOf k + sizeOf v + sizeOf ms

end

theorem jsonLoads_renderJson (j : Json) :
    jsonLoads (String.mk (renderJson j)) = some j := by
  have hv := rt_val j ((renderJson j).length + 1) [] (by omega) rfl
  rw [List.append_nil] at hv
  unfold jsonLoads
  rw [strData_mk, hv]

theorem bindParse {α : Type} (w n : Nat) (rest : List Char)
    (f : Nat × List Char → Option α) (h : n < 10 ^ w) :
    (parseNDigits w 0 (padDigits w n ++ rest)).bind f = f (n, rest) := by
  rw [parseNDigits0 w n rest h]
  rfl

theorem bindExpect {α : Type} (c : Char) (rest : List Char) (f : List Char → Option α) :
    (expectChar c (c :: rest)).bind f = f rest := by
  simp [expectChar]

theorem parseUsOpt_suffix (us : Nat) (hus : us ≤ 999999) (tz : Option Int) :
    parseUsOpt (usSuffix us ++ tzSuffix tz) = some (us, tzSuffix tz) := by
  by_cases hus0 : us = 0
  · subst hus0
    rw [show usSuffix 0 = [] from rfl, List.nil_append]
    rcases tz with _ | off
    · rfl
    · rw [show tzSuffix (some off)
        = (if off < 0 then '-' else '+')
            :: (padDigits 2 (off.natAbs / 60) ++ ':' :: padDigits 2 (off.natAbs % 60))
        from by rw [tzSuffix]; simp]
      by_cases hoff : off < 0
      · rw [if_pos hoff]
        rfl
      · rw [if_neg hoff]
        rfl
  · rw [show usSuffix us = '.' :: padDigits 6 us from by rw [usSuffix, if_neg hus0],
      List.cons_append,
      show parseUsOpt ('.' :: (padDigits 6 us ++ tzSuffix tz))
        = parseNDigits 6 0 (padDigits 6 us ++ tzSuffix tz) from rfl,
      parseNDigits0 6 us (tzSuffix tz) (by omega)]

theorem parseTzTail_suffix (tz : Option Int) (h : tzBounded tz = true) :
    parseTzTail (tzSuffix tz) = some tz := by
  rcases tz with _ | off
  · rfl
  · have hb : off.natAbs ≤ 1439 := by
      unfold tzBounded at h
      simpa using h
    have hdiv : off.natAbs / 60 < 100 := by omega
    have hmod : off.natAbs % 60 < 100 := by
      have := Nat.mod_lt off.natAbs (show 0 < 60 by omega)
      omega
    have hdm := Nat.div_add_mod off.natAbs 60
    by_cases hoff : off < 0
    · rw [show tzSuffix (some off)
        = '-' :: (padDigits 2 (off.natAbs / 60) ++ ':' :: padDigits 2 (off.natAbs % 60))
        from by rw [tzSuffix]; rw [if_pos hoff]; simp]
      rw [show parseTzTail ('-' :: (padDigits 2 (off.natAbs / 60)
            ++ ':' :: padDigits 2 (off.natAbs % 60)))
        = ((parseNDigits 2 0 (padDigits 2 (off.natAbs / 60)
            ++ ':' :: padDigits 2 (off.natAbs % 60))).bind fun q1 =>
           (expectChar ':' q1.2).bind fun q2 =>
           (parseNDigits 2 0 q2).bind fun q3 =>
           match q3.2 with
           | [] => some (some ((if ('-' : Char) = '-' then -1 else 1)
               * ((q1.1 * 60 + q3.1 : Nat) : Int)))
           | _ => none) from rfl]
      rw [bindParse 2 (off.natAbs / 60) _ _ (by omega)]
      simp only []
      rw [bindExpect ':' _ _]
      rw [show padDigits 2 (off.natAbs % 60) = padDigits 2 (off.natAbs % 60) ++ []
        from (List.append_nil _).symm]
      rw [bindParse 2 (off.natAbs % 60) _ _ (by omega)]
      simp only []
      simp only [Option.some.injEq]
      simp only [show (('-' : Char) = '-') = True from by simp, if_true]
      omega
    · rw [show tzSuffix (some off)
        = '+' :: (padDigits 2 (off.natAbs / 60) ++ ':' :: padDigits 2 (off.natAbs % 60))
        from by rw [tzSuffix]; rw [if_neg hoff]; simp]
      rw [show parseTzTail ('+' :: (padDigits 2 (off.natAbs / 60)
            ++ ':' :: padDigits 2 (off.natAbs % 60)))
        = ((parseNDigits 2 0 (padDigits 2 (off.natAbs / 60)
            ++ ':' :: padDigits 2 (off.natAbs % 60))).bind fun q1 =>
           (expectChar ':' q1.2).bind fun q2 =>
           (parseNDigits 2 0 q2).bind fun q3 =>
           match q3.2 with
           | [] => some (some ((if ('+' : Char) = '-' then -1 else 1)
               * ((q1.1 * 60 + q3.1 : Nat) : Int)))
           | _ => none) from rfl]
      rw [bindParse 2 (off.natAbs / 60) _ _ (by omega)]
      simp only []
      rw [bindExpect ':' _ _]
      rw [show padDigits 2 (off.natAbs % 60) = padDigits 2 (off.natAbs % 60) ++ []
        from (List.append_nil _).symm]
      rw [bindParse 2 (off.natAbs % 60) _ _ (by omega)]
      simp only []
      simp only [Option.some.injEq]
      simp only [show (('+' : Char) = '-') = False from by simp, if_false]
      omega

theorem fromisoformat_isoformat (d : Datetime) (h : d.isRealizable = true) :
    Datetime.fromisoformat d.isoformat = some d := by
  obtain ⟨y, mo, da, ho, mi, se, us, tz⟩ := d
  unfold Datetime.isRealizable at h
  simp only [Bool.and_eq_true, decide_eq_true_eq] at h
  obtain ⟨⟨⟨⟨⟨⟨⟨⟨⟨⟨hy1, hy2⟩, hmo1⟩, hmo2⟩, hda1⟩, hda2⟩, hho⟩, hmi⟩, hse⟩, hus⟩, htz⟩ := h
  unfold Datetime.isoformat Datetime.fromisoformat
  rw [strData_mk]
  simp only [List.append_assoc, List.cons_append]
  rw [bindParse 4 y _ _ (by omega)]
  simp only []
  rw [bindExpect '-' _ _]
  rw [bindParse 2 mo _ _ (by omega)]
  simp only []
  rw [bindExpect '-' _ _]
  rw [bindParse 2 da _ _ (by omega)]
  simp only []
  rw [bindExpect 'T' _ _]
  rw [bindParse 2 ho _ _ (by omega)]
  simp only []
  rw [bindExpect ':' _ _]
  rw [bindParse 2 mi _ _ (by omega)]
  simp only []
  rw [bindExpect ':' _ _]
  rw [bindParse 2 se _ _ (by omega)]
  simp only []
  rw [parseUsOpt_suffix us hus tz]
  simp only [Option.some_bind]
  rw [parseTzTail_suffix tz htz]
  simp only [Option.some_bind]

theorem isDigitChar_char (c : Char) (h : isDigitChar c = true) :
    (32 ≤ c.toNat ∧ c.toNat < 127) ∧ ¬ c = ' ' := by
  unfold isDigitChar at h
  simp only [Bool.and_eq_true, decide_eq_true_eq] at h
  refine ⟨by omega, fun hh => ?_⟩
  subst hh
  exact absurd h (by decide)

theorem hexDigitChar_char (k : Nat) (h : k < 16) :
    (32 ≤ (hexDigitChar k).toNat ∧ (hexDigitChar k).toNat < 127)
      ∧ ¬ hexDigitChar k = ' ' := by
  interval_cases k <;> exact ⟨by decide, by decide⟩

theorem uEscape_chars (n : Nat) :
    ∀ x ∈ uEscape n, (32 ≤ x.toNat ∧ x.toNat < 127) ∧ ¬ x = ' ' := by
  intro x hx
  unfold uEscape at hx
  simp only [List.mem_cons, List.not_mem_nil, or_false] at hx
  rcases hx with rfl | rfl | rfl | rfl | rfl | rfl
  · exact ⟨by decide, by decide⟩
  · exact ⟨by decide, by decide⟩
  · exact hexDigitChar_char _ (Nat.mod_lt _ (by omega))
  · exact hexDigitChar_char _ (Nat.mod_lt _ (by omega))
  · exact hexDigitChar_char _ (Nat.mod_lt _ (by omega))
  · exact hexDigitChar_char _ (Nat.mod_lt _ (by omega))

theorem pyEscapeChar_chars (c : Char) :
    ∀ x ∈ pyEscapeChar c,
      (32 ≤ x.toNat ∧ x.toNat < 127) ∧ (¬ c = ' ' → ¬ x = ' ') := by
  intro x hx
  unfold pyEscapeChar at hx
  repeat' split at hx
  all_goals first
    | (refine ⟨(uEscape_chars _ x hx).1, fun _ => (uEscape_chars _ x hx).2⟩)
    | (rcases List.mem_append.mp hx with hx2 | hx2
       · exact ⟨(uEscape_chars _ x hx2).1, fun _ => (uEscape_chars _ x hx2).2⟩
       · exact ⟨(uEscape_chars _ x hx2).1, fun _ => (uEscape_chars _ x hx2).2⟩)
    | (simp only [List.mem_cons, List.not_mem_nil, or_false] at hx
       rcases hx with rfl | rfl
       · exact ⟨by decide, fun _ => by decide⟩
       · exact ⟨by decide, fun _ => by decide⟩)
    | (simp only [List.mem_cons, List.not_mem_nil, or_false] at hx
       rcases hx with rfl
       exact ⟨by omega, fun hcs => hcs⟩)

theorem not_contains_space (s : String) (h : (!s.data.contains ' ') = true) :
    ∀ c ∈ s.data, ¬ c = ' ' := by
  intro c hc hh
  subst hh
  have hcon : s.data.contains ' ' = true :=
    List.contains_iff_exists_mem_beq.mpr ⟨' ', hc, by simp⟩
  rw [hcon] at h
  exact absurd h (by decide)

theorem renderJStr_chars (s : String) :
    ∀ x ∈ renderJStr s,
      (32 ≤ x.toNat ∧ x.toNat < 127)
        ∧ ((!s.data.contains ' ') = true → ¬ x = ' ') := by
  intro x hx
  unfold renderJStr at hx
  rcases List.mem_append.mp hx with hx | hx
  · rcases List.mem_cons.mp hx with rfl | hx
    · exact ⟨by decide, fun _ => by decide⟩
    · obtain ⟨c, hcs, hcx⟩ := List.mem_flatMap.mp hx
      refine ⟨(pyEscapeChar_chars c x hcx).1, fun hns => ?_⟩
      exact (pyEscapeChar_chars c x hcx).2 (not_contains_space s hns c hcs)
  · simp only [List.mem_singleton] at hx
    subst hx
    exact ⟨by decide, fun _ => by decide⟩

theorem intChars_chars (i : Int) :
    ∀ x ∈ intChars i, (32 ≤ x.toNat ∧ x.toNat < 127) ∧ ¬ x = ' ' := by
  intro x hx
  unfold intChars at hx
  split at hx
  · rcases List.mem_cons.mp hx with rfl | hx
    · exact ⟨by decide, by decide⟩
    · exact isDigitChar_char x ((natDigits_spec _).2.1 x hx)
  · exact isDigitChar_char x ((natDigits_spec _).2.1 x hx)

mutual

theorem renderJson_chars : ∀ (j : Json), ∀ x ∈ renderJson j,
    (32 ≤ x.toNat ∧ x.toNat < 127) ∧ (jsonNoSpace j = true → ¬ x = ' ')
  | .null => by
      intro x hx
      rw [show renderJson .null = ['n', 'u', 'l', 'l'] from rfl] at hx
      simp only [List.mem_cons, List.not_mem_nil, or_false] at hx
      rcases hx with rfl | rfl | rfl | rfl <;> exact ⟨by decide, fun _ => by decide⟩
  | .bool true => by
      intro x hx
      rw [show renderJson (.bool true) = ['t', 'r', 'u', 'e'] from rfl] at hx
      simp only [List.mem_cons, List.not_mem_nil, or_false] at hx
      rcases hx with rfl | rfl | rfl | rfl <;> exact ⟨by decide, fun _ => by decide⟩
  | .bool false => by
      intro x hx
      rw [show renderJson (.bool false) = ['f', 'a', 'l', 's', 'e'] from rfl] at hx
      simp only [List.mem_cons, List.not_mem_nil, or_false] at hx
      rcases hx with rfl | rfl | rfl | rfl | rfl <;> exact ⟨by decide, fun _ => by decide⟩
  | .num i => by
      intro x hx
      rw [show renderJson (.num i) = intChars i from rfl] at hx
      exact ⟨(intChars_chars i x hx).1, fun _ => (intChars_chars i x hx).2⟩
  | .str s => by
      intro x hx
      rw [show renderJson (.str s) = renderJStr s from rfl] at hx
      exact ⟨(renderJStr_chars s x hx).1, fun hns => (renderJStr_chars s x hx).2 hns⟩
  | .arr es => by
      intro x hx
      rw [show renderJson (.arr es) = '[' :: renderJElems es ++ [']'] from rfl] at hx
      rcases List.mem_append.mp hx with hx | hx
      · rcases List.mem_cons.mp hx with rfl | hx
        · exact ⟨by decide, fun _ => by decide⟩
        · exact ⟨(renderJElems_chars es x hx).1,
            fun hns => (renderJElems_chars es x hx).2 hns⟩
      · simp only [List.mem_singleton] at hx
        subst hx
        exact ⟨by decide, fun _ => by decide⟩
  | .obj ms => by
      intro x hx
      rw [show renderJson (.obj ms) = '{' :: renderJMembers ms ++ ['}'] from rfl] at hx
      rcases List.mem_append.mp hx with hx | hx
      · rcases List.mem_cons.mp hx with rfl | hx
        · exact ⟨by decide, fun _ => by decide⟩
        · exact ⟨(renderJMembers_chars ms x hx).1,
            fun hns => (renderJMembers_chars ms x hx).2 hns⟩
      · simp only [List.mem_singleton] at hx
        subst hx
        exact ⟨by decide, fun _ => by decide⟩
  termination_by j => sizeOf j

theorem renderJElems_chars : ∀ (es : List Json), ∀ x ∈ renderJElems es,
    (32 ≤ x.toNat ∧ x.toNat < 127) ∧ (jsonListNoSpace es = true → ¬ x = ' ')
  | [] => by
      intro x hx
      rw [show renderJElems [] = [] from rfl] at hx
      exact absurd hx (List.not_mem_nil x)
  | e :: es => by
      intro x hx
      rw [show renderJElems (e :: es) = renderJson e ++ renderJElemsRest es from rfl] at hx
      have hsplit : jsonListNoSpace (e :: es) = true
          → jsonNoSpace e = true ∧ jsonListNoSpace es = true := by
        intro hns
        unfold jsonListNoSpace at hns
        simpa [Bool.and_eq_true] using hns
      rcases List.mem_append.mp hx with hx | hx
      · exact ⟨(renderJson_chars e x hx).1,
          fun hns => (renderJson_chars e x hx).2 (hsplit hns).1⟩
      · exact ⟨(renderJElemsRest_chars es x hx).1,
          fun hns => (renderJElemsRest_chars es x hx).2 (hsplit hns).2⟩
  termination_by es => sizeOf es

theorem renderJElemsRest_chars : ∀ (es : List Json), ∀ x ∈ renderJElemsRest es,
    (32 ≤ x.toNat ∧ x.toNat < 127) ∧ (jsonListNoSpace es = true → ¬ x = ' ')
  | [] => by
      intro x hx
      rw [show renderJElemsRest [] = [] from rfl] at hx
      exact absurd hx (List.not_mem_nil x)
  | e :: es => by
      intro x hx
      rw [show renderJElemsRest (e :: es)
          = ',' :: renderJson e ++ renderJElemsRest es from rfl] at hx
      have hsplit : jsonListNoSpace (e :: es) = true
          → jsonNoSpace e = true ∧ jsonListNoSpace es = true := by
        intro hns
        unfold jsonListNoSpace at hns
        simpa [Bool.and_eq_true] using hns
      rcases List.mem_append.mp hx with hx | hx
      · rcases List.mem_cons.mp hx with rfl | hx
        · exact ⟨by decide, fun _ => by decide⟩
        · exact ⟨(renderJson_chars e x hx).1,
            fun hns => (renderJson_chars e x hx).2 (hsplit hns).1⟩
      · exact ⟨(renderJElemsRest_chars es x hx).1,
          fun hns => (renderJElemsRest_chars es x hx).2 (hsplit hns).2⟩
  termination_by es => sizeOf es

theorem renderJMembers_chars : ∀ (ms : List (String × Json)), ∀ x ∈ renderJMembers ms,
    (32 ≤ x.toNat ∧ x.toNat < 127) ∧ (jsonMembersNoSpace ms = true → ¬ x = ' ')
  | [] => by
      intro x hx
      rw [show renderJMembers [] = [] from rfl] at hx
      exact absurd hx (List.not_mem_nil x)
  | (k, v) :: ms => by
      intro x hx
      rw [show renderJMembers ((k, v) :: ms)
          = renderJStr k ++ ':' :: renderJson v ++ renderJMembersRest ms from rfl] at hx
      have hsplit : jsonMembersNoSpace ((k, v) :: ms) = true
          → (!k.data.contains ' ') = true ∧ jsonNoSpace v = true
            ∧ jsonMembersNoSpace ms = true := by
        intro hns
        unfold jsonMembersNoSpace at hns
        simp only [Bool.and_eq_true] at hns
        exact ⟨hns.1.1, hns.1.2, hns.2⟩
      rcases List.mem_append.mp hx with hx | hx
      · rcases List.mem_append.mp hx with hx | hx
        · exact ⟨(renderJStr_chars k x hx).1,
            fun hns => (renderJStr_chars k x hx).2 (hsplit hns).1⟩
        · rcases List.mem_cons.mp hx with rfl | hx
          · exact ⟨by decide, fun _ => by decide⟩
          · exact ⟨(renderJson_chars v x hx).1,
              fun hns => (renderJson_chars v x hx).2 (hsplit hns).2.1⟩
      · exact ⟨(renderJMembersRest_chars ms x hx).1,
          fun hns => (renderJMembersRest_chars ms x hx).2 (hsplit hns).2.2⟩
  termination_by ms => sizeOf ms

theorem renderJMembersRest_chars : ∀ (ms : List (String × Json)),
    ∀ x ∈ renderJMembersRest ms,
    (32 ≤ x.toNat ∧ x.toNat < 127) ∧ (jsonMembersNoSpace ms = true → ¬ x = ' ')
  | [] => by
      intro x hx
      rw [show renderJMembersRest [] = [] from rfl] at hx
      exact absurd hx (List.not_mem_nil x)
  | (k, v) :: ms => by
      intro x hx
      rw [show renderJMembersRest ((k, v) :: ms)
          = ',' :: renderJStr k ++ ':' :: renderJson v ++ renderJMembersRest ms
        from rfl] at hx
      have hsplit : jsonMembersNoSpace ((k, v) :: ms) = true
          → (!k.data.contains ' ') = true ∧ jsonNoSpace v = true
            ∧ jsonMembersNoSpace ms = true := by
        intro hns
        unfold jsonMembersNoSpace at hns
        simp only [Bool.and_eq_true] at hns
        exact ⟨hns.1.1, hns.1.2, hns.2⟩
      rcases List.mem_append.mp hx with hx | hx
      · rcases List.mem_append.mp hx with hx | hx
        · rcases List.mem_cons.mp hx with rfl | hx
          · exact ⟨by decide, fun _ => by decide⟩
          · exact ⟨(renderJStr_chars k x hx).1,
              fun hns => (renderJStr_chars k x hx).2 (hsplit hns).1⟩
        · rcases List.mem_cons.mp hx with rfl | hx
          · exact ⟨by decide, fun _ => by decide⟩
          · exact ⟨(renderJson_chars v x hx).1,
              fun hns => (renderJson_chars v x hx).2 (hsplit hns).2.1⟩
      · exact ⟨(renderJMembersRest_chars ms x hx).1,
          fun hns => (renderJMembersRest_chars ms x hx).2 (hsplit hns).2.2⟩
  termination_by ms => sizeOf ms

end

theorem padDigits_ne_Z (w n : Nat) : ∀ c ∈ padDigits w n, ¬ c = 'Z' := by
  intro c hc hh
  subst hh
  exact absurd (padDigits_digits w n 'Z' hc) (by decide)

theorem usSuffix_no_Z (us : Nat) : ∀ c ∈ usSuffix us, ¬ c = 'Z' := by
  intro c hc
  unfold usSuffix at hc
  split at hc
  · exact absurd hc (List.not_mem_nil c)
  · rcases List.mem_cons.mp hc with rfl | hc
    · decide
    · exact padDigits_ne_Z 6 _ c hc

theorem tzSuffix_no_Z (tz : Option Int) : ∀ c ∈ tzSuffix tz, ¬ c = 'Z' := by
  intro c hc
  rcases tz with _ | off
  · exact absurd hc (List.not_mem_nil c)
  · rw [show tzSuffix (some off)
        = (if off < 0 then '-' else '+')
            :: padDigits 2 (off.natAbs / 60) ++ ':' :: padDigits 2 (off.natAbs % 60)
      from rfl] at hc
    rcases List.mem_append.mp hc with hc | hc
    · rcases List.mem_cons.mp hc with rfl | hc
      · by_cases hoff : off < 0
        · rw [if_pos hoff]
          decide
        · rw [if_neg hoff]
          decide
      · exact padDigits_ne_Z 2 _ c hc
    · rcases List.mem_cons.mp hc with rfl | hc
      · decide
      · exact padDigits_ne_Z 2 _ c hc

theorem isoformat_no_Z (d : Datetime) : ∀ c ∈ (Datetime.isoformat d).data, ¬ c = 'Z' := by
  intro c hc
  unfold Datetime.isoformat at hc
  rw [strData_mk] at hc
  rcases List.mem_append.mp hc with hc | hc
  · rcases List.mem_append.mp hc with hc | hc
    · rcases List.mem_append.mp hc with hc | hc
      · rcases List.mem_append.mp hc with hc | hc
        · rcases List.mem_append.mp hc with hc | hc
          · exact padDigits_ne_Z 4 _ c hc
          · rcases List.mem_cons.mp hc with rfl | hc
            · decide
            · exact padDigits_ne_Z 2 _ c hc
        · rcases List.mem_cons.mp hc with rfl | hc
          · decide
          · exact padDigits_ne_Z 2 _ c hc
      · rcases List.mem_cons.mp hc with rfl | hc
        · decide
        · exact padDigits_ne_Z 2 _ c hc
    · rcases List.mem_cons.mp hc with rfl | hc
      · decide
      · exact padDigits_ne_Z 2 _ c hc
  · rcases List.mem_cons.mp hc with rfl | hc
    · decide
    · rcases List.mem_append.mp hc with hc | hc
      · exact padDigits_ne_Z 2 _ c hc
      · rcases List.mem_append.mp hc with hc | hc
        · exact usSuffix_no_Z _ c hc
        · exact tzSuffix_no_Z _ c hc

theorem flatMapZ_noop : ∀ (l : List Char), (∀ c ∈ l, ¬ c = 'Z') →
    (l.flatMap fun c =>
      if c = 'Z' then ['+', '0', '0', ':', '0', '0'] else [c]) = l
  | [], _ => rfl
  | c :: l, h => by
      rw [List.flatMap_cons, if_neg (h c (List.mem_cons_self c l)),
        flatMapZ_noop l (fun d hd => h d (List.mem_cons_of_mem c hd))]
      rfl

theorem replaceZ_noop (s : String) (h : ∀ c ∈ s.data, ¬ c = 'Z') : replaceZ s = s := by
  unfold replaceZ
  rw [flatMapZ_noop s.data h, strMk_data]

theorem ActorKind_fromValue_value (k : ActorKind) :
    ActorKind.fromValue k.value = some k := by
  cases k <;> rfl

theorem SubmissionState_fromValue_value (st : SubmissionState) :
    SubmissionState.fromValue st.value = some st := by
  cases st <;> rfl

theorem EventType_fromValue_value (ty : EventType) :
    EventType.fromValue ty.value = some ty := by
  cases ty <;> rfl

theorem Actor_fromDict_toDict (a : Actor) (h : ¬ a.metadata = none) :
    Actor.fromDict a.toDict = some a := by
  obtain ⟨k, i, nm, md⟩ := a
  rcases md with _ | m
  · exact absurd rfl h
  · rcases nm with _ | n
    · cases m with
      | nil => cases k <;> rfl
      | cons p ps => cases k <;> rfl
    · cases m with
      | nil => cases k <;> rfl
      | cons p ps => cases k <;> rfl

theorem fromDict_eval (d : List (String × Json)) (ts_str : String) (ts : Datetime)
    (am : List (String × Json)) (actor : Actor) (eid tv sid sv : String)
    (ty : EventType) (st : SubmissionState)
    (h1 : jlookup d "ts" = some (.str ts_str))
    (h2 : Datetime.fromisoformat (replaceZ ts_str) = some ts)
    (h3 : jlookup d "actor" = some (.obj am))
    (h4 : Actor.fromDict am = some actor)
    (h5 : jlookup d "eventId" = some (.str eid))
    (h6 : jlookup d "type" = some (.str tv))
    (h7 : jlookup d "submissionId" = some (.str sid))
    (h8 : jlookup d "state" = some (.str sv))
    (h9 : EventType.fromValue tv = some ty)
    (h10 : SubmissionState.fromValue sv = some st) :
    IntakeEvent.fromDict d
      = some ⟨eid, ty, sid, ts, actor, st,
          match jlookup d "payload" with
          | some (.obj pm) => some pm
          | _ => none⟩ := by
  unfold IntakeEvent.fromDict
  rw [h1]
  simp only []
  rw [h2]
  simp only []
  rw [h3]
  simp only []
  rw [h4]
  simp only []
  rw [h5, h6, h7, h8]
  simp only []
  rw [h9, h10]

theorem IntakeEvent_fromDict_toDict (e : IntakeEvent) (hmeta : ¬ e.actor.metadata = none)
    (hts : e.ts.isRealizable = true) :
    IntakeEvent.fromDict e.toDict = some e := by
  obtain ⟨eid, ty, sid, ts, actor, st, pl⟩ := e
  have hrepl : replaceZ ts.isoformat = ts.isoformat := replaceZ_noop _ (isoformat_no_Z ts)
  have hiso : Datetime.fromisoformat (replaceZ ts.isoformat) = some ts := by
    rw [hrepl]
    exact fromisoformat_isoformat ts hts
  have hact := Actor_fromDict_toDict actor hmeta
  rcases pl with _ | p
  · exact (fromDict_eval (IntakeEvent.toDict ⟨eid, ty, sid, ts, actor, st, none⟩)
      ts.isoformat ts actor.toDict actor eid ty.value sid st.value ty st
      rfl hiso rfl hact rfl rfl rfl rfl
      (EventType_fromValue_value ty) (SubmissionState_fromValue_value st)).trans (by rfl)
  · exact (fromDict_eval (IntakeEvent.toDict ⟨eid, ty, sid, ts, actor, st, some p⟩)
      ts.isoformat ts actor.toDict actor eid ty.value sid st.value ty st
      rfl hiso rfl hact rfl rfl rfl rfl
      (EventType_fromValue_value ty) (SubmissionState_fromValue_value st)).trans (by rfl)

theorem parseJsonl_toJsonl (e : IntakeEvent) (hmeta : ¬ e.actor.metadata = none)
    (hts : e.ts.isRealizable = true) :
    IntakeEvent.parseJsonl e.toJsonl = some e := by
  unfold IntakeEvent.parseJsonl IntakeEvent.toJsonl
  rw [jsonLoads_renderJson]
  exact IntakeEvent_fromDict_toDict e hmeta hts

/-- C9 (amended). For every event whose actor's `metadata` is an actual dict
(the dataclass default is the empty dict; `None` is the exception refuted by
the counterexample) and whose timestamp satisfies the invariants Python's
`datetime`/`timezone` constructors enforce, writing the event with
`to_jsonl` and reading the line back (`json.loads` then
`IntakeEvent.from_dict`) recovers every field exactly. Unconditionally, the
serialized line consists solely of printable ASCII (codes 32–126), so it is
a single line; and whitespace can come only from string atoms — a document
all of whose strings are space-free renders with no space at all. -/
theorem jsonl_roundtrip_and_compact (e : IntakeEvent)
    (hmeta : ¬ e.actor.metadata = none) (hts : e.ts.isRealizable = true) :
    IntakeEvent.parseJsonl e.toJsonl = some e
    ∧ (∀ c ∈ e.toJsonl.data, 32 ≤ c.toNat ∧ c.toNat < 127)
    ∧ (jsonNoSpace (.obj e.toDict) = true → ∀ c ∈ e.toJsonl.data, ¬ c = ' ') := by
  refine ⟨parseJsonl_toJsonl e hmeta hts, ?_, ?_⟩
  · intro c hc
    unfold IntakeEvent.toJsonl at hc
    rw [strData_mk] at hc
    exact (renderJson_chars (.obj e.toDict) c hc).1
  · intro hns c hc
    unfold IntakeEvent.toJsonl at hc
    rw [strData_mk] at hc
    exact (renderJson_chars (.obj e.toDict) c hc).2 hns

/-- Witness for C9 at the concrete event `c9event`. -/
theorem jsonl_roundtrip_and_compact_witness :
    (¬ c9event.actor.metadata = none) ∧ c9event.ts.isRealizable = true
    ∧ (IntakeEvent.parseJsonl c9event.toJsonl = some c9event
      ∧ (∀ c ∈ c9event.toJsonl.data, 32 ≤ c.toNat ∧ c.toNat < 127)
      ∧ (jsonNoSpace (.obj c9event.toDict) = true
          → ∀ c ∈ c9event.toJsonl.data, ¬ c = ' ')) :=
  ⟨fun h => Option.noConfusion h, by decide,
    jsonl_roundtrip_and_compact c9event (fun h => Option.noConfusion h) (by decide)⟩

/-- Counterexample for C9 as stated: an event whose actor was constructed
with `metadata=None` (the `Optional[Dict]` annotation admits it) serializes
with the `metadata` key omitted, and parsing the line back yields
`metadata=\x7b\x7d` — `Actor.from_dict`'s `data.get("metadata", \x7b\x7d)`
default — so the round trip does not restore the `actor` field. -/
theorem jsonl_metadata_roundtrip_counterexample :
    (IntakeEvent.parseJsonl c9eventNoneMeta.toJsonl).map (fun ev => ev.actor.metadata)
        = some (some [])
    ∧ c9eventNoneMeta.actor.metadata = none :=
  ⟨rfl, rfl⟩

end FormBridge
